import Mathlib

/-!
# akvorado: sFlow decoder (`inlet/flow/decoder/sflow/decode.go`) and SNMP poller
(`inlet/snmp/poller.go`)

A shallow embedding of the sFlow-to-record decoder, of `realPoller.Poll` (its
metrics and `put` calls are the list of events it yields, its pending-request
map is explicit state) and of the schema configuration.  Go slices of bytes are
lists of `Fin 256`; every index and slice expression of the source is a
fallible operation in `Except Fault`, so that "the decoder cannot panic" is a
statement about the embedding and not an assumption of it.  Unsigned machine
integers are natural numbers; the only place where the source does `uint8`
arithmetic that could wrap (`(data[0] & 0xf) * 4`) carries an explicit
`% 256`.
-/

namespace Akvorado

/-! ## Go slices and `encoding/binary` -/

/-- One byte of packet data (Go `byte`). -/
abbrev Byte := Fin 256

/-- Run-time faults of the embedded code.  `outOfRange` is the Go panic raised
by an index or slice bound outside the slice; `outOfFuel` is the loop model
running out of iterations (a loop that would not have terminated). -/
inductive Fault where
  | outOfRange
  | outOfFuel
  deriving DecidableEq, Repr

/-- Go `data[i]`: panics unless `i < len(data)`. -/
def idx {α : Type} (data : List α) (i : Nat) : Except Fault α :=
  match data[i]? with
  | some b => .ok b
  | none => .error .outOfRange

/-- Go `data[a:b]`, checked against the current length. -/
def slice (data : List Byte) (a b : Nat) : Except Fault (List Byte) :=
  if a ≤ b ∧ b ≤ data.length then .ok ((data.drop a).take (b - a)) else .error .outOfRange

/-- Go `data[a:]`. -/
def sliceFrom (data : List Byte) (a : Nat) : Except Fault (List Byte) :=
  if a ≤ data.length then .ok (data.drop a) else .error .outOfRange

/-- Go `data[:b]`, checked against the current length. -/
def sliceTo (data : List Byte) (b : Nat) : Except Fault (List Byte) :=
  if b ≤ data.length then .ok (data.take b) else .error .outOfRange

/-- Big-endian value of a byte string. -/
def beVal (b : List Byte) : Nat :=
  b.foldl (fun acc x => acc * 256 + x.val) 0

/-- Big-endian encoding of `n` on `w` bytes (the low `8*w` bits of `n`). -/
def bePut : Nat → Nat → List Byte
  | 0, _ => []
  | w + 1, n => bePut w (n / 256) ++ [Fin.ofNat (n % 256)]

/-- Go `binary.BigEndian.Uint16(b)`: reads `b[0..2]`, panics on a shorter slice. -/
def Uint16 (b : List Byte) : Except Fault Nat :=
  if 2 ≤ b.length then .ok (beVal (b.take 2)) else .error .outOfRange

/-- Go `binary.BigEndian.Uint32(b)`: reads `b[0..4]`, panics on a shorter slice. -/
def Uint32 (b : List Byte) : Except Fault Nat :=
  if 4 ≤ b.length then .ok (beVal (b.take 4)) else .error .outOfRange

/-- Go `binary.BigEndian.Uint64(b)`: reads `b[0..8]`, panics on a shorter slice. -/
def Uint64 (b : List Byte) : Except Fault Nat :=
  if 8 ≤ b.length then .ok (beVal (b.take 8)) else .error .outOfRange

/-! ## `net/netip` addresses -/

/-- The `z` field of a `netip.Addr`: `z0` marks the zero (invalid) address,
`z4` an IPv4 address, `z6noz` an IPv6 address without zone.  (Zoned IPv6
addresses cannot be produced by the constructors used here.) -/
inductive Zone where
  | z0
  | z4
  | z6noz
  deriving DecidableEq, Repr

/-- Go `netip.Addr`: a 128-bit value `hi:lo` and the family marker `z`.
Go `==` on addresses is equality of these three fields. -/
structure Addr where
  hi : Nat
  lo : Nat
  z : Zone
  deriving DecidableEq, Repr

/-- Go `netip.Addr{}`: the zero address, which is not a valid IP address. -/
def Addr.zero : Addr := ⟨0, 0, .z0⟩

/-- Go `netip.AddrFrom4`: the four bytes under the `::ffff:0:0/96` mapping
marker, tagged IPv4. -/
def AddrFrom4 (b : List Byte) : Addr :=
  ⟨0, 0xffff00000000 + beVal (b.take 4), .z4⟩

/-- Go `netip.AddrFrom16`: an IPv6 address from its 16 bytes.  IPv4-mapped
addresses are not unmapped. -/
def AddrFrom16 (b : List Byte) : Addr :=
  ⟨beVal (b.take 8), beVal ((b.drop 8).take 8), .z6noz⟩

/-- Go `Addr.As16`: the 16-byte form; an IPv4 address comes out IPv4-mapped and
the zero address as sixteen zero bytes. -/
def Addr.As16 (ip : Addr) : List Byte :=
  bePut 8 ip.hi ++ bePut 8 ip.lo

/-- Go `netip.AddrFromSlice`: succeeds on slices of length 4 or 16 only. -/
def AddrFromSlice (b : List Byte) : Option Addr :=
  if b.length = 4 then some (AddrFrom4 b)
  else if b.length = 16 then some (AddrFrom16 b)
  else none

/-- Source `decodeIP` (decode.go, lines 205-210). -/
def decodeIP (b : List Byte) : Addr :=
  match AddrFromSlice b with
  | some ip => AddrFrom16 ip.As16
  | none => Addr.zero

/-- The property "compares equal to its own canonical 16-byte form":
`x == netip.AddrFrom16(x.As16())`. -/
def Addr.Canonical (x : Addr) : Prop := x = AddrFrom16 x.As16

instance (x : Addr) : Decidable x.Canonical := by
  unfold Addr.Canonical; infer_instance

/-- The IPv4-mapped address `::ffff:a.b.c.d` as `AddrFrom16` builds it. -/
def v4mapped (b : List Byte) : Addr :=
  ⟨0, 0xffff00000000 + beVal (b.take 4), .z6noz⟩

/-! ## Schema facade and flow record -/

/-- Column keys named by the specification (a closed enumeration). -/
inductive ColumnKey where
  | Bytes | Packets | Proto | SrcAddr | DstAddr | SrcPort | DstPort | EType
  | SrcVlan | DstVlan | SrcMAC | DstMAC | SrcNetMask | DstNetMask
  | SrcAS | DstAS | ForwardingStatus | SrcCountry | DstCountry
  deriving DecidableEq, Repr

/-- Column groups; `L2` is the only one the decoder tests. -/
inductive ColumnGroup where
  | L2
  | Other (n : Nat)
  deriving DecidableEq, Repr

/-- Column descriptor: key, group (if any) and the disabled flag. -/
structure Column where
  Key : ColumnKey
  Group : Option ColumnGroup
  Disabled : Bool
  deriving DecidableEq, Repr

/-- The schema handle `nd.d.Schema`: one descriptor per column key and the
disabled state of every group. -/
structure Schema where
  columns : ColumnKey → Column
  disabledGroups : ColumnGroup → Bool

/-- Schema method `IsDisabled(group)`. -/
def Schema.IsDisabled (s : Schema) (g : ColumnGroup) : Bool :=
  s.disabledGroups g

/-- Whether an append with this key is a no-op: the column, or its group, is
disabled. -/
def Schema.columnOff (s : Schema) (k : ColumnKey) : Bool :=
  (s.columns k).Disabled ||
    (match (s.columns k).Group with
     | some g => s.disabledGroups g
     | none => false)

/-- One entry of the record buffer: the column (standing for its wire tag) and
the unsigned value (standing for its varint encoding). -/
abbrev Entry := ColumnKey × Nat

/-- Go `schema.FlowMessage`: the native fields and the append-only buffer,
held as the sequence of its entries. -/
structure FlowMessage where
  SamplingRate : Nat
  ExporterAddress : Addr
  InIf : Nat
  OutIf : Nat
  SrcAddr : Addr
  DstAddr : Addr
  NextHop : Addr
  SrcAS : Nat
  DstAS : Nat
  protobuf : List Entry
  deriving DecidableEq, Repr

/-- Go `&schema.FlowMessage{}`: every field at its zero value, empty buffer. -/
def FlowMessage.empty : FlowMessage :=
  ⟨0, Addr.zero, 0, 0, Addr.zero, Addr.zero, Addr.zero, 0, 0, []⟩

/-- Modelled from the spec: the body of `Schema.ProtobufAppendVarint` (package
`common/schema`, not among the sources).  "Appends `{wire-tag, varint(u64)}` to
the flow's buffer; no-op if the column (or its group) is disabled." -/
def Schema.ProtobufAppendVarint (s : Schema) (bf : FlowMessage) (k : ColumnKey) (v : Nat) :
    FlowMessage :=
  if s.columnOff k then bf else { bf with protobuf := bf.protobuf ++ [(k, v)] }

/-- Modelled from the spec: `helpers.ETypeIPv4` (package `common/helpers`, not
among the sources), "EType=IPv4 (0x0800)". -/
def ETypeIPv4 : Nat := 0x0800

/-- Modelled from the spec: `helpers.ETypeIPv6` (package `common/helpers`, not
among the sources), "IPv6 (0x86dd)". -/
def ETypeIPv6 : Nat := 0x86dd

/-! ## sFlow packet structures (goflow2 `decoders/sflow`)

Only the fields that `decode.go` reads are kept. -/

/-- Go `sflow.SampledHeader`. -/
structure SampledHeader where
  Protocol : Nat
  FrameLength : Nat
  HeaderData : List Byte
  deriving DecidableEq, Repr

/-- Go `sflow.SampledIP_Base`, shared by `SampledIPv4` and `SampledIPv6`. -/
structure SampledIPBase where
  Length : Nat
  Protocol : Nat
  SrcIP : List Byte
  DstIP : List Byte
  SrcPort : Nat
  DstPort : Nat
  deriving DecidableEq, Repr

/-- Go `sflow.ExtendedSwitch`. -/
structure ExtendedSwitch where
  SrcVlan : Nat
  DstVlan : Nat
  deriving DecidableEq, Repr

/-- Go `sflow.ExtendedRouter`. -/
structure ExtendedRouter where
  NextHop : List Byte
  SrcMaskLen : Nat
  DstMaskLen : Nat
  deriving DecidableEq, Repr

/-- Go `sflow.ExtendedGateway`. -/
structure ExtendedGateway where
  NextHop : List Byte
  AS : Nat
  SrcAS : Nat
  ASPath : List Nat
  deriving DecidableEq, Repr

/-- The dynamic type of `record.Data` in a `sflow.FlowRecord`; `Other` is any
type without a case in the record switch. -/
inductive FlowRecord where
  | SampledHeader (r : SampledHeader)
  | SampledIPv4 (r : SampledIPBase)
  | SampledIPv6 (r : SampledIPBase)
  | ExtendedSwitch (r : ExtendedSwitch)
  | ExtendedRouter (r : ExtendedRouter)
  | ExtendedGateway (r : ExtendedGateway)
  | Other
  deriving DecidableEq, Repr

/-- Go `sflow.FlowSample`. -/
structure FlowSample where
  SamplingRate : Nat
  Input : Nat
  Output : Nat
  Records : List FlowRecord
  deriving DecidableEq, Repr

/-- Go `sflow.ExpandedFlowSample`. -/
structure ExpandedFlowSample where
  SamplingRate : Nat
  InputIfValue : Nat
  OutputIfValue : Nat
  Records : List FlowRecord
  deriving DecidableEq, Repr

/-- The dynamic type of one element of `packet.Samples`; `Other` is any type
without a case in the sample switch (a counter sample, for instance). -/
inductive Sample where
  | FlowSample (fs : FlowSample)
  | ExpandedFlowSample (fs : ExpandedFlowSample)
  | Other
  deriving DecidableEq, Repr

/-- Go `sflow.Packet`. -/
structure Packet where
  AgentIP : List Byte
  Samples : List Sample
  deriving DecidableEq, Repr

/-- The argument `msgDec interface{}` of `decode`: a `sflow.Packet` or a value
of some other type. -/
inductive Msg where
  | Packet (p : Packet)
  | Other
  deriving DecidableEq, Repr

/-- The receiver `nd *Decoder`: the schema handle `nd.d.Schema` and the four
package constants that `decode.go` uses and another file of the package
declares. -/
structure Decoder where
  Schema : Schema
  interfaceLocal : Nat
  interfaceOutMask : Nat
  interfaceOutDiscard : Nat
  interfaceOutMultiple : Nat

/-! ## `parseEthernetHeader` (decode.go, lines 121-203)

The function body is cut at the points where `etherType` and `data` are
rebound; each piece ends by calling the next one, and every `return` of the
source is an `.ok bf` with the record as it stands.  Both bytes of `etherType`
are read before an `&&` test on them, which can only add faults. -/

/-- Lines 193-202: append `Proto`, then the ports for TCP and UDP. -/
def parseL4 (s : Schema) (bf : FlowMessage) (proto : Nat) (data : List Byte) :
    Except Fault FlowMessage :=
  let bf := s.ProtobufAppendVarint bf .Proto proto
  if proto = 6 ∨ proto = 17 then
    if data.length > 4 then do
      let sp ← Uint16 (← slice data 0 2)
      let bf := s.ProtobufAppendVarint bf .SrcPort sp
      let dp ← Uint16 (← slice data 2 4)
      pure (s.ProtobufAppendVarint bf .DstPort dp)
    else pure bf
  else pure bf

/-- Lines 166-192: the IPv4 and IPv6 headers. -/
def parseL3 (s : Schema) (bf : FlowMessage) (etherType data : List Byte) :
    Except Fault FlowMessage := do
  let e0 ← idx etherType 0
  let e1 ← idx etherType 1
  if e0.val = 0x8 ∧ e1.val = 0x0 then
    if data.length < 20 then pure bf
    else do
      let bf := s.ProtobufAppendVarint bf .EType ETypeIPv4
      let bf := { bf with SrcAddr := decodeIP (← slice data 12 16) }
      let bf := { bf with DstAddr := decodeIP (← slice data 16 20) }
      let proto := (← idx data 9).val
      let ihl := (((← idx data 0).val &&& 0xf) * 4) % 256
      let data ← if data.length ≥ ihl then sliceFrom data ihl else sliceTo data 0
      parseL4 s bf proto data
  else do
    let e0 ← idx etherType 0
    let e1 ← idx etherType 1
    if e0.val = 0x86 ∧ e1.val = 0xdd then
      if data.length < 40 then pure bf
      else do
        let bf := s.ProtobufAppendVarint bf .EType ETypeIPv6
        let bf := { bf with SrcAddr := decodeIP (← slice data 8 24) }
        let bf := { bf with DstAddr := decodeIP (← slice data 24 40) }
        let proto := (← idx data 6).val
        let data ← sliceFrom data 40
        parseL4 s bf proto data
    else parseL4 s bf 0 data

/-- How the MPLS `for` loop is left: by `return`, or by `break` with the new
`etherType` and the remaining `data`. -/
inductive MplsExit where
  | ret
  | brk (etherType data : List Byte)
  deriving DecidableEq, Repr

/-- Lines 147-163: the MPLS label walk, one iteration per unit of fuel. -/
def mplsLoop : Nat → List Byte → Except Fault MplsExit
  | 0, _ => .error .outOfFuel
  | fuel + 1, data =>
    if data.length < 5 then pure .ret
    else do
      let label := (← Uint32 (([0] : List Byte) ++ (← sliceTo data 3))) >>> 4
      let bottom := (← idx data 2).val &&& 1
      let data ← sliceFrom data 4
      if bottom = 1 ∨ label ≤ 15 then do
        let d0 ← idx data 0
        if (d0.val &&& 0xf0) >>> 4 = 4 then pure (.brk [0x8, 0x0] data)
        else do
          let d0 ← idx data 0
          if (d0.val &&& 0xf0) >>> 4 = 6 then pure (.brk [0x86, 0xdd] data)
          else pure .ret
      else mplsLoop fuel data

/-- Lines 145-164: the MPLS branch.  The loop is given one unit of fuel per
byte of data, plus one. -/
def parseMPLS (s : Schema) (bf : FlowMessage) (etherType data : List Byte) :
    Except Fault FlowMessage := do
  let e0 ← idx etherType 0
  let e1 ← idx etherType 1
  if e0.val = 0x88 ∧ e1.val = 0x47 then do
    match ← mplsLoop (data.length + 1) data with
    | .ret => pure bf
    | .brk etherType data => parseL3 s bf etherType data
  else parseL3 s bf etherType data

/-- Lines 133-144: the 802.1Q tag. -/
def parseDot1Q (s : Schema) (bf : FlowMessage) (etherType data : List Byte) :
    Except Fault FlowMessage := do
  let e0 ← idx etherType 0
  let e1 ← idx etherType 1
  if e0.val = 0x81 ∧ e1.val = 0x00 then
    if data.length < 4 then pure bf
    else do
      let bf ←
        if !s.IsDisabled .L2 then do
          let vlan := (((← idx data 0).val &&& 0xf) <<< 8) + (← idx data 1).val
          pure (s.ProtobufAppendVarint bf .SrcVlan vlan)
        else pure bf
      let etherType ← slice data 2 4
      let data ← sliceFrom data 4
      parseMPLS s bf etherType data
  else parseMPLS s bf etherType data

/-- Source `parseEthernetHeader` (decode.go, lines 121-203). -/
def parseEthernetHeader (s : Schema) (bf : FlowMessage) (data : List Byte) :
    Except Fault FlowMessage :=
  if data.length < 14 then pure bf
  else do
    let bf ←
      if !s.IsDisabled .L2 then do
        let dst ← Uint64 [0, 0, ← idx data 0, ← idx data 1, ← idx data 2,
          ← idx data 3, ← idx data 4, ← idx data 5]
        let bf := s.ProtobufAppendVarint bf .DstMAC dst
        let src ← Uint64 [0, 0, ← idx data 6, ← idx data 7, ← idx data 8,
          ← idx data 9, ← idx data 10, ← idx data 11]
        pure (s.ProtobufAppendVarint bf .SrcMAC src)
      else pure bf
    let etherType ← slice data 12 14
    let data ← sliceFrom data 14
    parseDot1Q s bf etherType data

/-- Source `parseSampledHeader` (decode.go, lines 113-119). -/
def parseSampledHeader (s : Schema) (bf : FlowMessage) (header : SampledHeader) :
    Except Fault FlowMessage :=
  let data := header.HeaderData
  if header.Protocol = 1 then parseEthernetHeader s bf data
  else pure bf

/-! ## `decode` (decode.go, lines 17-111) -/

/-- Lines 61-104: the body of the record loop, one `record`. -/
def decodeRecord (s : Schema) (bf : FlowMessage) (record : FlowRecord) :
    Except Fault FlowMessage :=
  match record with
  | .SampledHeader recordData =>
    let bf := s.ProtobufAppendVarint bf .Bytes recordData.FrameLength
    parseSampledHeader s bf recordData
  | .SampledIPv4 base =>
    let bf := { bf with SrcAddr := decodeIP base.SrcIP }
    let bf := { bf with DstAddr := decodeIP base.DstIP }
    let bf := s.ProtobufAppendVarint bf .Bytes base.Length
    let bf := s.ProtobufAppendVarint bf .Proto base.Protocol
    let bf := s.ProtobufAppendVarint bf .SrcPort base.SrcPort
    let bf := s.ProtobufAppendVarint bf .DstPort base.DstPort
    pure (s.ProtobufAppendVarint bf .EType ETypeIPv4)
  | .SampledIPv6 base =>
    let bf := { bf with SrcAddr := decodeIP base.SrcIP }
    let bf := { bf with DstAddr := decodeIP base.DstIP }
    let bf := s.ProtobufAppendVarint bf .Bytes base.Length
    let bf := s.ProtobufAppendVarint bf .Proto base.Protocol
    let bf := s.ProtobufAppendVarint bf .SrcPort base.SrcPort
    let bf := s.ProtobufAppendVarint bf .DstPort base.DstPort
    pure (s.ProtobufAppendVarint bf .EType ETypeIPv6)
  | .ExtendedSwitch recordData =>
    if !s.IsDisabled .L2 then
      let bf :=
        if recordData.SrcVlan < 4096 then s.ProtobufAppendVarint bf .SrcVlan recordData.SrcVlan
        else bf
      let bf :=
        if recordData.DstVlan < 4096 then s.ProtobufAppendVarint bf .DstVlan recordData.DstVlan
        else bf
      pure bf
    else pure bf
  | .ExtendedRouter recordData =>
    let bf := s.ProtobufAppendVarint bf .SrcNetMask recordData.SrcMaskLen
    let bf := s.ProtobufAppendVarint bf .DstNetMask recordData.DstMaskLen
    pure { bf with NextHop := decodeIP recordData.NextHop }
  | .ExtendedGateway recordData => do
    let bf := { bf with NextHop := decodeIP recordData.NextHop }
    let bf := { bf with DstAS := recordData.AS }
    let bf := { bf with SrcAS := recordData.AS }
    let bf ←
      if recordData.ASPath.length > 0 then do
        let last ← idx recordData.ASPath (recordData.ASPath.length - 1)
        pure { bf with DstAS := last }
      else pure bf
    let bf := if recordData.SrcAS > 0 then { bf with SrcAS := recordData.SrcAS } else bf
    pure bf
  | .Other => pure bf

/-- Lines 60-105: `for _, record := range records`. -/
def decodeRecords (s : Schema) : FlowMessage → List FlowRecord → Except Fault FlowMessage
  | bf, [] => pure bf
  | bf, record :: records => do
    let bf ← decodeRecord s bf record
    decodeRecords s bf records

/-- Lines 27-47: the sample switch.  It yields `records`, the record `bf` and
`forwardingStatus`; a sample of a type without a case leaves all three as
declared (`nil`, the empty record, `0`). -/
def sampleSwitch (nd : Decoder) (flowSample : Sample) : List FlowRecord × FlowMessage × Nat :=
  let bf := FlowMessage.empty
  match flowSample with
  | .FlowSample flowSample =>
    let bf := { bf with SamplingRate := flowSample.SamplingRate }
    let bf := { bf with InIf := flowSample.Input }
    let bf := { bf with OutIf := flowSample.Output }
    if bf.OutIf &&& nd.interfaceOutMask = nd.interfaceOutDiscard then
      (flowSample.Records, { bf with OutIf := 0 }, 128)
    else if bf.OutIf &&& nd.interfaceOutMask = nd.interfaceOutMultiple then
      (flowSample.Records, { bf with OutIf := 0 }, 0)
    else (flowSample.Records, bf, 0)
  | .ExpandedFlowSample flowSample =>
    let bf := { bf with SamplingRate := flowSample.SamplingRate }
    let bf := { bf with InIf := flowSample.InputIfValue }
    let bf := { bf with OutIf := flowSample.OutputIfValue }
    (flowSample.Records, bf, 0)
  | .Other => ([], bf, 0)

/-- Lines 27-58: the sample switch and what follows it up to the record loop.
It yields `records` and the record `bf` with which the record loop starts. -/
def sampleInit (nd : Decoder) (packet : Packet) (flowSample : Sample) :
    List FlowRecord × FlowMessage :=
  let (records, bf, forwardingStatus) := sampleSwitch nd flowSample
  let bf := if bf.InIf = nd.interfaceLocal then { bf with InIf := 0 } else bf
  let bf := if bf.OutIf = nd.interfaceLocal then { bf with OutIf := 0 } else bf
  let bf := { bf with ExporterAddress := decodeIP packet.AgentIP }
  let bf := nd.Schema.ProtobufAppendVarint bf .Packets 1
  let bf := nd.Schema.ProtobufAppendVarint bf .ForwardingStatus forwardingStatus
  (records, bf)

/-- Lines 26-107: the body of the sample loop, up to the record to append to
`flowMessageSet`. -/
def decodeSample (nd : Decoder) (packet : Packet) (flowSample : Sample) :
    Except Fault FlowMessage :=
  let (records, bf) := sampleInit nd packet flowSample
  decodeRecords nd.Schema bf records

/-- Lines 26-108: `for _, flowSample := range packet.Samples`, with the
accumulator `flowMessageSet`. -/
def decodeLoop (nd : Decoder) (packet : Packet) :
    List FlowMessage → List Sample → Except Fault (List FlowMessage)
  | flowMessageSet, [] => pure flowMessageSet
  | flowMessageSet, flowSample :: samples => do
    let bf ← decodeSample nd packet flowSample
    decodeLoop nd packet (flowMessageSet ++ [bf]) samples

/-- Source `Decoder.decode` (decode.go, lines 17-111).  A `nil` result is the
empty list. -/
def Decoder.decode (nd : Decoder) (msgDec : Msg) : Except Fault (List FlowMessage) :=
  match msgDec with
  | .Packet packet => decodeLoop nd packet [] packet.Samples
  | .Other => pure []

/-! ## Vocabulary for the statements -/

/-- The entries of `l` that the schema lets through. -/
def Schema.kept (s : Schema) (l : List Entry) : List Entry :=
  l.filter (fun e => !s.columnOff e.1)

/-- The ports that lines 195-202 append for protocol `proto` and remaining bytes `r`. -/
def portEntries (proto : Nat) (r : List Byte) : List Entry :=
  if (proto = 6 ∨ proto = 17) ∧ 4 < r.length then
    [(.SrcPort, beVal (r.take 2)), (.DstPort, beVal ((r.drop 2).take 2))]
  else []

/-- The buffer of `r` is the buffer of `bf` followed by entries that satisfy
`K`. -/
def BufGrows (K : Entry → Prop) (bf r : FlowMessage) : Prop :=
  ∃ l : List Entry, r.protobuf = bf.protobuf ++ l ∧ ∀ e ∈ l, K e

/-- What `parseEthernetHeader` may do to a record: the buffer grows by entries
satisfying `K`, `SrcAddr` and `DstAddr` are kept or assigned a result of
`decodeIP`, and the other native fields are kept. -/
def Grows (K : Entry → Prop) (bf r : FlowMessage) : Prop :=
  r.SamplingRate = bf.SamplingRate ∧ r.ExporterAddress = bf.ExporterAddress ∧
  r.InIf = bf.InIf ∧ r.OutIf = bf.OutIf ∧ r.NextHop = bf.NextHop ∧
  r.SrcAS = bf.SrcAS ∧ r.DstAS = bf.DstAS ∧
  (r.SrcAddr = bf.SrcAddr ∨ ∃ b, r.SrcAddr = decodeIP b) ∧
  (r.DstAddr = bf.DstAddr ∨ ∃ b, r.DstAddr = decodeIP b) ∧
  BufGrows K bf r

/-- Entries that the L3/L4 part of `parseEthernetHeader` appends. -/
def l34Key (e : Entry) : Prop :=
  e.1 = .EType ∨ e.1 = .Proto ∨ e.1 = .SrcPort ∨ e.1 = .DstPort

/-- Entries that `parseEthernetHeader` may append under schema `s`: the L3/L4
columns and, with group L2 enabled, the MACs and a `SrcVlan` below 4096. -/
def ethKey (s : Schema) (e : Entry) : Prop :=
  l34Key e ∨
    (s.IsDisabled .L2 = false ∧ (e.1 = .DstMAC ∨ e.1 = .SrcMAC ∨ (e.1 = .SrcVlan ∧ e.2 < 4096)))

/-- The MAC entries that lines 125-130 append. -/
def macEntries (data : List Byte) : List Entry :=
  [(.DstMAC, beVal (data.take 6)), (.SrcMAC, beVal ((data.drop 6).take 6))]

/-- The bytes left after the IPv4 header (lines 176-181): `data[ihl:]`, or
`data[:0]` when `ihl` exceeds the length. -/
def ipv4Rest (d0 : Byte) (data : List Byte) : List Byte :=
  if data.length ≥ ((d0.val &&& 0xf) * 4) % 256 then data.drop (((d0.val &&& 0xf) * 4) % 256)
  else []

/-- An address field is in order when it is the zero address or compares equal
to its canonical 16-byte form. -/
def AddrOK (a : Addr) : Prop := a = Addr.zero ∨ a.Canonical

/-- The records of a sample as the sample switch binds them: `nil` for a
sample of a type without a case. -/
def Sample.Records : Sample → List FlowRecord
  | .FlowSample fs => fs.Records
  | .ExpandedFlowSample fs => fs.Records
  | .Other => []

/-- Entries that the record loop may append: never `Packets` or
`ForwardingStatus`, and VLAN values only below 4096. -/
def recEntry (e : Entry) : Prop :=
  e.1 ≠ .Packets ∧ e.1 ≠ .ForwardingStatus ∧ ((e.1 = .SrcVlan ∨ e.1 = .DstVlan) → e.2 < 4096)

/-- What the record loop may do to a record: the sample-level fields are kept,
each of `SrcAddr`, `DstAddr`, `NextHop` is kept or assigned a result of
`decodeIP`, and the buffer grows by entries satisfying `recEntry`. -/
def RecGrows (bf r : FlowMessage) : Prop :=
  r.SamplingRate = bf.SamplingRate ∧ r.ExporterAddress = bf.ExporterAddress ∧
  r.InIf = bf.InIf ∧ r.OutIf = bf.OutIf ∧
  (r.SrcAddr = bf.SrcAddr ∨ ∃ b, r.SrcAddr = decodeIP b) ∧
  (r.DstAddr = bf.DstAddr ∨ ∃ b, r.DstAddr = decodeIP b) ∧
  (r.NextHop = bf.NextHop ∨ ∃ b, r.NextHop = decodeIP b) ∧
  BufGrows recEntry bf r

/-- The VLAN entries that the `ExtendedSwitch` case appends (lines 81-89). -/
def switchEntries (s : Schema) (sw : ExtendedSwitch) : List Entry :=
  (if s.IsDisabled .L2 = false ∧ sw.SrcVlan < 4096 then [(.SrcVlan, sw.SrcVlan)] else []) ++
  (if s.IsDisabled .L2 = false ∧ sw.DstVlan < 4096 then [(.DstVlan, sw.DstVlan)] else [])

/-- The value of `forwardingStatus` after the sample switch. -/
def forwardingStatusOf (nd : Decoder) : Sample → Nat
  | .FlowSample fs =>
    if fs.Output &&& nd.interfaceOutMask = nd.interfaceOutDiscard then 128 else 0
  | _ => 0

/-- One 4-byte entry of an MPLS label stack. -/
structure MplsEntry where
  b0 : Byte
  b1 : Byte
  b2 : Byte
  b3 : Byte
  deriving DecidableEq, Repr

/-- The four bytes of an entry, in wire order. -/
def MplsEntry.bytes (e : MplsEntry) : List Byte := [e.b0, e.b1, e.b2, e.b3]

/-- The 20-bit label: the big-endian 24-bit value of the first three bytes,
shifted right by 4. -/
def MplsEntry.label (e : MplsEntry) : Nat := beVal [e.b0, e.b1, e.b2] >>> 4

/-- The bottom-of-stack bit: the third byte `& 1`. -/
def MplsEntry.bottom (e : MplsEntry) : Nat := e.b2.val &&& 1

/-- The entry ends the label walk: bottom-of-stack, or a reserved label. -/
def MplsEntry.stops (e : MplsEntry) : Prop := e.bottom = 1 ∨ e.label ≤ 15

instance (e : MplsEntry) : Decidable e.stops := by
  unfold MplsEntry.stops; infer_instance

/-- The wire bytes of a sequence of entries. -/
def stackBytes : List MplsEntry → List Byte
  | [] => []
  | e :: es => e.bytes ++ stackBytes es

/-- The high nibble of a byte, as line 155 computes it: `b & 0xf0 >> 4`. -/
def highNibble (b : Byte) : Nat := (b.val &&& 0xf0) >>> 4

/-- An optional 802.1Q tag: nothing, or the TPID `0x8100` and two bytes of TCI. -/
def IsTag (tag : List Byte) : Prop :=
  tag = [] ∨ ∃ t0 t1 : Byte, tag = [0x81, 0x00, t0, t1]

/-- The entries that lines 125-144 append for MAC bytes `macs` and tag `tag`
when group L2 is enabled. -/
def l2Entries (s : Schema) (macs tag : List Byte) : List Entry :=
  if s.IsDisabled .L2 = false then
    macEntries macs ++
      (match tag with
       | [_, _, t0, t1] => [(.SrcVlan, ((t0.val &&& 0xf) <<< 8) + t1.val)]
       | _ => [])
  else []

/-- The record starts with the sample-level columns: `Packets = 1` and then
`ForwardingStatus = v` are the first entries of the buffer (each one subject
to the schema, which drops the append of a disabled column), and the buffer
holds no other `ForwardingStatus` entry. -/
def SampleColumns (s : Schema) (v : Nat) (m : FlowMessage) : Prop :=
  s.kept [(.Packets, 1), (.ForwardingStatus, v)] <+: m.protobuf ∧
  m.protobuf.filter (fun e => e.1 = .ForwardingStatus) = s.kept [(.ForwardingStatus, v)]

/-- Whether a sample is of one of the two kinds that the sample switch has a
case for. -/
def Sample.isFlow : Sample → Bool
  | .FlowSample _ => true
  | .ExpandedFlowSample _ => true
  | .Other => false

/-- Whether a record is an `ExtendedGateway` record. -/
def FlowRecord.isGateway : FlowRecord → Bool
  | .ExtendedGateway _ => true
  | _ => false

/-- `frame` is an Ethernet frame that carries the IPv4 packet `ip`: twelve
bytes of MAC addresses `macs`, an optional 802.1Q tag `tag`, and then either
ethertype `0x0800` followed by `ip`, or ethertype `0x8847` followed by an
MPLS label stack (entries `pre` that let the walk go on, then `last` that ends
it) and by `ip`, whose first byte has high nibble 4. -/
def CarriesIPv4 (frame macs tag ip : List Byte) : Prop :=
  macs.length = 12 ∧ IsTag tag ∧
  (frame = macs ++ tag ++ [0x08, 0x00] ++ ip ∨
   ∃ (pre : List MplsEntry) (last : MplsEntry),
     (∀ e ∈ pre, ¬ e.stops) ∧ last.stops ∧
     (∃ d0 rest, ip = d0 :: rest ∧ highNibble d0 = 4) ∧
     frame = macs ++ tag ++ [0x88, 0x47] ++ stackBytes pre ++ last.bytes ++ ip)

/-- The entries of a buffer that belong to column `k`. -/
def entriesOf (k : ColumnKey) (l : List Entry) : List Entry :=
  l.filter (fun e => e.1 = k)

/-! ## Concrete schemas and inputs used in the examples -/

/-- A schema with every column and every group enabled; the VLAN and MAC
columns are placed in group `L2`. -/
def Schema.allOn : Schema where
  columns := fun k =>
    { Key := k
      Group := if k = .SrcVlan ∨ k = .DstVlan ∨ k = .SrcMAC ∨ k = .DstMAC then some .L2 else none
      Disabled := false }
  disabledGroups := fun _ => false

/-- The schema `allOn` with group `L2` disabled. -/
def Schema.noL2 : Schema where
  columns := Schema.allOn.columns
  disabledGroups := fun g => decide (g = .L2)

/-- A decoder over `allOn` with the sFlow v5 interface encodings: format in the
top two bits (`1` discarded, `2` multiple) and `0x3fffffff` for local. -/
def Decoder.std : Decoder where
  Schema := Schema.allOn
  interfaceLocal := 0x3fffffff
  interfaceOutMask := 0xc0000000
  interfaceOutDiscard := 0x40000000
  interfaceOutMultiple := 0x80000000

/-- A packet from agent 198.51.100.1 holding one sample that is neither a
`FlowSample` nor an `ExpandedFlowSample` (a counter sample). -/
def counterOnlyPacket : Packet := ⟨[198, 51, 100, 1], [.Other]⟩

/-- A packet from agent 198.51.100.1 holding one `FlowSample` without records. -/
def noRecordPacket : Packet := ⟨[198, 51, 100, 1], [.FlowSample ⟨1024, 5, 6, []⟩]⟩

/-- A packet from agent 198.51.100.1 with one `FlowSample` whose only record is
a `SampledHeader` with protocol 1 (Ethernet), frame length 64 and ten bytes of
header. -/
def shortHeaderPacket : Packet :=
  ⟨[198, 51, 100, 1],
    [.FlowSample ⟨1024, 5, 6, [.SampledHeader ⟨1, 64, [1, 2, 3, 4, 5, 6, 7, 8, 9, 10]⟩]⟩]⟩

/-- A packet from agent 198.51.100.1 with one `FlowSample` holding an
`ExtendedSwitch` record and an `ExtendedGateway` record with AS 65000, source AS
0 and AS path 65001, 65002. -/
def gatewayPacket : Packet :=
  ⟨[198, 51, 100, 1],
    [.FlowSample ⟨1024, 5, 6,
      [.ExtendedSwitch ⟨100, 5000⟩, .ExtendedGateway ⟨[192, 0, 2, 1], 65000, 0, [65001, 65002]⟩]⟩]⟩

/-- An Ethernet frame with one 802.1Q tag of VID 100 around an IPv4 TCP
segment from 10.0.0.1 port 55000 to 10.0.0.2 port 443. -/
def vlanFrame : List Byte :=
  [1, 2, 3, 4, 5, 6, 7, 8, 9, 10, 11, 12, 0x81, 0x00, 0x00, 0x64, 0x08, 0x00,
   0x45, 0, 0, 40, 0, 0, 0, 0, 64, 6, 0, 0, 10, 0, 0, 1, 10, 0, 0, 2,
   0xd6, 0xd8, 0x01, 0xbb, 0, 0, 0, 0]

/-- The IPv4 TCP segment inside `vlanFrame`. -/
def tcpPacket : List Byte :=
  [0x45, 0, 0, 40, 0, 0, 0, 0, 64, 6, 0, 0, 10, 0, 0, 1, 10, 0, 0, 2,
   0xd6, 0xd8, 0x01, 0xbb, 0, 0, 0, 0]

/-- An Ethernet frame of ethertype `0x8847` with the label stack
`[100, bottom = 0], [200, bottom = 1]` before the IPv4 packet `tcpPacket`. -/
def mplsFrame : List Byte :=
  [1, 2, 3, 4, 5, 6, 7, 8, 9, 10, 11, 12] ++ [] ++ [0x88, 0x47] ++
    stackBytes [⟨0x00, 0x06, 0x40, 0x40⟩] ++ (MplsEntry.mk 0x00 0x0c 0x81 0x40).bytes ++ tcpPacket

/-- An untagged Ethernet frame with an IPv4 TCP header whose transport part is
cut after four bytes. -/
def truncatedFrame : List Byte :=
  [1, 2, 3, 4, 5, 6, 7, 8, 9, 10, 11, 12, 0x08, 0x00,
   0x45, 0, 0, 40, 0, 0, 0, 0, 64, 6, 0, 0, 10, 0, 0, 1, 10, 0, 0, 2,
   0xd6, 0xd8, 0x01, 0xbb]

/-- A packet from agent 198.51.100.1 with one `ExpandedFlowSample` (input 5,
output 6, sampling rate 1024) holding one `SampledIPv4` record: 1500 bytes,
protocol 6, from 10.0.0.1 port 443 to 10.0.0.2 port 55000. -/
def expandedPacket : Packet :=
  ⟨[198, 51, 100, 1],
    [.ExpandedFlowSample ⟨1024, 5, 6,
      [.SampledIPv4 ⟨1500, 6, [10, 0, 0, 1], [10, 0, 0, 2], 443, 55000⟩]⟩]⟩

/-! ## SNMP poller (`inlet/snmp/poller.go`)

The poller's world is made explicit: the pending-request map is a list of keys
held in the poller value, the SNMP library is an environment `Env` giving the
outcome of `Connect` and of `Get`, and what `Poll` does to the metrics and to
the `put` callback is the list of `Event`s it returns, in program order.  Log
output and the `retries` counter (bumped by the library from inside `Get`) are
left out. -/

/-- One variable binding of a response (`gosnmp.SnmpPDU`), by its `Type`.  The
library decodes an `OctetString` with a `[]byte` value and a `Gauge32` with a
`uint` value, so the two type assertions of `Poll` are on values of that type;
`Other` is any `Type` without a case in `processStr` and `processUint`. -/
inductive SnmpPDU where
  | OctetString (value : String)
  | Gauge32 (value : Nat)
  | NoSuchInstance
  | NoSuchObject
  | Other
  deriving DecidableEq, Repr

/-- Go `gosnmp.SnmpPacket`, the fields that `Poll` reads.  `Error = 0` is
`gosnmp.NoError`. -/
structure SnmpPacket where
  Error : Nat
  ErrorIndex : Nat
  Variables : List SnmpPDU
  deriving DecidableEq, Repr

/-- What `g.Get(requests)` gives back: an error for which
`errors.Is(err, context.Canceled)` holds, any other non-nil error, or a
result. -/
inductive GetOutcome where
  | canceled
  | failed (err : String)
  | ok (result : SnmpPacket)
  deriving DecidableEq, Repr

/-- Go `Interface`: what the poller hands to `put`. -/
structure Interface where
  Name : String
  Description : String
  Speed : Nat
  deriving DecidableEq, Repr

/-- The non-nil errors that `Poll` returns: the error of `Get` (line 190), the
synthetic `SNMP error %s(%d)` (line 199), and `unable to get sysName`
(line 239). -/
inductive PollError where
  | get (err : String)
  | snmp (code : Nat)
  | sysName
  deriving DecidableEq, Repr

/-- One observable action of `Poll`: an increment of
`failures{exporter, error}`, an increment of `successes{exporter}`, an
observation into `poller_seconds{exporter}`, or a call of `put`.  The fourth
metric, `retries{exporter}`, is not written by a statement of `Poll` but by the
`OnRetry` closure it hands to gosnmp; it is counted by `realPoller.PollRetries`. -/
inductive Event where
  | failure (exporter : String) (error : String)
  | success (exporter : String)
  | seconds (exporter : String)
  | put (exporter : Addr) (exporterName : String) (ifIndex : Nat) (iface : Interface)
  deriving DecidableEq, Repr

/-- Go `gosnmp.SnmpVersion`. -/
inductive SnmpVersion where
  | Version1
  | Version2c
  | Version3
  deriving DecidableEq, Repr

/-- Go `gosnmp.SnmpV3MsgFlags`, the three security levels. -/
inductive SnmpV3MsgFlags where
  | NoAuthNoPriv
  | AuthNoPriv
  | AuthPriv
  deriving DecidableEq, Repr

/-- Go `gosnmp.NoAuth`, the authentication protocol "none". -/
def NoAuth : Nat := 1

/-- Go `gosnmp.NoPriv`, the privacy protocol "none". -/
def NoPriv : Nat := 1

/-- The configuration record `SecurityParameters` of the poller (declared in
another file of the package), with the fields that `Poll` reads; the two
protocols are held as the numbers that `Poll` converts to the gosnmp types. -/
structure SecurityParameters where
  UserName : String
  AuthenticationProtocol : Nat
  AuthenticationPassphrase : String
  PrivacyProtocol : Nat
  PrivacyPassphrase : String
  ContextName : String
  deriving DecidableEq, Repr

/-- Go `gosnmp.UsmSecurityParameters`, the fields that `Poll` sets. -/
structure UsmSecurityParameters where
  UserName : String
  AuthenticationProtocol : Nat
  AuthenticationPassphrase : String
  PrivacyProtocol : Nat
  PrivacyPassphrase : String
  deriving DecidableEq, Repr

/-- Modelled from the spec: `helpers.SubnetMap` (package `common/helpers`, not
among the sources), "a lookup from IP address to value". -/
structure SubnetMap (α : Type) where
  Lookup : Addr → Option α

/-- Modelled from the spec: `SubnetMap.LookupOrDefault`, the "subnet-map lookup
with default". -/
def SubnetMap.LookupOrDefault {α : Type} (m : SubnetMap α) (ip : Addr) (dflt : α) : α :=
  (m.Lookup ip).getD dflt

/-- Go `pollerConfig`. -/
structure pollerConfig where
  Retries : Int
  Timeout : Nat
  Communities : SubnetMap String
  SecurityParameters : SubnetMap SecurityParameters

/-- Go `gosnmp.GoSNMP`, the data fields that `Poll` sets.  The zero values of
`MsgFlags` and of the strings are `NoAuthNoPriv` and `""`.  Of the other fields
set at lines 125-135, `Context` is what makes `Get` return `canceled`, `Logger`
has no effect on metrics, and the `OnRetry` closure is accounted for by
`Env.Retried` and `realPoller.PollRetries`. -/
structure GoSNMP where
  Target : String
  Port : Nat
  Retries : Int
  Timeout : Nat
  Version : SnmpVersion
  SecurityParameters : Option UsmSecurityParameters
  MsgFlags : SnmpV3MsgFlags
  ContextName : String
  Community : String
  deriving DecidableEq, Repr

/-- The world outside `Poll`: `str` is `netip.Addr.Unmap().String()`,
`Connect` the error of `g.Connect()` if any, `Get` the outcome of
`g.Get(requests)`, and `Retried` the number of times gosnmp calls the session's
`OnRetry` callback while it runs that `Get`, whatever its outcome. -/
structure Env where
  str : Addr → String
  Connect : GoSNMP → Option String
  Get : GoSNMP → List String → GetOutcome
  Retried : GoSNMP → List String → Nat

/-- Go `realPoller`: the configuration and the map `pendingRequests`, held as
the list of its keys. -/
structure realPoller where
  config : pollerConfig
  pendingRequests : List String

/-- Lines 101-109: the dedup loop under the mutex, on the accumulator
`(pendingRequests, filteredIfIndexes, keys)`. -/
def beginLoop (exporterStr : String) :
    List Nat → List String × List Nat × List String → List String × List Nat × List String
  | [], acc => acc
  | ifIndex :: rest, (pendingRequests, filteredIfIndexes, keys) =>
    let key := exporterStr ++ "@" ++ toString ifIndex
    if key ∈ pendingRequests then
      beginLoop exporterStr rest (pendingRequests, filteredIfIndexes, keys)
    else
      beginLoop exporterStr rest
        (pendingRequests ++ [key], filteredIfIndexes ++ [ifIndex], keys ++ [key])

/-- Lines 116-120: the deferred cleanup, `delete(p.pendingRequests, key)` for
every key of `keys`. -/
def pollEnd (pendingRequests : List String) (keys : List String) : List String :=
  keys.foldl (fun m key => m.filter (fun k => decide (k ≠ key))) pendingRequests

/-- Lines 124-165: the SNMP session `g`. -/
def newSession (config : pollerConfig) (env : Env) (exporter agent : Addr) (port : Nat) :
    GoSNMP :=
  let g : GoSNMP :=
    { Target := env.str agent
      Port := port
      Retries := config.Retries
      Timeout := config.Timeout
      Version := .Version1
      SecurityParameters := none
      MsgFlags := .NoAuthNoPriv
      ContextName := ""
      Community := "" }
  match config.SecurityParameters.Lookup exporter with
  | some securityParameters =>
    let g := { g with Version := .Version3 }
    let usmSecurityParameters : UsmSecurityParameters :=
      { UserName := securityParameters.UserName
        AuthenticationProtocol := securityParameters.AuthenticationProtocol
        AuthenticationPassphrase := securityParameters.AuthenticationPassphrase
        PrivacyProtocol := securityParameters.PrivacyProtocol
        PrivacyPassphrase := securityParameters.PrivacyPassphrase }
    let g := { g with SecurityParameters := some usmSecurityParameters }
    let g :=
      if usmSecurityParameters.AuthenticationProtocol = NoAuth then
        if usmSecurityParameters.PrivacyProtocol = NoPriv then
          { g with MsgFlags := .NoAuthNoPriv }
        else
          { g with MsgFlags := .NoAuthNoPriv }
      else
        if usmSecurityParameters.PrivacyProtocol = NoPriv then
          { g with MsgFlags := .AuthNoPriv }
        else
          { g with MsgFlags := .AuthPriv }
    { g with ContextName := securityParameters.ContextName }
  | none =>
    let g := { g with Version := .Version2c }
    { g with Community := config.Communities.LookupOrDefault exporter "public" }

/-- Lines 172-180: the request list. -/
def buildRequests (ifIndexes : List Nat) : List String :=
  ifIndexes.foldl
    (fun requests ifIndex =>
      requests ++
        ["1.3.6.1.2.1.2.2.1.2." ++ toString ifIndex,
         "1.3.6.1.2.1.31.1.1.1.18." ++ toString ifIndex,
         "1.3.6.1.2.1.31.1.1.1.15." ++ toString ifIndex])
    ["1.3.6.1.2.1.1.5.0"]

/-- Lines 202-216: the closure `processStr`.  It yields its boolean result,
the value of `*target` afterwards, and the failure it counted, if any. -/
def processStr (result : SnmpPacket) (exporterStr : String) (i : Nat) (what : String)
    (target : String) (mandatory : Bool) : Except Fault (Bool × String × List Event) := do
  match ← idx result.Variables i with
  | .OctetString value => pure (true, value, [])
  | .NoSuchInstance | .NoSuchObject =>
    if mandatory then pure (false, target, [.failure exporterStr (what ++ " missing")])
    else pure (true, target, [])
  | _ => pure (false, target, [.failure exporterStr (what ++ " unknown type")])

/-- Lines 217-231: the closure `processUint`. -/
def processUint (result : SnmpPacket) (exporterStr : String) (i : Nat) (what : String)
    (target : Nat) (mandatory : Bool) : Except Fault (Bool × Nat × List Event) := do
  match ← idx result.Variables i with
  | .Gauge32 value => pure (true, value, [])
  | .NoSuchInstance | .NoSuchObject =>
    if mandatory then pure (false, target, [.failure exporterStr (what ++ " missing")])
    else pure (true, target, [])
  | _ => pure (false, target, [.failure exporterStr (what ++ " unknown type")])

/-- The variables declared at lines 232-237, which live across the iterations
of the interface loop, and the events so far. -/
structure LoopState where
  ifDescrVal : String
  ifAliasVal : String
  ifSpeedVal : Nat
  events : List Event
  deriving DecidableEq, Repr

/-- Lines 241-262: the interface loop, one iteration per unit of fuel; `i` is
the loop variable `idx` and `nreq` is `len(requests)`, which is at least 4
here. -/
def pollLoop (exporter : Addr) (exporterStr sysNameVal : String) (result : SnmpPacket)
    (ifIndexes : List Nat) (nreq : Nat) : Nat → Nat → LoopState → Except Fault LoopState
  | 0, _, _ => .error .outOfFuel
  | fuel + 1, i, st =>
    if i < nreq - 2 then do
      let ifIndex ← idx ifIndexes ((i - 1) / 3)
      let (r1, ifDescrVal, e1) ←
        processStr result exporterStr i "ifdescr" st.ifDescrVal (decide (ifIndex > 0))
      let (r2, ifAliasVal, e2) ←
        processStr result exporterStr (i + 1) "ifalias" st.ifAliasVal (decide (ifIndex > 0))
      let (r3, ifSpeedVal, e3) ←
        processUint result exporterStr (i + 2) "ifspeed" st.ifSpeedVal (decide (ifIndex > 0))
      let ok := r1 && r2 && r3
      let events := st.events ++ e1 ++ e2 ++ e3
      if !ok then
        pollLoop exporter exporterStr sysNameVal result ifIndexes nreq fuel (i + 3)
          ⟨ifDescrVal, ifAliasVal, ifSpeedVal, events⟩
      else
        pollLoop exporter exporterStr sysNameVal result ifIndexes nreq fuel (i + 3)
          ⟨ifDescrVal, ifAliasVal, ifSpeedVal,
            events ++ [.put exporter sysNameVal ifIndex ⟨ifDescrVal, ifAliasVal, ifSpeedVal⟩,
              .success exporterStr]⟩
    else pure st

/-- Lines 167-170: `g.Connect()`; a failure is counted and `Poll` goes on. -/
def connectEvents (env : Env) (g : GoSNMP) (exporterStr : String) : List Event :=
  match env.Connect g with
  | some _ => [.failure exporterStr "connect"]
  | none => []

/-- Lines 124-265: `Poll` after the dedup, on the retained `ifIndexes`.  It
yields the error returned (`none` for `nil`) and the events, which are all that
the statements of `Poll` do to the metrics and to `put`; what the `OnRetry`
closure does during `Get` is `realPoller.PollRetries`. -/
def pollBody (config : pollerConfig) (env : Env) (exporter agent : Addr) (port : Nat)
    (ifIndexes : List Nat) : Except Fault (Option PollError × List Event) :=
  let exporterStr := env.str exporter
  let g := newSession config env exporter agent port
  let connectEvents : List Event := connectEvents env g exporterStr
  let requests := buildRequests ifIndexes
  match env.Get g requests with
  | .canceled => pure (none, connectEvents)
  | .failed err => pure (some (.get err), connectEvents ++ [.failure exporterStr "get"])
  | .ok result =>
    if result.Error ≠ 0 ∧ result.ErrorIndex = 0 then
      pure (some (.snmp result.Error), connectEvents ++ [.failure exporterStr "get"])
    else do
      let (r0, sysNameVal, e0) ← processStr result exporterStr 0 "sysname" "" true
      if !r0 then pure (some .sysName, connectEvents ++ e0)
      else do
        let st ← pollLoop exporter exporterStr sysNameVal result ifIndexes requests.length
          requests.length 1 ⟨"unknown", "", 0, connectEvents ++ e0⟩
        pure (none, st.events ++ [.seconds exporterStr])

/-- Source `realPoller.Poll` (poller.go, lines 95-266).  It yields the poller
after the call and either a fault (a Go panic) or the error returned with the
events; the deferred cleanup runs in both cases. -/
def realPoller.Poll (p : realPoller) (env : Env) (exporter agent : Addr) (port : Nat)
    (ifIndexes : List Nat) : realPoller × Except Fault (Option PollError × List Event) :=
  let exporterStr := env.str exporter
  let (pendingRequests, filteredIfIndexes, keys) :=
    beginLoop exporterStr ifIndexes (p.pendingRequests, [], [])
  if filteredIfIndexes.length = 0 then
    ({ p with pendingRequests := pendingRequests }, pure (none, []))
  else
    let ifIndexes := filteredIfIndexes
    ({ p with pendingRequests := pollEnd pendingRequests keys },
      pollBody p.config env exporter agent port ifIndexes)

/-- Lines 132-134 with line 181: the number of increments of
`retries{exporter}` during one call of `Poll`.  The closure
`OnRetry: func(*gosnmp.GoSNMP) { p.metrics.retries.WithLabelValues(exporterStr).Inc() }`
is the only writer of that counter; gosnmp runs it once per retry of the
`Get` of line 181, which `Poll` reaches, once, exactly when it retains an index
(a failed `Connect` does not return), and before `Poll` looks at the error of
`Get`. -/
def realPoller.PollRetries (p : realPoller) (env : Env) (exporter agent : Addr) (port : Nat)
    (ifIndexes : List Nat) : Nat :=
  let exporterStr := env.str exporter
  let (_, filteredIfIndexes, _) :=
    beginLoop exporterStr ifIndexes (p.pendingRequests, [], [])
  if filteredIfIndexes.length = 0 then 0
  else
    env.Retried (newSession p.config env exporter agent port) (buildRequests filteredIfIndexes)

/-- The key of a pending request, `fmt.Sprintf("%s@%d", exporterStr, ifIndex)`
(line 102). -/
def pollKey (exporterStr : String) (ifIndex : Nat) : String :=
  exporterStr ++ "@" ++ toString ifIndex

/-- A `Poll` call in flight, between its two mutex-protected sections: the
exporter string, the retained `ifIndexes` and the `keys` it inserted. -/
structure Call where
  exporterStr : String
  ifIndexes : List Nat
  keys : List String
  deriving DecidableEq, Repr

/-- The poller shared by concurrent `Poll` calls: the pending-request map and
the calls in flight. -/
structure PollerState where
  pendingRequests : List String
  calls : List Call
  deriving DecidableEq, Repr

/-- The first mutex-protected section of a new call (lines 100-110) as one
atomic step: filter `ifIndexes` against the pending map, insert the retained
keys, and hold the call in flight. -/
def PollerState.start (st : PollerState) (exporterStr : String) (ifIndexes : List Nat) :
    PollerState :=
  let r := beginLoop exporterStr ifIndexes (st.pendingRequests, [], [])
  ⟨r.1, st.calls ++ [⟨exporterStr, r.2.1, r.2.2⟩]⟩

/-- The second mutex-protected section (lines 116-120) of the `i`-th call in
flight as one atomic step: delete the keys that call inserted; the call is
over.  (A call that retained nothing returns at line 112 without this section,
which for it would delete nothing.) -/
def PollerState.finish (st : PollerState) (i : Nat) : PollerState :=
  match st.calls[i]? with
  | some c => ⟨pollEnd st.pendingRequests c.keys, st.calls.eraseIdx i⟩
  | none => st

/-- One atomic step of some `Poll` call. -/
inductive Action where
  | start (exporterStr : String) (ifIndexes : List Nat)
  | finish (i : Nat)
  deriving DecidableEq, Repr

/-- The effect of one atomic step. -/
def PollerState.apply (st : PollerState) : Action → PollerState
  | .start exporterStr ifIndexes => st.start exporterStr ifIndexes
  | .finish i => st.finish i

/-- The state after a sequence of atomic steps, in order, from the poller that
`newPoller` creates (empty map, no call). -/
def PollerState.run (actions : List Action) : PollerState :=
  actions.foldl PollerState.apply ⟨[], []⟩

/-- The in-flight call `c` covers interface `ifIndex` of exporter
`exporterStr`: its GET asks for it. -/
def Call.covers (c : Call) (exporterStr : String) (ifIndex : Nat) : Bool :=
  decide (c.exporterStr = exporterStr) && decide (ifIndex ∈ c.ifIndexes)

/-- The invariant of the pending-request map: every call in flight holds the
keys of its retained indexes, without repetition; the key lists of two calls
in flight share no key; and a key is in the map exactly when some call in
flight holds it. -/
def PollerState.Inv (st : PollerState) : Prop :=
  (∀ c ∈ st.calls, c.keys = c.ifIndexes.map (pollKey c.exporterStr) ∧ c.keys.Nodup) ∧
  st.calls.Pairwise (fun a b => ∀ k, k ∈ a.keys → k ∉ b.keys) ∧
  (∀ k, k ∈ st.pendingRequests ↔ ∃ c ∈ st.calls, k ∈ c.keys)

/-- The indexes that `Poll` retains after the dedup (`filteredIfIndexes`). -/
def retained (p : realPoller) (env : Env) (exporter : Addr) (ifIndexes : List Nat) : List Nat :=
  (beginLoop (env.str exporter) ifIndexes (p.pendingRequests, [], [])).2.1

/-- The outcome of the GET that `Poll` issues: `g.Get(requests)` for the
session and the request list it builds. -/
def getOf (p : realPoller) (env : Env) (exporter agent : Addr) (port : Nat)
    (ifIndexes : List Nat) : GetOutcome :=
  env.Get (newSession p.config env exporter agent port)
    (buildRequests (retained p env exporter ifIndexes))

/-- The response has an error that affects the whole request (line 192). -/
def SnmpPacket.wholeError (result : SnmpPacket) : Prop :=
  result.Error ≠ 0 ∧ result.ErrorIndex = 0

instance (result : SnmpPacket) : Decidable result.wholeError := by
  unfold SnmpPacket.wholeError; infer_instance

/-- The exporter 192.0.2.1 of the examples. -/
def exporterE : Addr := v4mapped [192, 0, 2, 1]

/-- An environment in which `Connect` and `Get` have the given outcomes,
whatever the session and the requests, and `Get` never retries. -/
def Env.fixed (connect : Option String) (get : GetOutcome) : Env where
  str := fun a => if a = exporterE then "192.0.2.1" else "other"
  Connect := fun _ => connect
  Get := fun _ _ => get
  Retried := fun _ _ => 0

/-- An environment in which `Connect` and `Get` have the given outcomes and
`Get` retries `n` times before it returns. -/
def Env.retrying (n : Nat) (connect : Option String) (get : GetOutcome) : Env where
  str := fun a => if a = exporterE then "192.0.2.1" else "other"
  Connect := fun _ => connect
  Get := fun _ _ => get
  Retried := fun _ _ => n

/-- A poller configuration with no SNMPv3 credentials and no community. -/
def pollerConfig.plain : pollerConfig :=
  ⟨2, 1, ⟨fun _ => none⟩, ⟨fun _ => none⟩⟩

/-- A poller configuration whose SNMPv3 map holds, for every exporter, the
user `u` with authentication protocol 3 (SHA) and privacy protocol 1 (none). -/
def pollerConfig.v3 : pollerConfig :=
  ⟨2, 1, ⟨fun _ => none⟩, ⟨fun _ => some ⟨"u", 3, "a", 1, "", "ctx"⟩⟩⟩

/-- The interface that the variables paired with the `k`-th retained index carry
(positions `1+3k`, `2+3k`, `3+3k` of the response), when their types are
OctetString, OctetString and Gauge32; `none` otherwise. -/
def SnmpPacket.accepted (result : SnmpPacket) (k : Nat) : Option Interface :=
  match result.Variables[1 + 3 * k]?, result.Variables[2 + 3 * k]?,
      result.Variables[3 + 3 * k]? with
  | some (.OctetString d), some (.OctetString a), some (.Gauge32 s) => some ⟨d, a, s⟩
  | _, _, _ => none

/-- Every event of the list is an increment of `failures` for the exporter. -/
def OnlyFailures (exporterStr : String) (events : List Event) : Prop :=
  ∀ x ∈ events, ∃ reason, x = .failure exporterStr reason

/-- The response to `[sysName.0, ifDescr.3, ifAlias.3, ifSpeed.3, ifDescr.4,
ifAlias.4, ifSpeed.4]` in which `ifDescr.4` is NoSuchInstance. -/
def response34 : SnmpPacket :=
  ⟨0, 0, [.OctetString "rt1", .OctetString "eth0", .OctetString "uplink", .Gauge32 10000,
    .NoSuchInstance, .OctetString "peer", .Gauge32 1000]⟩

/-- The response to `[sysName.0, ifDescr.3, ifAlias.3, ifSpeed.3, ifDescr.0,
ifAlias.0, ifSpeed.0]` in which `ifDescr.0` is NoSuchInstance. -/
def response30 : SnmpPacket :=
  ⟨0, 0, [.OctetString "rt1", .OctetString "eth0", .OctetString "uplink", .Gauge32 10000,
    .NoSuchInstance, .OctetString "x", .Gauge32 5]⟩

/-- What the interface loop is to do for the `k`-th retained index `i`, as the
events `block` of that iteration: either one `put` for `i` followed by one
increment of `successes`, or failures only (at least one); and when `i > 0`,
the former exactly when the three variables are accepted, with the interface
they carry. -/
def BlockOK (exporter : Addr) (exporterStr sysName : String) (result : SnmpPacket)
    (k i : Nat) (block : List Event) : Prop :=
  ((∃ iface, block = [.put exporter sysName i iface, .success exporterStr]) ∨
    (block ≠ [] ∧ OnlyFailures exporterStr block)) ∧
  (0 < i →
    (∀ iface, result.accepted k = some iface →
      block = [.put exporter sysName i iface, .success exporterStr]) ∧
    (result.accepted k = none → block ≠ [] ∧ OnlyFailures exporterStr block))

/-! ## Schema configuration (`common/schema`)

Only the test `TestEnableDisableColumns` of this package is among the sources;
`New` and `LookupColumnByKey` follow the specification. -/

/-- Go `schema.Configuration`: the two override lists. -/
structure Configuration where
  Enabled : List ColumnKey
  Disabled : List ColumnKey
  deriving DecidableEq, Repr

/-- Why `New` fails: a key is both enabled and disabled, or is unknown. -/
inductive ConfigError where
  | both (key : ColumnKey)
  | unknown (key : ColumnKey)
  deriving DecidableEq, Repr

/-- Go `schema.Component`: the column descriptors of the schema. -/
structure Component where
  columns : List Column
  deriving DecidableEq, Repr

/-- Modelled from the spec: `schema.New` is not among the sources.  "`New(config) →
Schema | error`: merges defaults with `Enabled`/`Disabled` overrides.  Errors
when a key is both enabled and disabled, or unknown."  The default descriptors
are a parameter; a key is known when one of them has it. -/
def schema.New (defaults : List Column) (config : Configuration) :
    Except ConfigError Component :=
  match config.Enabled.find? (fun k => decide (k ∈ config.Disabled)) with
  | some k => .error (.both k)
  | none =>
    match (config.Enabled ++ config.Disabled).find?
        (fun k => !(defaults.any (fun c => decide (c.Key = k)))) with
    | some k => .error (.unknown k)
    | none =>
      .ok ⟨defaults.map (fun c =>
        if c.Key ∈ config.Enabled then { c with Disabled := false }
        else if c.Key ∈ config.Disabled then { c with Disabled := true }
        else c)⟩

/-- Modelled from the spec: `LookupColumnByKey` is not among the sources.
"`LookupColumnByKey(key) → (descriptor, present)`". -/
def Component.LookupColumnByKey (c : Component) (key : ColumnKey) : Option Column :=
  c.columns.find? (fun col => decide (col.Key = key))

/-- Default descriptors for the examples: the VLAN and MAC columns are in the
group `L2`, and `SrcVlan`, `DstVlan` are disabled by default. -/
def exampleDefaults : List Column :=
  [⟨.Bytes, none, false⟩, ⟨.Packets, none, false⟩, ⟨.Proto, none, false⟩,
   ⟨.SrcAddr, none, false⟩, ⟨.DstAddr, none, false⟩, ⟨.SrcPort, none, false⟩,
   ⟨.DstPort, none, false⟩, ⟨.EType, none, false⟩,
   ⟨.SrcVlan, some .L2, true⟩, ⟨.DstVlan, some .L2, true⟩,
   ⟨.SrcMAC, some .L2, true⟩, ⟨.DstMAC, some .L2, true⟩,
   ⟨.SrcNetMask, none, false⟩, ⟨.DstNetMask, none, false⟩,
   ⟨.SrcAS, none, false⟩, ⟨.DstAS, none, false⟩, ⟨.ForwardingStatus, none, false⟩,
   ⟨.SrcCountry, none, false⟩, ⟨.DstCountry, none, false⟩]

/-- The configuration of `TestEnableDisableColumns`. -/
def exampleConfiguration : Configuration :=
  ⟨[.DstVlan, .SrcVlan], [.SrcCountry, .DstCountry]⟩

/-! # Theorems -/

/-! ## Slices, the schema append, and the stages of `parseEthernetHeader` -/

theorem idx_ok {α : Type} (data : List α) (i : Nat) (h : i < data.length) :
    idx data i = .ok data[i] := by
  simp [idx, h]

theorem slice_ok (data : List Byte) (a b : Nat) (h1 : a ≤ b) (h2 : b ≤ data.length) :
    slice data a b = .ok ((data.drop a).take (b - a)) := by
  simp [slice, h1, h2]

theorem sliceFrom_ok (data : List Byte) (a : Nat) (h : a ≤ data.length) :
    sliceFrom data a = .ok (data.drop a) := by
  simp [sliceFrom, h]

theorem sliceTo_ok (data : List Byte) (b : Nat) (h : b ≤ data.length) :
    sliceTo data b = .ok (data.take b) := by
  simp [sliceTo, h]

theorem Uint16_ok (b : List Byte) (h : 2 ≤ b.length) : Uint16 b = .ok (beVal (b.take 2)) := by
  simp [Uint16, h]

theorem append_protobuf (s : Schema) (bf : FlowMessage) (k : ColumnKey) (v : Nat) :
    s.ProtobufAppendVarint bf k v = { bf with protobuf := bf.protobuf ++ s.kept [(k, v)] } := by
  unfold Schema.ProtobufAppendVarint Schema.kept
  by_cases h : s.columnOff k <;> simp [h]

theorem kept_append (s : Schema) (a b : List Entry) : s.kept (a ++ b) = s.kept a ++ s.kept b := by
  simp [Schema.kept]

theorem parseL4_eq (s : Schema) (bf : FlowMessage) (proto : Nat) (data : List Byte) :
    parseL4 s bf proto data =
      .ok { bf with protobuf := bf.protobuf ++ s.kept ((.Proto, proto) :: portEntries proto data) } := by
  unfold parseL4 portEntries
  by_cases hp : proto = 6 ∨ proto = 17
  · by_cases hl : 4 < data.length
    · have h1 : slice data 0 2 = .ok (data.take 2) := by
        rw [slice_ok data 0 2 (by omega) (by omega)]; simp
      have h2 : slice data 2 4 = .ok ((data.drop 2).take 2) := by
        rw [slice_ok data 2 4 (by omega) (by omega)]
      have h3 : 2 ≤ data.length := by omega
      have h4 : 2 ≤ data.length - 2 := by omega
      simp [hp, hl, h1, h2, h3, h4, append_protobuf, Uint16, bind, Except.bind, pure, Except.pure,
        ← kept_append, List.take_take]
    · simp [hp, hl, append_protobuf, pure, Except.pure, ← kept_append]
  · simp [hp, append_protobuf, pure, Except.pure, ← kept_append]

theorem parseL3_ipv4 (s : Schema) (bf : FlowMessage) (e data : List Byte)
    (he : 2 ≤ e.length) (h0 : e[0].val = 0x8) (h1 : e[1].val = 0x0) (hd : 20 ≤ data.length) :
    parseL3 s bf e data =
      .ok { bf with
        SrcAddr := decodeIP ((data.drop 12).take 4)
        DstAddr := decodeIP ((data.drop 16).take 4)
        protobuf := bf.protobuf ++ s.kept ((.EType, ETypeIPv4) :: (.Proto, data[9].val) ::
          portEntries data[9].val (ipv4Rest data[0] data)) } := by
  unfold parseL3
  have hn : ¬ data.length < 20 := by omega
  simp only [idx_ok e 0 (by omega), idx_ok e 1 (by omega), h0, h1, idx_ok data 9 (by omega),
    idx_ok data 0 (by omega), slice_ok data 12 16 (by omega) (by omega),
    slice_ok data 16 20 (by omega) (by omega), bind, Except.bind, hn, and_self, if_true, if_false]
  by_cases hi : data.length ≥ ((data[0].val &&& 0xf) * 4) % 256
  · simp [hi, sliceFrom_ok, parseL4_eq, append_protobuf, ipv4Rest, ← kept_append]
  · have h0 : (0 : Nat) ≤ data.length := by omega
    simp [hi, sliceTo_ok, parseL4_eq, append_protobuf, ipv4Rest, ← kept_append]

theorem parseL3_ipv4_short (s : Schema) (bf : FlowMessage) (e data : List Byte)
    (he : 2 ≤ e.length) (h0 : e[0].val = 0x8) (h1 : e[1].val = 0x0) (hd : data.length < 20) :
    parseL3 s bf e data = .ok bf := by
  unfold parseL3
  simp [idx_ok e 0 (by omega), idx_ok e 1 (by omega), h0, h1, hd, bind, Except.bind, pure,
    Except.pure]

theorem parseL3_ipv6 (s : Schema) (bf : FlowMessage) (e data : List Byte)
    (he : 2 ≤ e.length) (h0 : e[0].val = 0x86) (h1 : e[1].val = 0xdd) (hd : 40 ≤ data.length) :
    parseL3 s bf e data =
      .ok { bf with
        SrcAddr := decodeIP ((data.drop 8).take 16)
        DstAddr := decodeIP ((data.drop 24).take 16)
        protobuf := bf.protobuf ++ s.kept ((.EType, ETypeIPv6) :: (.Proto, data[6].val) ::
          portEntries data[6].val (data.drop 40)) } := by
  unfold parseL3
  have hn : ¬ data.length < 40 := by omega
  simp [idx_ok e 0 (by omega), idx_ok e 1 (by omega), h0, h1, idx_ok data 6 (by omega),
    slice_ok data 8 24 (by omega) (by omega), sliceFrom_ok data 40 (by omega),
    slice_ok data 24 40 (by omega) (by omega), bind, Except.bind, hn, parseL4_eq,
    append_protobuf, ← kept_append]

theorem parseL3_ipv6_short (s : Schema) (bf : FlowMessage) (e data : List Byte)
    (he : 2 ≤ e.length) (h0 : e[0].val = 0x86) (h1 : e[1].val = 0xdd) (hd : data.length < 40) :
    parseL3 s bf e data = .ok bf := by
  unfold parseL3
  simp [idx_ok e 0 (by omega), idx_ok e 1 (by omega), h0, h1, hd, bind, Except.bind, pure,
    Except.pure]

theorem parseL3_other (s : Schema) (bf : FlowMessage) (e data : List Byte)
    (he : 2 ≤ e.length) (h4 : ¬ (e[0].val = 0x8 ∧ e[1].val = 0x0))
    (h6 : ¬ (e[0].val = 0x86 ∧ e[1].val = 0xdd)) :
    parseL3 s bf e data = .ok { bf with protobuf := bf.protobuf ++ s.kept [(.Proto, 0)] } := by
  unfold parseL3
  simp [idx_ok e 0 (by omega), idx_ok e 1 (by omega), h4, h6, bind, Except.bind, parseL4_eq,
    portEntries]

theorem BufGrows.brefl (K : Entry → Prop) (bf : FlowMessage) : BufGrows K bf bf :=
  ⟨[], by simp, by simp⟩

theorem BufGrows.btrans {K : Entry → Prop} {a b c : FlowMessage}
    (h1 : BufGrows K a b) (h2 : BufGrows K b c) : BufGrows K a c := by
  obtain ⟨l1, e1, k1⟩ := h1
  obtain ⟨l2, e2, k2⟩ := h2
  refine ⟨l1 ++ l2, by simp [e2, e1], ?_⟩
  intro e he
  rcases List.mem_append.mp he with h | h
  · exact k1 e h
  · exact k2 e h

theorem BufGrows.bmono {K K2 : Entry → Prop} {a b : FlowMessage}
    (h : BufGrows K a b) (hk : ∀ k, K k → K2 k) : BufGrows K2 a b := by
  obtain ⟨l, e, k⟩ := h
  exact ⟨l, e, fun x hx => hk _ (k x hx)⟩

theorem mem_kept {s : Schema} {l : List Entry} {e : Entry} (h : e ∈ s.kept l) : e ∈ l := by
  unfold Schema.kept at h
  exact (List.mem_filter.mp h).1

theorem BufGrows.of_kept (K : Entry → Prop) (s : Schema) (bf r : FlowMessage)
    (l : List Entry) (h : r.protobuf = bf.protobuf ++ s.kept l) (hk : ∀ e ∈ l, K e) :
    BufGrows K bf r :=
  ⟨s.kept l, h, fun e he => hk e (mem_kept he)⟩

theorem Grows.grefl (K : Entry → Prop) (bf : FlowMessage) : Grows K bf bf :=
  ⟨rfl, rfl, rfl, rfl, rfl, rfl, rfl, Or.inl rfl, Or.inl rfl, BufGrows.brefl K bf⟩

theorem Grows.gtrans {K : Entry → Prop} {a b c : FlowMessage}
    (h1 : Grows K a b) (h2 : Grows K b c) : Grows K a c := by
  obtain ⟨a1, a2, a3, a4, a5, a6, a7, a8, a9, a10⟩ := h1
  obtain ⟨b1, b2, b3, b4, b5, b6, b7, b8, b9, b10⟩ := h2
  refine ⟨b1.trans a1, b2.trans a2, b3.trans a3, b4.trans a4, b5.trans a5, b6.trans a6,
    b7.trans a7, ?_, ?_, a10.btrans b10⟩
  · rcases b8 with h | h
    · rw [h]; exact a8
    · exact Or.inr h
  · rcases b9 with h | h
    · rw [h]; exact a9
    · exact Or.inr h

theorem Grows.gmono {K K2 : Entry → Prop} {a b : FlowMessage}
    (h : Grows K a b) (hk : ∀ k, K k → K2 k) : Grows K2 a b := by
  obtain ⟨a1, a2, a3, a4, a5, a6, a7, a8, a9, a10⟩ := h
  exact ⟨a1, a2, a3, a4, a5, a6, a7, a8, a9, a10.bmono hk⟩

theorem Grows.gappend (K : Entry → Prop) (s : Schema) (bf : FlowMessage) (k : ColumnKey)
    (v : Nat) (hk : K (k, v)) : Grows K bf (s.ProtobufAppendVarint bf k v) := by
  rw [append_protobuf]
  refine ⟨rfl, rfl, rfl, rfl, rfl, rfl, rfl, Or.inl rfl, Or.inl rfl, ?_⟩
  exact BufGrows.of_kept K s _ _ [(k, v)] rfl (by simpa using hk)

theorem portEntries_keys (proto : Nat) (r : List Byte) :
    ∀ e ∈ portEntries proto r, e.1 = .SrcPort ∨ e.1 = .DstPort := by
  unfold portEntries
  split <;> simp

theorem parseL4_grows (s : Schema) (bf : FlowMessage) (proto : Nat) (data : List Byte) :
    ∃ r, parseL4 s bf proto data = .ok r ∧ Grows l34Key bf r := by
  refine ⟨_, parseL4_eq s bf proto data, rfl, rfl, rfl, rfl, rfl, rfl, rfl, Or.inl rfl,
    Or.inl rfl, ?_⟩
  refine BufGrows.of_kept _ s _ _ _ rfl ?_
  intro e he
  rcases List.mem_cons.mp he with h | h
  · subst h; right; left; rfl
  · rcases portEntries_keys _ _ e h with h | h
    · right; right; left; exact h
    · right; right; right; exact h

theorem parseL3_grows (s : Schema) (bf : FlowMessage) (e data : List Byte) (he : 2 ≤ e.length) :
    ∃ r, parseL3 s bf e data = .ok r ∧ Grows l34Key bf r := by
  by_cases h4 : e[0].val = 0x8 ∧ e[1].val = 0x0
  · by_cases hd : data.length < 20
    · exact ⟨bf, parseL3_ipv4_short s bf e data he h4.1 h4.2 hd, Grows.grefl _ _⟩
    · refine ⟨_, parseL3_ipv4 s bf e data he h4.1 h4.2 (by omega), rfl, rfl, rfl, rfl, rfl, rfl,
        rfl, Or.inr ⟨_, rfl⟩, Or.inr ⟨_, rfl⟩, ?_⟩
      refine BufGrows.of_kept _ s _ _ _ rfl ?_
      intro x hx
      rcases List.mem_cons.mp hx with h | h
      · subst h; left; rfl
      · rcases List.mem_cons.mp h with h | h
        · subst h; right; left; rfl
        · rcases portEntries_keys _ _ x h with h | h
          · right; right; left; exact h
          · right; right; right; exact h
  · by_cases h6 : e[0].val = 0x86 ∧ e[1].val = 0xdd
    · by_cases hd : data.length < 40
      · exact ⟨bf, parseL3_ipv6_short s bf e data he h6.1 h6.2 hd, Grows.grefl _ _⟩
      · refine ⟨_, parseL3_ipv6 s bf e data he h6.1 h6.2 (by omega), rfl, rfl, rfl, rfl, rfl,
          rfl, rfl, Or.inr ⟨_, rfl⟩, Or.inr ⟨_, rfl⟩, ?_⟩
        refine BufGrows.of_kept _ s _ _ _ rfl ?_
        intro x hx
        rcases List.mem_cons.mp hx with h | h
        · subst h; left; rfl
        · rcases List.mem_cons.mp h with h | h
          · subst h; right; left; rfl
          · rcases portEntries_keys _ _ x h with h | h
            · right; right; left; exact h
            · right; right; right; exact h
    · refine ⟨_, parseL3_other s bf e data he h4 h6, rfl, rfl, rfl, rfl, rfl, rfl, rfl,
        Or.inl rfl, Or.inl rfl, ?_⟩
      refine BufGrows.of_kept _ s _ _ _ rfl ?_
      intro x hx
      rcases List.mem_cons.mp hx with h | h
      · subst h; right; left; rfl
      · simp at h
theorem Uint32_ok (b : List Byte) (h : 4 ≤ b.length) : Uint32 b = .ok (beVal (b.take 4)) := by
  simp [Uint32, h]

theorem Uint64_ok (b : List Byte) (h : 8 ≤ b.length) : Uint64 b = .ok (beVal (b.take 8)) := by
  simp [Uint64, h]

/-- One iteration of the MPLS loop on at least five bytes. -/
theorem mplsLoop_step (fuel : Nat) (data : List Byte) (h : 5 ≤ data.length) :
    mplsLoop (fuel + 1) data =
      if (data[2].val &&& 1 = 1) ∨ (beVal (([0] : List Byte) ++ data.take 3) >>> 4 ≤ 15) then
        (if ((data[4]).val &&& 0xf0) >>> 4 = 4 then .ok (.brk [0x8, 0x0] (data.drop 4))
         else if ((data[4]).val &&& 0xf0) >>> 4 = 6 then .ok (.brk [0x86, 0xdd] (data.drop 4))
         else .ok .ret)
      else mplsLoop fuel (data.drop 4) := by
  have hn : ¬ data.length < 5 := by omega
  have h4 : (data.drop 4)[0]? = some data[4] := by
    rw [List.getElem?_drop]; simp [List.getElem?_eq_getElem (show 4 < data.length by omega)]
  have hi : idx (data.drop 4) 0 = .ok data[4] := by
    simp [idx, h4]
  have hu : Uint32 (([0] : List Byte) ++ data.take 3) = .ok (beVal (([0] : List Byte) ++ data.take 3)) := by
    rw [Uint32_ok _ (by simp; omega), List.take_of_length_le (by simp)]
  rw [mplsLoop]
  simp only [hn, if_false, sliceTo_ok data 3 (by omega), idx_ok data 2 (by omega),
    sliceFrom_ok data 4 (by omega), hi, hu, bind, Except.bind, pure, Except.pure]

theorem mplsLoop_shape : ∀ (fuel : Nat) (data : List Byte), data.length < fuel →
    mplsLoop fuel data = .ok .ret ∨
    ∃ e d, mplsLoop fuel data = .ok (.brk e d) ∧ (e = [0x8, 0x0] ∨ e = [0x86, 0xdd])
  | 0, _, h => by omega
  | fuel + 1, data, h => by
    by_cases h5 : data.length < 5
    · left
      rw [mplsLoop]
      simp [h5, pure, Except.pure]
    · rw [mplsLoop_step fuel data (by omega)]
      split_ifs
      · exact Or.inr ⟨_, _, rfl, Or.inl rfl⟩
      · exact Or.inr ⟨_, _, rfl, Or.inr rfl⟩
      · exact Or.inl rfl
      · apply mplsLoop_shape fuel (data.drop 4)
        simp; omega

theorem parseMPLS_grows (s : Schema) (bf : FlowMessage) (e data : List Byte)
    (he : 2 ≤ e.length) :
    ∃ r, parseMPLS s bf e data = .ok r ∧ Grows l34Key bf r := by
  unfold parseMPLS
  simp only [idx_ok e 0 (by omega), idx_ok e 1 (by omega), bind, Except.bind]
  split_ifs
  · rcases mplsLoop_shape (data.length + 1) data (by omega) with h | ⟨e2, d, h, h2⟩
    · rw [h]; exact ⟨bf, rfl, Grows.grefl _ _⟩
    · rw [h]
      apply parseL3_grows
      rcases h2 with h2 | h2 <;> simp [h2]
  · exact parseL3_grows s bf e data he

theorem vlan_lt (b0 b1 : Byte) : ((b0.val &&& 0xf) <<< 8) + b1.val < 4096 := by
  have h0 : b0.val &&& 0xf = b0.val % 16 := Nat.and_pow_two_sub_one_eq_mod b0.val 4
  have h1 := b1.isLt
  rw [h0, Nat.shiftLeft_eq]
  omega

theorem parseDot1Q_grows (s : Schema) (bf : FlowMessage) (e data : List Byte)
    (he : 2 ≤ e.length) :
    ∃ r, parseDot1Q s bf e data = .ok r ∧ Grows (ethKey s) bf r := by
  unfold parseDot1Q
  simp only [idx_ok e 0 (by omega), idx_ok e 1 (by omega), bind, Except.bind]
  by_cases h1 : e[0].val = 0x81 ∧ e[1].val = 0x00
  · by_cases h2 : data.length < 4
    · simp only [h1, h2, and_self, if_true]
      exact ⟨bf, rfl, Grows.grefl _ _⟩
    · have hs : slice data 2 4 = .ok ((data.drop 2).take 2) :=
        slice_ok data 2 4 (by omega) (by omega)
      by_cases hl : s.IsDisabled .L2 = true
      · simp only [h1, h2, and_self, if_true, if_false, hl, Bool.not_true, Bool.false_eq_true,
          pure, Except.pure, hs, sliceFrom_ok data 4 (by omega)]
        obtain ⟨r, hr, hg⟩ := parseMPLS_grows s bf ((data.drop 2).take 2) (data.drop 4)
          (by simp; omega)
        exact ⟨r, hr, hg.gmono (fun k hk => Or.inl hk)⟩
      · have hl2 : s.IsDisabled .L2 = false := by simpa using hl
        simp only [h1, h2, and_self, if_true, if_false, hl2, Bool.not_false, pure, Except.pure,
          hs, sliceFrom_ok data 4 (by omega), idx_ok data 0 (by omega),
          idx_ok data 1 (by omega)]
        obtain ⟨r, hr, hg⟩ := parseMPLS_grows s
          (s.ProtobufAppendVarint bf .SrcVlan (((data[0].val &&& 0xf) <<< 8) + data[1].val))
          ((data.drop 2).take 2) (data.drop 4) (by simp; omega)
        refine ⟨r, hr, Grows.gtrans ?_ (hg.gmono (fun k hk => Or.inl hk))⟩
        exact Grows.gappend _ s bf _ _
          (Or.inr ⟨hl2, Or.inr (Or.inr ⟨rfl, vlan_lt data[0] data[1]⟩)⟩)
  · simp only [h1, if_false]
    obtain ⟨r, hr, hg⟩ := parseMPLS_grows s bf e data he
    exact ⟨r, hr, hg.gmono (fun k hk => Or.inl hk)⟩

theorem take6_eq (l : List Byte) (h : 6 ≤ l.length) :
    l.take 6 = [l[0], l[1], l[2], l[3], l[4], l[5]] := by
  rcases l with _ | ⟨a, _ | ⟨b, _ | ⟨c, _ | ⟨d, _ | ⟨e, _ | ⟨f, r⟩⟩⟩⟩⟩⟩ <;>
    simp at h ⊢

/-- Lines 121-132 as one step: for at least 14 bytes, the MAC columns are
appended when group L2 is enabled and the parse goes on with `data[12:14]`
and `data[14:]`. -/
theorem parseEthernetHeader_step (s : Schema) (bf : FlowMessage) (data : List Byte)
    (h : 14 ≤ data.length) :
    parseEthernetHeader s bf data =
      parseDot1Q s
        (if s.IsDisabled .L2 = false then
          { bf with protobuf := bf.protobuf ++ s.kept (macEntries data) } else bf)
        ((data.drop 12).take 2) (data.drop 14) := by
  have hn : ¬ data.length < 14 := by omega
  have hd : beVal [0, 0, data[0], data[1], data[2], data[3], data[4], data[5]] =
      beVal (data.take 6) := by
    rw [take6_eq data (by omega)]; simp [beVal]
  have hs : beVal [0, 0, data[6], data[7], data[8], data[9], data[10], data[11]] =
      beVal ((data.drop 6).take 6) := by
    rw [take6_eq (data.drop 6) (by simp; omega)]; simp [beVal]
  unfold parseEthernetHeader
  simp only [hn, if_false, idx_ok data 0 (by omega), idx_ok data 1 (by omega),
    idx_ok data 2 (by omega), idx_ok data 3 (by omega), idx_ok data 4 (by omega),
    idx_ok data 5 (by omega), idx_ok data 6 (by omega), idx_ok data 7 (by omega),
    idx_ok data 8 (by omega), idx_ok data 9 (by omega), idx_ok data 10 (by omega),
    idx_ok data 11 (by omega), slice_ok data 12 14 (by omega) (by omega),
    sliceFrom_ok data 14 (by omega), bind, Except.bind, pure, Except.pure]
  by_cases hl : s.IsDisabled .L2 = true
  · simp [hl]
  · have hl2 : s.IsDisabled .L2 = false := by simpa using hl
    simp [hl2, Uint64, hd, hs, append_protobuf, macEntries, ← kept_append]

theorem parseEthernetHeader_grows (s : Schema) (bf : FlowMessage) (data : List Byte) :
    ∃ r, parseEthernetHeader s bf data = .ok r ∧ Grows (ethKey s) bf r := by
  by_cases h : data.length < 14
  · refine ⟨bf, ?_, Grows.grefl _ _⟩
    unfold parseEthernetHeader
    simp [h, pure, Except.pure]
  · rw [parseEthernetHeader_step s bf data (by omega)]
    by_cases hl : s.IsDisabled .L2 = false
    · simp only [hl, if_true]
      obtain ⟨r, hr, hg⟩ := parseDot1Q_grows s
        { bf with protobuf := bf.protobuf ++ s.kept (macEntries data) }
        ((data.drop 12).take 2) (data.drop 14) (by simp; omega)
      refine ⟨r, hr, Grows.gtrans ?_ hg⟩
      refine ⟨rfl, rfl, rfl, rfl, rfl, rfl, rfl, Or.inl rfl, Or.inl rfl, ?_⟩
      refine BufGrows.of_kept _ s _ _ _ rfl ?_
      intro e he
      simp only [macEntries, List.mem_cons, List.mem_singleton, List.not_mem_nil, or_false] at he
      rcases he with h | h
      · subst h; exact Or.inr ⟨hl, Or.inl rfl⟩
      · subst h; exact Or.inr ⟨hl, Or.inr (Or.inl rfl)⟩
    · simp only [hl, if_false]
      exact parseDot1Q_grows s bf _ _ (by simp; omega)

/-! ## Big-endian values and `netip` addresses -/

theorem beVal_snoc (l : List Byte) (x : Byte) : beVal (l ++ [x]) = beVal l * 256 + x.val := by
  simp [beVal, List.foldl_append]

theorem beVal_lt (l : List Byte) : beVal l < 256 ^ l.length := by
  induction l using List.reverseRecOn with
  | nil => simp [beVal]
  | append_singleton l x ih =>
    rw [beVal_snoc, List.length_append, List.length_singleton, pow_succ]
    have := x.isLt
    omega

theorem bePut_length (w n : Nat) : (bePut w n).length = w := by
  induction w generalizing n with
  | zero => simp [bePut]
  | succ w ih => simp [bePut, ih]

theorem beVal_bePut (w n : Nat) : beVal (bePut w n) = n % 256 ^ w := by
  induction w generalizing n with
  | zero => simp [bePut, beVal, Nat.mod_one]
  | succ w ih =>
    rw [bePut, beVal_snoc, ih, pow_succ]
    have h : (Fin.ofNat (n % 256) : Byte).val = n % 256 := by
      simp [Fin.ofNat]
    rw [h, Nat.mul_comm (256 ^ w) 256, Nat.mod_mul]
    omega

theorem AddrFrom16_As16 (x : Addr) :
    AddrFrom16 x.As16 = ⟨x.hi % 2 ^ 64, x.lo % 2 ^ 64, .z6noz⟩ := by
  unfold AddrFrom16 Addr.As16
  rw [List.take_left' (bePut_length 8 x.hi), List.drop_left' (bePut_length 8 x.hi),
    List.take_of_length_le (by rw [bePut_length]), beVal_bePut, beVal_bePut]
  norm_num

theorem canonical_iff (x : Addr) :
    x.Canonical ↔ x.z = .z6noz ∧ x.hi < 2 ^ 64 ∧ x.lo < 2 ^ 64 := by
  unfold Addr.Canonical
  rw [AddrFrom16_As16]
  rcases x with ⟨hi, lo, z⟩
  simp only [Addr.mk.injEq]
  constructor
  · rintro ⟨h1, h2, h3⟩
    refine ⟨h3, ?_, ?_⟩
    · rw [h1]; exact Nat.mod_lt _ (by norm_num)
    · rw [h2]; exact Nat.mod_lt _ (by norm_num)
  · rintro ⟨h1, h2, h3⟩
    exact ⟨(Nat.mod_eq_of_lt h2).symm, (Nat.mod_eq_of_lt h3).symm, h1⟩

theorem beVal_take_lt (l : List Byte) (n : Nat) : beVal (l.take n) < 256 ^ n := by
  have h := beVal_lt (l.take n)
  have h2 : (l.take n).length ≤ n := by simp
  exact lt_of_lt_of_le h (Nat.pow_le_pow_right (by norm_num) h2)

theorem decodeIP_len4 (b : List Byte) (h : b.length = 4) : decodeIP b = v4mapped b := by
  unfold decodeIP AddrFromSlice
  simp only [h, if_true]
  rw [AddrFrom16_As16]
  have h1 := beVal_take_lt b 4
  unfold AddrFrom4 v4mapped
  simp only [Addr.mk.injEq, and_true]
  constructor
  · norm_num
  · apply Nat.mod_eq_of_lt
    norm_num at h1 ⊢
    omega

theorem decodeIP_len16 (b : List Byte) (h : b.length = 16) : decodeIP b = AddrFrom16 b := by
  unfold decodeIP AddrFromSlice
  simp only [h, if_true]
  norm_num
  rw [AddrFrom16_As16]
  have h1 := beVal_take_lt b 8
  have h2 := beVal_take_lt (b.drop 8) 8
  unfold AddrFrom16
  simp only [Addr.mk.injEq, and_true]
  constructor
  · apply Nat.mod_eq_of_lt; norm_num at h1 ⊢; omega
  · apply Nat.mod_eq_of_lt; norm_num at h2 ⊢; omega

theorem decodeIP_other (b : List Byte) (h4 : b.length ≠ 4) (h16 : b.length ≠ 16) :
    decodeIP b = Addr.zero := by
  unfold decodeIP AddrFromSlice
  simp [h4, h16]

theorem decodeIP_ok (b : List Byte) : AddrOK (decodeIP b) := by
  by_cases h4 : b.length = 4
  · right
    rw [decodeIP_len4 b h4, canonical_iff]
    have h1 := beVal_take_lt b 4
    refine ⟨rfl, by norm_num [v4mapped], ?_⟩
    simp only [v4mapped]
    norm_num at h1 ⊢
    omega
  · by_cases h16 : b.length = 16
    · right
      rw [decodeIP_len16 b h16, canonical_iff]
      have h1 := beVal_take_lt b 8
      have h2 := beVal_take_lt (b.drop 8) 8
      refine ⟨rfl, ?_, ?_⟩
      · simp only [AddrFrom16]; norm_num at h1 ⊢; omega
      · simp only [AddrFrom16]; norm_num at h2 ⊢; omega
    · left; exact decodeIP_other b h4 h16

theorem zero_not_canonical : ¬ Addr.zero.Canonical := by
  rw [canonical_iff]; simp [Addr.zero]

/-! ## The record loop -/

theorem RecGrows.rrefl (bf : FlowMessage) : RecGrows bf bf :=
  ⟨rfl, rfl, rfl, rfl, Or.inl rfl, Or.inl rfl, Or.inl rfl, BufGrows.brefl _ bf⟩

theorem RecGrows.rtrans {a b c : FlowMessage} (h1 : RecGrows a b) (h2 : RecGrows b c) :
    RecGrows a c := by
  obtain ⟨a1, a2, a3, a4, a5, a6, a7, a8⟩ := h1
  obtain ⟨b1, b2, b3, b4, b5, b6, b7, b8⟩ := h2
  refine ⟨b1.trans a1, b2.trans a2, b3.trans a3, b4.trans a4, ?_, ?_, ?_, a8.btrans b8⟩
  · rcases b5 with h | h
    · rw [h]; exact a5
    · exact Or.inr h
  · rcases b6 with h | h
    · rw [h]; exact a6
    · exact Or.inr h
  · rcases b7 with h | h
    · rw [h]; exact a7
    · exact Or.inr h

theorem ethKey_recEntry (s : Schema) (e : Entry) (h : ethKey s e) : recEntry e := by
  unfold recEntry
  rcases h with h | ⟨_, h⟩
  · rcases h with h | h | h | h <;> simp [h]
  · rcases h with h | h | ⟨h, hv⟩
    · simp [h]
    · simp [h]
    · simp [h, hv]

theorem Grows.toRec {K : Entry → Prop} {a b : FlowMessage} (h : Grows K a b)
    (hk : ∀ e, K e → recEntry e) : RecGrows a b := by
  obtain ⟨a1, a2, a3, a4, a5, a6, a7, a8, a9, a10⟩ := h
  exact ⟨a1, a2, a3, a4, a8, a9, Or.inl a5, a10.bmono hk⟩

theorem RecGrows.rappend (s : Schema) (bf : FlowMessage) (k : ColumnKey) (v : Nat)
    (hk : recEntry (k, v)) : RecGrows bf (s.ProtobufAppendVarint bf k v) :=
  (Grows.gappend recEntry s bf k v hk).toRec (fun _ h => h)

/-- The `ExtendedGateway` case of the record loop (lines 94-103). -/
theorem decodeRecord_gateway (s : Schema) (bf : FlowMessage) (g : ExtendedGateway) :
    decodeRecord s bf (.ExtendedGateway g) =
      .ok { bf with
        NextHop := decodeIP g.NextHop
        DstAS := g.ASPath.getLast?.getD g.AS
        SrcAS := if g.SrcAS > 0 then g.SrcAS else g.AS } := by
  unfold decodeRecord
  by_cases hp : g.ASPath.length > 0
  · have hne : g.ASPath ≠ [] := by
      intro h; simp [h] at hp
    have hl : g.ASPath.getLast?.getD g.AS = g.ASPath[g.ASPath.length - 1] := by
      rw [List.getLast?_eq_getLast _ hne, List.getLast_eq_getElem]
      rfl
    simp only [hp, if_true, idx_ok g.ASPath (g.ASPath.length - 1) (by omega), bind, Except.bind,
      pure, Except.pure, hl]
    split_ifs <;> rfl
  · have hnil : g.ASPath = [] := by
      cases hq : g.ASPath with
      | nil => rfl
      | cons a l => simp [hq] at hp
    simp only [hp, if_false, bind, Except.bind, pure, Except.pure]
    rw [hnil]
    simp only [List.getLast?_nil, Option.getD_none]
    split_ifs <;> rfl

theorem kept_nil (s : Schema) : s.kept [] = [] := rfl

theorem decodeRecord_switch (s : Schema) (bf : FlowMessage) (sw : ExtendedSwitch) :
    decodeRecord s bf (.ExtendedSwitch sw) =
      .ok { bf with protobuf := bf.protobuf ++ s.kept (switchEntries s sw) } := by
  unfold decodeRecord switchEntries
  by_cases hl : s.IsDisabled .L2 = true
  · simp [hl, pure, Except.pure, Schema.kept]
  · have hl2 : s.IsDisabled .L2 = false := by simpa using hl
    by_cases h1 : sw.SrcVlan < 4096 <;> by_cases h2 : sw.DstVlan < 4096 <;>
      simp [hl2, h1, h2, pure, Except.pure, append_protobuf, ← kept_append, kept_nil]

theorem switchEntries_rec (s : Schema) (sw : ExtendedSwitch) :
    ∀ e ∈ switchEntries s sw, recEntry e := by
  intro e he
  unfold switchEntries at he
  rcases List.mem_append.mp he with h | h
  · split_ifs at h with hc
    · simp at h; subst h; simp [recEntry, hc.2]
    · simp at h
  · split_ifs at h with hc
    · simp at h; subst h; simp [recEntry, hc.2]
    · simp at h

theorem decodeRecord_grows (s : Schema) (bf : FlowMessage) (record : FlowRecord) :
    ∃ r, decodeRecord s bf record = .ok r ∧ RecGrows bf r := by
  cases record with
  | SampledHeader h =>
    unfold decodeRecord parseSampledHeader
    by_cases hp : h.Protocol = 1
    · simp only [hp, if_true]
      obtain ⟨r, hr, hg⟩ := parseEthernetHeader_grows s
        (s.ProtobufAppendVarint bf .Bytes h.FrameLength) h.HeaderData
      refine ⟨r, hr, RecGrows.rtrans
        (RecGrows.rappend s bf .Bytes h.FrameLength (by simp [recEntry])) ?_⟩
      exact hg.toRec (ethKey_recEntry s)
    · simp only [hp, if_false]
      exact ⟨_, rfl, RecGrows.rappend s bf .Bytes h.FrameLength (by simp [recEntry])⟩
  | SampledIPv4 b =>
    refine ⟨_, rfl, ?_⟩
    simp only [append_protobuf, List.append_assoc, ← kept_append]
    refine ⟨rfl, rfl, rfl, rfl, Or.inr ⟨_, rfl⟩, Or.inr ⟨_, rfl⟩, Or.inl rfl, ?_⟩
    refine BufGrows.of_kept _ s _ _ _ rfl ?_
    intro e he
    simp at he
    rcases he with h | h | h | h | h <;> subst h <;> simp [recEntry]
  | SampledIPv6 b =>
    refine ⟨_, rfl, ?_⟩
    simp only [append_protobuf, List.append_assoc, ← kept_append]
    refine ⟨rfl, rfl, rfl, rfl, Or.inr ⟨_, rfl⟩, Or.inr ⟨_, rfl⟩, Or.inl rfl, ?_⟩
    refine BufGrows.of_kept _ s _ _ _ rfl ?_
    intro e he
    simp at he
    rcases he with h | h | h | h | h <;> subst h <;> simp [recEntry]
  | ExtendedSwitch sw =>
    refine ⟨_, decodeRecord_switch s bf sw, rfl, rfl, rfl, rfl, Or.inl rfl, Or.inl rfl,
      Or.inl rfl, ?_⟩
    exact BufGrows.of_kept _ s _ _ _ rfl (switchEntries_rec s sw)
  | ExtendedRouter rt =>
    refine ⟨_, rfl, ?_⟩
    simp only [append_protobuf, List.append_assoc, ← kept_append]
    refine ⟨rfl, rfl, rfl, rfl, Or.inl rfl, Or.inl rfl, Or.inr ⟨_, rfl⟩, ?_⟩
    refine BufGrows.of_kept _ s _ _ _ rfl ?_
    intro e he
    simp at he
    rcases he with h | h <;> subst h <;> simp [recEntry]
  | ExtendedGateway g =>
    exact ⟨_, decodeRecord_gateway s bf g, rfl, rfl, rfl, rfl, Or.inl rfl, Or.inl rfl,
      Or.inr ⟨_, rfl⟩, BufGrows.brefl _ _⟩
  | Other => exact ⟨bf, rfl, RecGrows.rrefl bf⟩

theorem decodeRecords_grows (s : Schema) (records : List FlowRecord) :
    ∀ bf : FlowMessage, ∃ r, decodeRecords s bf records = .ok r ∧ RecGrows bf r := by
  induction records with
  | nil => intro bf; exact ⟨bf, rfl, RecGrows.rrefl bf⟩
  | cons record records ih =>
    intro bf
    obtain ⟨m, hm, gm⟩ := decodeRecord_grows s bf record
    obtain ⟨r, hr, gr⟩ := ih m
    refine ⟨r, ?_, gm.rtrans gr⟩
    rw [decodeRecords]
    simp only [hm, bind, Except.bind]
    exact hr

/-! ## Samples and packets -/

theorem sampleInit_records (nd : Decoder) (p : Packet) (smp : Sample) :
    (sampleInit nd p smp).1 = smp.Records := by
  cases smp with
  | FlowSample fs =>
    simp only [sampleInit, sampleSwitch, Sample.Records]
    split_ifs <;> rfl
  | ExpandedFlowSample fs => rfl
  | Other => rfl

theorem sampleInit_fields (nd : Decoder) (p : Packet) (smp : Sample) :
    (sampleInit nd p smp).2.ExporterAddress = decodeIP p.AgentIP ∧
    (sampleInit nd p smp).2.SrcAddr = Addr.zero ∧
    (sampleInit nd p smp).2.DstAddr = Addr.zero ∧
    (sampleInit nd p smp).2.NextHop = Addr.zero ∧
    (sampleInit nd p smp).2.SrcAS = 0 ∧
    (sampleInit nd p smp).2.DstAS = 0 ∧
    (sampleInit nd p smp).2.protobuf =
      nd.Schema.kept [(.Packets, 1), (.ForwardingStatus, forwardingStatusOf nd smp)] := by
  cases smp with
  | FlowSample fs =>
    simp only [sampleInit, sampleSwitch, forwardingStatusOf, append_protobuf, FlowMessage.empty]
    split_ifs <;> simp [← kept_append]
  | ExpandedFlowSample fs =>
    simp only [sampleInit, sampleSwitch, forwardingStatusOf, append_protobuf, FlowMessage.empty]
    split_ifs <;> simp [← kept_append]
  | Other =>
    simp only [sampleInit, sampleSwitch, forwardingStatusOf, append_protobuf, FlowMessage.empty]
    split_ifs <;> simp [← kept_append]

theorem decodeSample_eq (nd : Decoder) (p : Packet) (smp : Sample) :
    decodeSample nd p smp = decodeRecords nd.Schema (sampleInit nd p smp).2 smp.Records := by
  rw [← sampleInit_records nd p smp]
  rfl

theorem decodeSample_total (nd : Decoder) (p : Packet) (smp : Sample) :
    ∃ r, decodeSample nd p smp = .ok r ∧ RecGrows (sampleInit nd p smp).2 r := by
  rw [decodeSample_eq]
  exact decodeRecords_grows nd.Schema smp.Records _

theorem decodeLoop_total (nd : Decoder) (p : Packet) (samples : List Sample) :
    ∀ acc : List FlowMessage, ∃ msgs, decodeLoop nd p acc samples = .ok (acc ++ msgs) ∧
      List.Forall₂ (fun smp m => decodeSample nd p smp = .ok m) samples msgs := by
  induction samples with
  | nil => intro acc; exact ⟨[], by simp [decodeLoop, pure, Except.pure], List.Forall₂.nil⟩
  | cons smp samples ih =>
    intro acc
    obtain ⟨m, hm, _⟩ := decodeSample_total nd p smp
    obtain ⟨msgs, hl, hf⟩ := ih (acc ++ [m])
    refine ⟨m :: msgs, ?_, List.Forall₂.cons hm hf⟩
    rw [decodeLoop]
    simp only [hm, bind, Except.bind]
    rw [hl]
    simp

/-- The sample loop never faults, and its result pairs every element of
`packet.Samples`, in order, with the record that `decodeSample` builds for it. -/
theorem decode_packet (nd : Decoder) (p : Packet) :
    ∃ msgs, nd.decode (.Packet p) = .ok msgs ∧
      List.Forall₂ (fun smp m => decodeSample nd p smp = .ok m) p.Samples msgs := by
  obtain ⟨msgs, h, hf⟩ := decodeLoop_total nd p p.Samples []
  exact ⟨msgs, by simpa [Decoder.decode] using h, hf⟩

/-! ## Frames given by their parts -/

theorem l2Entries_keys (s : Schema) (macs tag : List Byte) :
    ∀ e ∈ l2Entries s macs tag, e.1 = .DstMAC ∨ e.1 = .SrcMAC ∨ e.1 = .SrcVlan := by
  intro e he
  unfold l2Entries at he
  split_ifs at he
  · rcases List.mem_append.mp he with h | h
    · simp [macEntries] at h
      rcases h with h | h <;> simp [h]
    · split at h
      · simp at h; simp [h]
      · simp at h
  · simp at he

theorem length12 (l : List Byte) (h : l.length = 12) :
    ∃ a0 a1 a2 a3 a4 a5 a6 a7 a8 a9 a10 a11 : Byte,
      l = [a0, a1, a2, a3, a4, a5, a6, a7, a8, a9, a10, a11] := by
  rcases l with _ | ⟨a0, _ | ⟨a1, _ | ⟨a2, _ | ⟨a3, _ | ⟨a4, _ | ⟨a5, _ | ⟨a6, _ | ⟨a7,
    _ | ⟨a8, _ | ⟨a9, _ | ⟨a10, _ | ⟨a11, _ | ⟨a12, r⟩⟩⟩⟩⟩⟩⟩⟩⟩⟩⟩⟩⟩ <;> simp at h
  exact ⟨a0, a1, a2, a3, a4, a5, a6, a7, a8, a9, a10, a11, rfl⟩

/-- Lines 121-144 on a frame given by its parts: MACs, optional tag, ethertype
`e0 e1` and the rest. -/
theorem parseEthernetHeader_l2 (s : Schema) (bf : FlowMessage) (macs tag rest : List Byte)
    (e0 e1 : Byte) (hm : macs.length = 12) (ht : IsTag tag)
    (hne : tag = [] → ¬ (e0.val = 0x81 ∧ e1.val = 0x00)) :
    parseEthernetHeader s bf (macs ++ tag ++ [e0, e1] ++ rest) =
      parseMPLS s { bf with protobuf := bf.protobuf ++ s.kept (l2Entries s macs tag) }
        [e0, e1] rest := by
  obtain ⟨a0, a1, a2, a3, a4, a5, a6, a7, a8, a9, a10, a11, rfl⟩ := length12 macs hm
  rcases ht with rfl | ⟨t0, t1, rfl⟩
  · have hne2 := hne rfl
    rw [parseEthernetHeader_step _ _ _ (by simp)]
    unfold parseDot1Q
    by_cases hl : s.IsDisabled .L2 = false
    · simp [idx, hne2, hl, l2Entries, macEntries, bind, Except.bind]
    · simp [idx, hne2, hl, l2Entries, kept_nil, bind, Except.bind]
  · have h81 : ((0x81 : Byte).val = 0x81 ∧ (0x00 : Byte).val = 0x00) := ⟨rfl, rfl⟩
    have hlen : ¬ (t0 :: t1 :: e0 :: e1 :: rest).length < 4 := by simp
    rw [parseEthernetHeader_step _ _ _ (by simp)]
    unfold parseDot1Q
    have hd12 : (([a0, a1, a2, a3, a4, a5, a6, a7, a8, a9, a10, a11] ++ [0x81, 0x00, t0, t1] ++
        [e0, e1] ++ rest).drop 12).take 2 = [0x81, 0x00] := rfl
    have hd14 : ([a0, a1, a2, a3, a4, a5, a6, a7, a8, a9, a10, a11] ++ [0x81, 0x00, t0, t1] ++
        [e0, e1] ++ rest).drop 14 = t0 :: t1 :: e0 :: e1 :: rest := rfl
    rw [hd12, hd14]
    have i0 : idx ([0x81, 0x00] : List Byte) 0 = .ok 0x81 := rfl
    have i1 : idx ([0x81, 0x00] : List Byte) 1 = .ok 0x00 := rfl
    have j0 : idx (t0 :: t1 :: e0 :: e1 :: rest) 0 = .ok t0 := rfl
    have j1 : idx (t0 :: t1 :: e0 :: e1 :: rest) 1 = .ok t1 := rfl
    have hs : slice (t0 :: t1 :: e0 :: e1 :: rest) 2 4 = .ok [e0, e1] := by
      simp [slice]
    have hf : sliceFrom (t0 :: t1 :: e0 :: e1 :: rest) 4 = .ok rest := by
      simp [sliceFrom]
    simp only [i0, i1, j0, j1, hs, hf, h81, hlen, and_self, if_true, if_false, bind, Except.bind,
      pure, Except.pure]
    by_cases hl : s.IsDisabled .L2 = false
    · simp [hl, l2Entries, macEntries, append_protobuf, ← kept_append]
    · simp [hl, l2Entries, kept_nil]

theorem parseMPLS_plain (s : Schema) (bf : FlowMessage) (e0 e1 : Byte) (data : List Byte)
    (h : ¬ (e0.val = 0x88 ∧ e1.val = 0x47)) :
    parseMPLS s bf [e0, e1] data = parseL3 s bf [e0, e1] data := by
  unfold parseMPLS
  simp [idx, h, bind, Except.bind]

theorem stackBytes_length (st : List MplsEntry) : (stackBytes st).length = 4 * st.length := by
  induction st with
  | nil => rfl
  | cons e es ih => simp [stackBytes, MplsEntry.bytes, ih]; omega

/-- One iteration of the label walk on an entry followed by at least one byte. -/
theorem mplsLoop_entry (f : Nat) (e : MplsEntry) (d0 : Byte) (rest : List Byte) :
    mplsLoop (f + 1) (e.bytes ++ d0 :: rest) =
      if e.bottom = 1 ∨ e.label ≤ 15 then
        (if highNibble d0 = 4 then .ok (.brk [0x8, 0x0] (d0 :: rest))
         else if highNibble d0 = 6 then .ok (.brk [0x86, 0xdd] (d0 :: rest))
         else .ok .ret)
      else mplsLoop f (d0 :: rest) := by
  have hb : beVal (([0] : List Byte) ++ List.take 3 (e.bytes ++ d0 :: rest)) =
      beVal [e.b0, e.b1, e.b2] := by
    simp [MplsEntry.bytes, beVal]
  rw [mplsLoop_step f _ (by simp [MplsEntry.bytes]), hb]
  rfl

/-- The label walk over a well-formed stack: every entry of `pre` lets the
walk go on, `last` ends it, and the next byte decides. -/
theorem mplsLoop_stack (pre : List MplsEntry) (last : MplsEntry) (payload : List Byte)
    (d0 : Byte) (hpre : ∀ e ∈ pre, ¬ e.stops) (hlast : last.stops) :
    ∀ fuel, pre.length < fuel →
      mplsLoop fuel (stackBytes pre ++ last.bytes ++ d0 :: payload) =
        if highNibble d0 = 4 then .ok (.brk [0x8, 0x0] (d0 :: payload))
        else if highNibble d0 = 6 then .ok (.brk [0x86, 0xdd] (d0 :: payload))
        else .ok .ret := by
  induction pre with
  | nil =>
    intro fuel hf
    obtain ⟨f, rfl⟩ : ∃ f, fuel = f + 1 := ⟨fuel - 1, by omega⟩
    have hd : stackBytes [] ++ last.bytes ++ d0 :: payload = last.bytes ++ d0 :: payload := rfl
    rw [hd, mplsLoop_entry, if_pos (show last.bottom = 1 ∨ last.label ≤ 15 from hlast)]
  | cons e es ih =>
    intro fuel hf
    obtain ⟨f, rfl⟩ : ∃ f, fuel = f + 1 := ⟨fuel - 1, by omega⟩
    obtain ⟨x, rest, hx⟩ : ∃ x rest, stackBytes es ++ last.bytes ++ d0 :: payload = x :: rest := by
      cases es with
      | nil => exact ⟨last.b0, _, rfl⟩
      | cons e2 es2 => exact ⟨e2.b0, _, rfl⟩
    have hd : stackBytes (e :: es) ++ last.bytes ++ d0 :: payload = e.bytes ++ x :: rest := by
      rw [← hx]; simp [stackBytes]
    have hn : ¬ (e.bottom = 1 ∨ e.label ≤ 15) := hpre e (List.mem_cons_self _ _)
    rw [hd, mplsLoop_entry, if_neg hn, ← hx]
    exact ih (fun y hy => hpre y (List.mem_cons_of_mem _ hy)) f (by simp at hf; omega)

theorem parseMPLS_stack (s : Schema) (bf : FlowMessage) (pre : List MplsEntry)
    (last : MplsEntry) (payload : List Byte) (d0 : Byte)
    (hpre : ∀ e ∈ pre, ¬ e.stops) (hlast : last.stops) :
    parseMPLS s bf [0x88, 0x47] (stackBytes pre ++ last.bytes ++ d0 :: payload) =
      if highNibble d0 = 4 then parseL3 s bf [0x8, 0x0] (d0 :: payload)
      else if highNibble d0 = 6 then parseL3 s bf [0x86, 0xdd] (d0 :: payload)
      else .ok bf := by
  unfold parseMPLS
  have hf : pre.length < (stackBytes pre ++ last.bytes ++ d0 :: payload).length + 1 := by
    simp [stackBytes_length]; omega
  have i0 : idx ([0x88, 0x47] : List Byte) 0 = .ok 0x88 := rfl
  have i1 : idx ([0x88, 0x47] : List Byte) 1 = .ok 0x47 := rfl
  have h88 : ((0x88 : Byte).val = 0x88 ∧ (0x47 : Byte).val = 0x47) := ⟨rfl, rfl⟩
  simp only [i0, i1, h88, and_self, if_true, bind, Except.bind]
  rw [mplsLoop_stack pre last payload d0 hpre hlast _ hf]
  split_ifs <;> rfl

/-! ## The sample-level columns, message count and addresses -/

theorem forall2_get {α β : Type} {R : α → β → Prop} :
    ∀ {l1 : List α} {l2 : List β}, List.Forall₂ R l1 l2 →
      ∀ (i : Nat) (a : α), l1[i]? = some a → ∃ b, l2[i]? = some b ∧ R a b
  | _, _, .nil, i, a, h => by simp at h
  | _, _, .cons (a := a0) (b := b0) h0 ht, i, a, h => by
    cases i with
    | zero =>
      simp at h
      subst h
      exact ⟨b0, by simp, h0⟩
    | succ i =>
      simp at h
      obtain ⟨b, hb, hr⟩ := forall2_get ht i a h
      exact ⟨b, by simpa using hb, hr⟩

theorem forall2_mem {α β : Type} {R : α → β → Prop} :
    ∀ {l1 : List α} {l2 : List β}, List.Forall₂ R l1 l2 →
      ∀ b ∈ l2, ∃ a ∈ l1, R a b
  | _, _, .nil, b, h => by simp at h
  | _, _, .cons (a := a0) (b := b0) h0 ht, b, h => by
    rcases List.mem_cons.mp h with h | h
    · subst h
      exact ⟨a0, List.mem_cons_self _ _, h0⟩
    · obtain ⟨a, ha, hr⟩ := forall2_mem ht b h
      exact ⟨a, List.mem_cons_of_mem _ ha, hr⟩

/-- What `decodeSample` returns, in terms of the record the record loop
starts with. -/
theorem decodeSample_result (nd : Decoder) (p : Packet) (smp : Sample) (m : FlowMessage)
    (h : decodeSample nd p smp = .ok m) : RecGrows (sampleInit nd p smp).2 m := by
  obtain ⟨r, hr, hg⟩ := decodeSample_total nd p smp
  rw [h] at hr
  cases hr
  exact hg

theorem sampleInit_outIf_flow (nd : Decoder) (p : Packet) (fs : FlowSample) :
    (sampleInit nd p (.FlowSample fs)).2.OutIf =
      if fs.Output &&& nd.interfaceOutMask = nd.interfaceOutDiscard then 0
      else if fs.Output &&& nd.interfaceOutMask = nd.interfaceOutMultiple then 0
      else if fs.Output = nd.interfaceLocal then 0
      else fs.Output := by
  simp only [sampleInit, sampleSwitch, append_protobuf, FlowMessage.empty]
  split_ifs <;> simp_all

theorem sampleColumns_of_grows (s : Schema) (v : Nat) (b m : FlowMessage)
    (hb : b.protobuf = s.kept [(.Packets, 1), (.ForwardingStatus, v)]) (hg : RecGrows b m) :
    SampleColumns s v m := by
  obtain ⟨_, _, _, _, _, _, _, l, hl, hk⟩ := hg
  constructor
  · rw [hl, hb]; exact List.prefix_append _ _
  · have hnil : l.filter (fun e => e.1 = .ForwardingStatus) = [] := by
      rw [List.filter_eq_nil_iff]
      intro e he
      have := (hk e he).2.1
      simpa using this
    rw [hl, hb, List.filter_append, hnil, List.append_nil]
    unfold Schema.kept
    by_cases h1 : s.columnOff .Packets <;> by_cases h2 : s.columnOff .ForwardingStatus <;>
      simp [List.filter_cons, h1, h2]

/-- C1: for every byte sequence given as `HeaderData` and every schema state,
`parseEthernetHeader` returns a record.  In the embedding every `data[i]` and
`data[a:b]` is checked against the current length and the MPLS loop runs on
fuel, so that returning a record means: no index or slice bound was outside the
data (no `outOfRange`, the Go panic) and the label walk terminated (no
`outOfFuel`). -/
theorem parseEthernetHeader_never_panics (s : Schema) (bf : FlowMessage) (data : List Byte) :
    ∃ r, parseEthernetHeader s bf data = .ok r := by
  obtain ⟨r, hr, _⟩ := parseEthernetHeader_grows s bf data
  exact ⟨r, hr⟩

/-- C2: `decode` returns one record per sample, paired in order, and: for a
`FlowSample` whose `Output & interfaceOutMask == interfaceOutDiscard` the
record has `OutIf = 0` and `ForwardingStatus = 128`; for a `FlowSample` with
other top bits `ForwardingStatus = 0`, and `OutIf = 0` when the top bits are
`interfaceOutMultiple`; for an `ExpandedFlowSample` `ForwardingStatus = 0`.
In all cases `Packets = 1` and then `ForwardingStatus` are the first two
entries of the record, and there is no other `ForwardingStatus` entry. -/
theorem decode_forwarding_status (nd : Decoder) (p : Packet) :
    ∃ msgs, nd.decode (.Packet p) = .ok msgs ∧
      List.Forall₂ (fun smp m =>
        match smp with
        | .FlowSample fs =>
          if fs.Output &&& nd.interfaceOutMask = nd.interfaceOutDiscard then
            m.OutIf = 0 ∧ SampleColumns nd.Schema 128 m
          else
            (if fs.Output &&& nd.interfaceOutMask = nd.interfaceOutMultiple then m.OutIf = 0
             else True) ∧ SampleColumns nd.Schema 0 m
        | .ExpandedFlowSample _ => SampleColumns nd.Schema 0 m
        | .Other => SampleColumns nd.Schema 0 m) p.Samples msgs := by
  obtain ⟨msgs, hd, hf⟩ := decode_packet nd p
  refine ⟨msgs, hd, hf.imp ?_⟩
  intro smp m hm
  have hg := decodeSample_result nd p smp m hm
  have hi := (sampleInit_fields nd p smp).2.2.2.2.2.2
  have ho : m.OutIf = (sampleInit nd p smp).2.OutIf := hg.2.2.2.1
  cases smp with
  | FlowSample fs =>
    simp only
    rw [sampleInit_outIf_flow] at ho
    simp only [forwardingStatusOf] at hi
    split_ifs with h1 h2
    · rw [if_pos h1] at hi ho
      exact ⟨ho, sampleColumns_of_grows _ _ _ _ hi hg⟩
    · rw [if_neg h1] at hi ho
      rw [if_pos h2] at ho
      exact ⟨ho, sampleColumns_of_grows _ _ _ _ hi hg⟩
    · rw [if_neg h1] at hi
      exact ⟨trivial, sampleColumns_of_grows _ _ _ _ hi hg⟩
  | ExpandedFlowSample fs => exact sampleColumns_of_grows _ _ _ _ hi hg
  | Other => exact sampleColumns_of_grows _ _ _ _ hi hg

/-- C3, as stated, fails: a packet whose only sample is of another kind (a
counter sample) yields one flow message, while it has no `FlowSample` or
`ExpandedFlowSample` entry. -/
theorem decode_counter_sample_emits :
    ∃ m, Decoder.std.decode (.Packet counterOnlyPacket) = .ok [m] ∧
      [m].length ≠ (counterOnlyPacket.Samples.filter Sample.isFlow).length := by
  refine ⟨_, rfl, ?_⟩
  decide

/-- C3, amended: `decode` returns exactly one flow message per element of
`packet.Samples`, in sample order and whatever the sample's kind: the length
of the result equals the number of samples, the i-th message is the one built
for the i-th sample, and a sample that is neither a `FlowSample` nor an
`ExpandedFlowSample` yields the record with zero `SamplingRate`, `InIf` and
`OutIf`, the exporter address, and the entries `Packets = 1`,
`ForwardingStatus = 0`. -/
theorem decode_one_message_per_sample (nd : Decoder) (p : Packet) :
    ∃ msgs, nd.decode (.Packet p) = .ok msgs ∧
      msgs.length = p.Samples.length ∧
      List.Forall₂ (fun smp m =>
        decodeSample nd p smp = .ok m ∧
        (if smp.isFlow = false then
          m = { FlowMessage.empty with
                ExporterAddress := decodeIP p.AgentIP
                protobuf := nd.Schema.kept [(.Packets, 1), (.ForwardingStatus, 0)] }
         else True)) p.Samples msgs := by
  obtain ⟨msgs, hd, hf⟩ := decode_packet nd p
  refine ⟨msgs, hd, hf.length_eq.symm, hf.imp ?_⟩
  intro smp m hm
  refine ⟨hm, ?_⟩
  cases smp with
  | FlowSample fs => simp [Sample.isFlow]
  | ExpandedFlowSample fs => simp [Sample.isFlow]
  | Other =>
    simp only [Sample.isFlow, if_true]
    have h2 : decodeSample nd p .Other =
        .ok { FlowMessage.empty with
              ExporterAddress := decodeIP p.AgentIP
              protobuf := nd.Schema.kept [(.Packets, 1), (.ForwardingStatus, 0)] } := by
      simp only [decodeSample, sampleInit, sampleSwitch, decodeRecords, append_protobuf,
        FlowMessage.empty, pure, Except.pure]
      split_ifs <;> simp [← kept_append]
    rw [h2] at hm
    cases hm
    rfl

/-- C4, as stated, fails: for a `FlowSample` without records the returned
message has `SrcAddr`, `DstAddr` and `NextHop` equal to the zero `netip.Addr`,
which does not compare equal to `AddrFrom16` of its `As16` (that is `::`). -/
theorem decode_unset_address_not_canonical :
    ∃ m, Decoder.std.decode (.Packet noRecordPacket) = .ok [m] ∧
      ¬ m.NextHop.Canonical ∧ ¬ m.SrcAddr.Canonical ∧ ¬ m.DstAddr.Canonical := by
  refine ⟨_, rfl, ?_, ?_, ?_⟩ <;> decide

/-- C4, amended: for every packet and every flow message returned by `decode`,
each of `ExporterAddress`, `SrcAddr`, `DstAddr` and `NextHop` is either the
zero `netip.Addr` or compares equal to its canonical 16-byte form (the two
exclude each other); and `ExporterAddress` is `::ffff:a.b.c.d` for a 4-byte
`AgentIP`, the IPv6 address for a 16-byte one and the zero address for any
other length. -/
theorem decode_addresses_zero_or_canonical (nd : Decoder) (p : Packet) :
    ¬ Addr.zero.Canonical ∧
    ∃ msgs, nd.decode (.Packet p) = .ok msgs ∧
      ∀ m ∈ msgs,
        AddrOK m.ExporterAddress ∧ AddrOK m.SrcAddr ∧ AddrOK m.DstAddr ∧ AddrOK m.NextHop ∧
        m.ExporterAddress =
          (if p.AgentIP.length = 4 then v4mapped p.AgentIP
           else if p.AgentIP.length = 16 then AddrFrom16 p.AgentIP
           else Addr.zero) := by
  refine ⟨zero_not_canonical, ?_⟩
  obtain ⟨msgs, hd, hf⟩ := decode_packet nd p
  refine ⟨msgs, hd, ?_⟩
  intro m hm
  obtain ⟨smp, _, hs⟩ := forall2_mem hf m hm
  obtain ⟨_, he, _, _, h5, h6, h7, _⟩ := decodeSample_result nd p smp m hs
  obtain ⟨f1, f2, f3, f4, _⟩ := sampleInit_fields nd p smp
  rw [f1] at he
  rw [f2] at h5
  rw [f3] at h6
  rw [f4] at h7
  have key : ∀ a : Addr, (a = Addr.zero ∨ ∃ b, a = decodeIP b) → AddrOK a := by
    intro a ha
    rcases ha with h | ⟨b, h⟩
    · exact Or.inl h
    · rw [h]; exact decodeIP_ok b
  refine ⟨?_, key _ h5, key _ h6, key _ h7, ?_⟩
  · rw [he]; exact decodeIP_ok _
  · rw [he]
    by_cases h4 : p.AgentIP.length = 4
    · rw [if_pos h4, decodeIP_len4 _ h4]
    · by_cases h16 : p.AgentIP.length = 16
      · rw [if_neg h4, if_pos h16, decodeIP_len16 _ h16]
      · rw [if_neg h4, if_neg h16, decodeIP_other _ h4 h16]

/-! ## Gateway and switch records, truncated headers -/

theorem decodeRecords_append (s : Schema) (a b : List FlowRecord) :
    ∀ bf : FlowMessage,
      decodeRecords s bf (a ++ b) = (decodeRecords s bf a).bind (fun m => decodeRecords s m b) := by
  induction a with
  | nil => intro bf; rfl
  | cons r rs ih =>
    intro bf
    simp only [List.cons_append, decodeRecords, bind]
    cases h : decodeRecord s bf r with
    | error e => rfl
    | ok m => simp only [Except.bind]; exact ih m

theorem decodeRecord_as_kept (s : Schema) (bf r : FlowMessage) (record : FlowRecord)
    (hg : record.isGateway = false) (h : decodeRecord s bf record = .ok r) :
    r.SrcAS = bf.SrcAS ∧ r.DstAS = bf.DstAS := by
  cases record with
  | SampledHeader hd =>
    unfold decodeRecord parseSampledHeader at h
    by_cases hp : hd.Protocol = 1
    · simp only [hp, if_true] at h
      obtain ⟨r2, hr, g⟩ := parseEthernetHeader_grows s
        (s.ProtobufAppendVarint bf .Bytes hd.FrameLength) hd.HeaderData
      rw [h] at hr
      cases hr
      rw [append_protobuf] at g
      exact ⟨g.2.2.2.2.2.1, g.2.2.2.2.2.2.1⟩
    · simp only [hp, if_false, append_protobuf, pure, Except.pure] at h
      cases h
      exact ⟨rfl, rfl⟩
  | SampledIPv4 b =>
    simp only [decodeRecord, append_protobuf, pure, Except.pure] at h
    cases h; exact ⟨rfl, rfl⟩
  | SampledIPv6 b =>
    simp only [decodeRecord, append_protobuf, pure, Except.pure] at h
    cases h; exact ⟨rfl, rfl⟩
  | ExtendedSwitch sw =>
    rw [decodeRecord_switch] at h
    cases h; exact ⟨rfl, rfl⟩
  | ExtendedRouter rt =>
    simp only [decodeRecord, append_protobuf, pure, Except.pure] at h
    cases h; exact ⟨rfl, rfl⟩
  | ExtendedGateway g => simp [FlowRecord.isGateway] at hg
  | Other =>
    simp only [decodeRecord, pure, Except.pure] at h
    cases h; exact ⟨rfl, rfl⟩

theorem decodeRecords_as_kept (s : Schema) (records : List FlowRecord)
    (hg : ∀ x ∈ records, x.isGateway = false) :
    ∀ bf r : FlowMessage, decodeRecords s bf records = .ok r →
      r.SrcAS = bf.SrcAS ∧ r.DstAS = bf.DstAS := by
  induction records with
  | nil =>
    intro bf r h
    simp only [decodeRecords, pure, Except.pure] at h
    cases h; exact ⟨rfl, rfl⟩
  | cons x xs ih =>
    intro bf r h
    obtain ⟨m, hm, _⟩ := decodeRecord_grows s bf x
    rw [decodeRecords] at h
    simp only [hm, bind, Except.bind] at h
    have h1 := decodeRecord_as_kept s bf m x (hg x (List.mem_cons_self _ _)) hm
    have h2 := ih (fun y hy => hg y (List.mem_cons_of_mem _ hy)) m r h
    exact ⟨h2.1.trans h1.1, h2.2.trans h1.2⟩

/-- C8: when the records of the i-th sample hold an `ExtendedGateway` record
`{AS = A, ASPath = P, SrcAS = S}` that no other `ExtendedGateway` record follows
(so in particular when it is the only one), the i-th flow message returned by
`decode` has `DstAS` equal to the last element of `P` when `P` is non-empty and
to `A` when it is empty, and `SrcAS` equal to `S` when `S > 0` and to `A` when
`S = 0`. -/
theorem decode_gateway_as (nd : Decoder) (p : Packet) (i : Nat) (smp : Sample)
    (pre post : List FlowRecord) (g : ExtendedGateway)
    (hi : p.Samples[i]? = some smp)
    (hrec : smp.Records = pre ++ .ExtendedGateway g :: post)
    (hpost : ∀ x ∈ post, x.isGateway = false) :
    ∃ msgs m, nd.decode (.Packet p) = .ok msgs ∧ msgs[i]? = some m ∧
      m.DstAS = g.ASPath.getLast?.getD g.AS ∧
      m.SrcAS = (if g.SrcAS > 0 then g.SrcAS else g.AS) := by
  obtain ⟨msgs, hd, hf⟩ := decode_packet nd p
  obtain ⟨m, hm, hs⟩ := forall2_get hf i smp hi
  refine ⟨msgs, m, hd, hm, ?_⟩
  rw [decodeSample_eq, hrec, decodeRecords_append] at hs
  obtain ⟨m1, h1, _⟩ := decodeRecords_grows nd.Schema pre (sampleInit nd p smp).2
  rw [h1] at hs
  simp only [Except.bind, decodeRecords, bind, decodeRecord_gateway] at hs
  have h2 := decodeRecords_as_kept nd.Schema post hpost _ m hs
  exact ⟨h2.2, h2.1⟩

/-- Witness for C8: AS 65000 with path 65001, 65002 and source AS 0. -/
theorem decode_gateway_as_witness :
    ∃ msgs m, Decoder.std.decode (.Packet gatewayPacket) = .ok msgs ∧ msgs[0]? = some m ∧
      m.DstAS = 65002 ∧ m.SrcAS = 65000 :=
  decode_gateway_as Decoder.std gatewayPacket 0
    (.FlowSample ⟨1024, 5, 6,
      [.ExtendedSwitch ⟨100, 5000⟩, .ExtendedGateway ⟨[192, 0, 2, 1], 65000, 0, [65001, 65002]⟩]⟩)
    [.ExtendedSwitch ⟨100, 5000⟩] [] ⟨[192, 0, 2, 1], 65000, 0, [65001, 65002]⟩
    rfl rfl (by decide)

/-- C9: for every `ExtendedSwitch` record, wherever it stands among the
records of a sample, the record loop appends `SrcVlan` exactly when group L2
is enabled and the record's `SrcVlan` is below 4096, and after it `DstVlan`
exactly when group L2 is enabled and the record's `DstVlan` is below 4096 (each
append subject to the schema); every entry it appends has a value below 4096;
and in every flow message returned by `decode` every `SrcVlan` or `DstVlan`
entry has a value below 4096. -/
theorem decode_switch_vlan (nd : Decoder) (p : Packet) (bf : FlowMessage)
    (pre post : List FlowRecord) (sw : ExtendedSwitch) :
    decodeRecords nd.Schema bf (pre ++ .ExtendedSwitch sw :: post) =
      (decodeRecords nd.Schema bf pre).bind (fun m =>
        decodeRecords nd.Schema
          { m with
            protobuf := (m.protobuf ++ nd.Schema.kept
              ((if nd.Schema.IsDisabled .L2 = false ∧ sw.SrcVlan < 4096
                then [(.SrcVlan, sw.SrcVlan)] else []) ++
               (if nd.Schema.IsDisabled .L2 = false ∧ sw.DstVlan < 4096
                then [(.DstVlan, sw.DstVlan)] else []))) } post) ∧
    (∀ e ∈ (if nd.Schema.IsDisabled .L2 = false ∧ sw.SrcVlan < 4096
              then [((.SrcVlan : ColumnKey), sw.SrcVlan)] else []) ++
           (if nd.Schema.IsDisabled .L2 = false ∧ sw.DstVlan < 4096
              then [((.DstVlan : ColumnKey), sw.DstVlan)] else []), e.2 < 4096) ∧
    ∃ msgs, nd.decode (.Packet p) = .ok msgs ∧
      ∀ m ∈ msgs, ∀ e ∈ m.protobuf, (e.1 = .SrcVlan ∨ e.1 = .DstVlan) → e.2 < 4096 := by
  refine ⟨?_, ?_, ?_⟩
  · rw [decodeRecords_append]
    congr 1
    funext m
    rw [decodeRecords]
    simp only [decodeRecord_switch, bind, Except.bind, switchEntries]
  · intro e he
    rcases List.mem_append.mp he with h | h
    · split_ifs at h with hc
      · simp at h; subst h; exact hc.2
      · simp at h
    · split_ifs at h with hc
      · simp at h; subst h; exact hc.2
      · simp at h
  · obtain ⟨msgs, hd, hf⟩ := decode_packet nd p
    refine ⟨msgs, hd, ?_⟩
    intro m hm e he hv
    obtain ⟨smp, _, hs⟩ := forall2_mem hf m hm
    obtain ⟨_, _, _, _, _, _, _, l, hl, hk⟩ := decodeSample_result nd p smp m hs
    rw [hl, (sampleInit_fields nd p smp).2.2.2.2.2.2] at he
    rcases List.mem_append.mp he with h | h
    · have h2 := mem_kept h
      simp at h2
      rcases h2 with h2 | h2 <;> subst h2 <;> simp at hv
    · exact (hk e h).2.2 hv

/-- C10, as stated, fails: with a 10-byte Ethernet header the record carries,
after `Packets` and `ForwardingStatus`, the column `Bytes = FrameLength`. -/
theorem decode_short_header_has_bytes :
    ∃ m, Decoder.std.decode (.Packet shortHeaderPacket) = .ok [m] ∧
      m.protobuf = [(.Packets, 1), (.ForwardingStatus, 0), (.Bytes, 64)] ∧
      ¬ (∀ e ∈ m.protobuf, e.1 = .Packets ∨ e.1 = .ForwardingStatus) := by
  refine ⟨_, rfl, rfl, ?_⟩
  decide

/-- C10, amended: when the only record of the i-th sample is a `SampledHeader`
with protocol 1 (Ethernet) and fewer than 14 bytes of `HeaderData`, the i-th
flow message returned by `decode` carries the sample-level columns `Packets`
and `ForwardingStatus` and the record's `Bytes = FrameLength`, in this order,
and no other column: no MAC, VLAN, EType, Proto or port. -/
theorem decode_short_header (nd : Decoder) (p : Packet) (i : Nat) (smp : Sample)
    (hdr : SampledHeader)
    (hi : p.Samples[i]? = some smp)
    (hrec : smp.Records = [.SampledHeader hdr])
    (hp : hdr.Protocol = 1) (hl : hdr.HeaderData.length < 14) :
    ∃ msgs m, nd.decode (.Packet p) = .ok msgs ∧ msgs[i]? = some m ∧
      m.protobuf = nd.Schema.kept
        [(.Packets, 1), (.ForwardingStatus, forwardingStatusOf nd smp),
         (.Bytes, hdr.FrameLength)] := by
  obtain ⟨msgs, hd, hf⟩ := decode_packet nd p
  obtain ⟨m, hm, hs⟩ := forall2_get hf i smp hi
  refine ⟨msgs, m, hd, hm, ?_⟩
  rw [decodeSample_eq, hrec] at hs
  simp only [decodeRecords, decodeRecord, parseSampledHeader, hp, if_true, parseEthernetHeader,
    hl, bind, Except.bind, pure, Except.pure, append_protobuf] at hs
  cases hs
  simp only [(sampleInit_fields nd p smp).2.2.2.2.2.2, ← kept_append]
  rfl

/-- Witness for C10: the ten-byte header of `shortHeaderPacket`. -/
theorem decode_short_header_witness :
    ∃ msgs m, Decoder.std.decode (.Packet shortHeaderPacket) = .ok msgs ∧ msgs[0]? = some m ∧
      m.protobuf = Schema.allOn.kept [(.Packets, 1), (.ForwardingStatus, 0), (.Bytes, 64)] :=
  decode_short_header Decoder.std shortHeaderPacket 0
    (.FlowSample ⟨1024, 5, 6, [.SampledHeader ⟨1, 64, [1, 2, 3, 4, 5, 6, 7, 8, 9, 10]⟩]⟩)
    ⟨1, 64, [1, 2, 3, 4, 5, 6, 7, 8, 9, 10]⟩ rfl rfl rfl (by decide)

/-! ## MPLS, 802.1Q and the transport ports -/

theorem ipv4Rest_eq (d0 : Byte) (data : List Byte) :
    ipv4Rest d0 data =
      if (d0.val % 16) * 4 ≤ data.length then data.drop ((d0.val % 16) * 4) else [] := by
  have h0 : d0.val &&& 0xf = d0.val % 16 := Nat.and_pow_two_sub_one_eq_mod d0.val 4
  have h1 : ((d0.val % 16) * 4) % 256 = (d0.val % 16) * 4 := by omega
  unfold ipv4Rest
  rw [h0, h1]

theorem portEntries_eq (proto : Nat) (r : List Byte) :
    portEntries proto r =
      if (proto = 6 ∨ proto = 17) ∧ 5 ≤ r.length then
        [(.SrcPort, beVal (r.take 2)), (.DstPort, beVal ((r.drop 2).take 2))]
      else [] := by
  unfold portEntries
  by_cases h : (proto = 6 ∨ proto = 17) ∧ 4 < r.length
  · rw [if_pos h, if_pos ⟨h.1, h.2⟩]
  · rw [if_neg h, if_neg (fun h2 => h ⟨h2.1, h2.2⟩)]

/-- The IPv4 branch in full, on top of a record that already holds the L2
entries. -/
theorem parseL3_ipv4_on (s : Schema) (bf : FlowMessage) (l2 : List Entry) (ip : List Byte)
    (h : 20 ≤ ip.length) :
    parseL3 s { bf with protobuf := bf.protobuf ++ s.kept l2 } [0x8, 0x0] ip =
      .ok { bf with
        SrcAddr := v4mapped ((ip.drop 12).take 4)
        DstAddr := v4mapped ((ip.drop 16).take 4)
        protobuf := bf.protobuf ++ s.kept (l2 ++ [(.EType, 0x0800), (.Proto, ip[9].val)] ++
          portEntries ip[9].val (ipv4Rest ip[0] ip)) } := by
  rw [parseL3_ipv4 s _ [0x8, 0x0] ip (by simp) rfl rfl h,
    decodeIP_len4 _ (by simp; omega), decodeIP_len4 _ (by simp; omega)]
  simp [← kept_append, ETypeIPv4]

/-- The IPv6 branch in full, on top of a record that already holds the L2
entries. -/
theorem parseL3_ipv6_on (s : Schema) (bf : FlowMessage) (l2 : List Entry) (ip : List Byte)
    (h : 40 ≤ ip.length) :
    parseL3 s { bf with protobuf := bf.protobuf ++ s.kept l2 } [0x86, 0xdd] ip =
      .ok { bf with
        SrcAddr := AddrFrom16 ((ip.drop 8).take 16)
        DstAddr := AddrFrom16 ((ip.drop 24).take 16)
        protobuf := bf.protobuf ++ s.kept (l2 ++ [(.EType, 0x86dd), (.Proto, ip[6].val)] ++
          portEntries ip[6].val (ip.drop 40)) } := by
  rw [parseL3_ipv6 s _ [0x86, 0xdd] ip (by simp) rfl rfl h,
    decodeIP_len16 _ (by simp; omega), decodeIP_len16 _ (by simp; omega)]
  simp [← kept_append, ETypeIPv6]

/-- Lines 121-164 on an MPLS frame given by its parts. -/
theorem parseEthernetHeader_mpls_frame (s : Schema) (bf : FlowMessage) (macs tag : List Byte)
    (pre : List MplsEntry) (last : MplsEntry) (d0 : Byte) (rest : List Byte)
    (hm : macs.length = 12) (ht : IsTag tag)
    (hpre : ∀ e ∈ pre, ¬ e.stops) (hlast : last.stops) :
    parseEthernetHeader s bf
        (macs ++ tag ++ [0x88, 0x47] ++ stackBytes pre ++ last.bytes ++ d0 :: rest) =
      if highNibble d0 = 4 then
        parseL3 s { bf with protobuf := bf.protobuf ++ s.kept (l2Entries s macs tag) }
          [0x8, 0x0] (d0 :: rest)
      else if highNibble d0 = 6 then
        parseL3 s { bf with protobuf := bf.protobuf ++ s.kept (l2Entries s macs tag) }
          [0x86, 0xdd] (d0 :: rest)
      else .ok { bf with protobuf := bf.protobuf ++ s.kept (l2Entries s macs tag) } := by
  have hf : macs ++ tag ++ [0x88, 0x47] ++ stackBytes pre ++ last.bytes ++ d0 :: rest =
      macs ++ tag ++ [0x88, 0x47] ++ (stackBytes pre ++ last.bytes ++ d0 :: rest) := by
    simp [List.append_assoc]
  rw [hf, parseEthernetHeader_l2 s bf macs tag _ 0x88 0x47 hm ht (by intro _; decide),
    parseMPLS_stack s _ pre last rest d0 hpre hlast]

theorem entriesOf_append (k : ColumnKey) (a b : List Entry) :
    entriesOf k (a ++ b) = entriesOf k a ++ entriesOf k b := by
  simp [entriesOf]

theorem entriesOf_none (k : ColumnKey) (l : List Entry) (h : ∀ e ∈ l, e.1 ≠ k) :
    entriesOf k l = [] := by
  unfold entriesOf
  rw [List.filter_eq_nil_iff]
  intro e he
  simpa using h e he

theorem entriesOf_grows {K : Entry → Prop} {b r : FlowMessage} (k : ColumnKey)
    (h : BufGrows K b r) (hk : ∀ e, K e → e.1 ≠ k) :
    entriesOf k r.protobuf = entriesOf k b.protobuf := by
  obtain ⟨l, hl, hm⟩ := h
  rw [hl, entriesOf_append, entriesOf_none k l (fun e he => hk e (hm e he)), List.append_nil]

theorem entriesOf_kept_single (s : Schema) (k : ColumnKey) (v : Nat) :
    entriesOf k (s.kept [(k, v)]) = s.kept [(k, v)] := by
  by_cases h : s.columnOff k <;> simp [entriesOf, Schema.kept, h]

theorem vlan_or (b0 b1 : Byte) :
    ((b0.val &&& 0x0f) <<< 8) ||| b1.val = ((b0.val &&& 0xf) <<< 8) + b1.val := by
  have h := Nat.mul_add_lt_is_or (i := 8) (b := b1.val) b1.isLt (b0.val &&& 0xf)
  rw [Nat.shiftLeft_eq, Nat.mul_comm]
  exact h.symm

/-- Lines 133-144 when the ethertype is `0x8100` and at least four bytes follow. -/
theorem parseDot1Q_tagged (s : Schema) (bf : FlowMessage) (e data : List Byte)
    (he : 2 ≤ e.length) (h0 : e[0].val = 0x81) (h1 : e[1].val = 0x00) (hd : 4 ≤ data.length) :
    parseDot1Q s bf e data =
      parseMPLS s
        (if s.IsDisabled .L2 = false then
          s.ProtobufAppendVarint bf .SrcVlan (((data[0].val &&& 0xf) <<< 8) + data[1].val)
         else bf)
        ((data.drop 2).take 2) (data.drop 4) := by
  unfold parseDot1Q
  have hn : ¬ data.length < 4 := by omega
  simp only [idx_ok e 0 (by omega), idx_ok e 1 (by omega), h0, h1, hn, and_self, if_true,
    if_false, bind, Except.bind, idx_ok data 0 (by omega), idx_ok data 1 (by omega),
    slice_ok data 2 4 (by omega) (by omega), sliceFrom_ok data 4 (by omega), pure, Except.pure]
  by_cases hl : s.IsDisabled .L2 = false
  · simp [hl]
  · simp [hl]

/-- C5: for every Ethernet frame of ethertype `0x8847` (with or without an
802.1Q tag before it) whose label stack `pre ++ [last]` is followed by a
payload of at least 20 bytes, `last` being the first entry with bottom-of-stack
bit 1 or label at most 15: if the high nibble of the first payload byte is 4,
`parseEthernetHeader` appends `EType = 0x0800`, sets `SrcAddr` and `DstAddr` to
the IPv4-mapped forms of payload bytes 12..16 and 16..20 and appends `Proto` =
payload byte 9 (then the ports, if any); if it is 6 the IPv6 branch is taken
instead (`EType = 0x86dd` and the IPv6 fields when 40 bytes are there, nothing
further otherwise); for any other nibble nothing further is appended. -/
theorem parseEthernetHeader_mpls (s : Schema) (bf : FlowMessage) (macs tag : List Byte)
    (pre : List MplsEntry) (last : MplsEntry) (payload : List Byte)
    (hm : macs.length = 12) (ht : IsTag tag)
    (hpre : ∀ e ∈ pre, ¬ e.stops) (hlast : last.stops) (hlen : 20 ≤ payload.length) :
    parseEthernetHeader s bf
        (macs ++ tag ++ [0x88, 0x47] ++ stackBytes pre ++ last.bytes ++ payload) =
      .ok
        (if highNibble payload[0] = 4 then
          { bf with
            SrcAddr := v4mapped ((payload.drop 12).take 4)
            DstAddr := v4mapped ((payload.drop 16).take 4)
            protobuf := bf.protobuf ++ s.kept (l2Entries s macs tag ++
              [(.EType, 0x0800), (.Proto, payload[9].val)] ++
              portEntries payload[9].val (ipv4Rest payload[0] payload)) }
         else if highNibble payload[0] = 6 then
          (if h40 : 40 ≤ payload.length then
            { bf with
              SrcAddr := AddrFrom16 ((payload.drop 8).take 16)
              DstAddr := AddrFrom16 ((payload.drop 24).take 16)
              protobuf := bf.protobuf ++ s.kept (l2Entries s macs tag ++
                [(.EType, 0x86dd), (.Proto, payload[6].val)] ++
                portEntries payload[6].val (payload.drop 40)) }
           else { bf with protobuf := bf.protobuf ++ s.kept (l2Entries s macs tag) })
         else { bf with protobuf := bf.protobuf ++ s.kept (l2Entries s macs tag) }) := by
  obtain ⟨d0, rest, rfl⟩ : ∃ d0 rest, payload = d0 :: rest := by
    cases payload with
    | nil => simp at hlen
    | cons d0 rest => exact ⟨d0, rest, rfl⟩
  rw [parseEthernetHeader_mpls_frame s bf macs tag pre last d0 rest hm ht hpre hlast]
  simp only [List.getElem_cons_zero]
  by_cases h4 : highNibble d0 = 4
  · rw [if_pos h4, if_pos h4, parseL3_ipv4_on s bf _ _ hlen]
    rfl
  · rw [if_neg h4, if_neg h4]
    by_cases h6 : highNibble d0 = 6
    · rw [if_pos h6, if_pos h6]
      by_cases h40 : 40 ≤ (d0 :: rest).length
      · rw [dif_pos h40, parseL3_ipv6_on s bf _ _ h40]
      · rw [dif_neg h40, parseL3_ipv6_short s _ [0x86, 0xdd] (d0 :: rest) (by simp) rfl rfl
          (by omega)]
    · rw [if_neg h6, if_neg h6]

/-- Witness for C5: labels `[100, bottom = 0], [200, bottom = 1]`, then an
IPv4 header starting `0x45`. -/
theorem parseEthernetHeader_mpls_witness :
    parseEthernetHeader Schema.allOn FlowMessage.empty mplsFrame =
      .ok { FlowMessage.empty with
        SrcAddr := v4mapped [10, 0, 0, 1]
        DstAddr := v4mapped [10, 0, 0, 2]
        protobuf := [(.DstMAC, 0x010203040506), (.SrcMAC, 0x0708090a0b0c), (.EType, 0x0800),
          (.Proto, 6), (.SrcPort, 55000), (.DstPort, 443)] } := by
  have h := parseEthernetHeader_mpls Schema.allOn FlowMessage.empty
    [1, 2, 3, 4, 5, 6, 7, 8, 9, 10, 11, 12] [] [⟨0x00, 0x06, 0x40, 0x40⟩]
    ⟨0x00, 0x0c, 0x81, 0x40⟩ tcpPacket rfl (Or.inl rfl) (by decide) (by decide) (by decide)
  exact h.trans (by rfl)

/-- C6: (1) for every frame of at least 18 bytes whose bytes 12..14 are
`0x8100`, with group L2 enabled, `parseEthernetHeader` appends `SrcVlan` with
value `((b[0] & 0x0f) << 8) | b[1]`, `b` being the tag bytes after the 14-byte
header, and no other `SrcVlan`; (2) that value equals the code's
`((b[0] & 0xf) << 8) + b[1]`, is below 4096 and is the low 12 bits of the
big-endian 16-bit value `b[0..2]`, the VID; (3) for no input at all does
`parseEthernetHeader` append a `DstVlan` entry; (4) with group L2 disabled it
appends no `SrcVlan`, `SrcMAC` or `DstMAC` entry. -/
theorem parseEthernetHeader_vlan :
    (∀ (s : Schema) (bf : FlowMessage) (data : List Byte) (h : 18 ≤ data.length),
      data[12] = 0x81 → data[13] = 0x00 → s.IsDisabled .L2 = false →
      ∃ r, parseEthernetHeader s bf data = .ok r ∧
        entriesOf .SrcVlan r.protobuf = entriesOf .SrcVlan bf.protobuf ++
          s.kept [(.SrcVlan, ((data[14].val &&& 0x0f) <<< 8) ||| data[15].val)]) ∧
    (∀ b0 b1 : Byte,
      ((b0.val &&& 0x0f) <<< 8) ||| b1.val = ((b0.val &&& 0xf) <<< 8) + b1.val ∧
      ((b0.val &&& 0x0f) <<< 8) ||| b1.val < 4096 ∧
      ((b0.val &&& 0x0f) <<< 8) ||| b1.val = (b0.val * 256 + b1.val) % 4096) ∧
    (∀ (s : Schema) (bf : FlowMessage) (data : List Byte),
      ∃ r, parseEthernetHeader s bf data = .ok r ∧
        entriesOf .DstVlan r.protobuf = entriesOf .DstVlan bf.protobuf) ∧
    (∀ (s : Schema) (bf : FlowMessage) (data : List Byte), s.IsDisabled .L2 = true →
      ∃ r, parseEthernetHeader s bf data = .ok r ∧
        entriesOf .SrcVlan r.protobuf = entriesOf .SrcVlan bf.protobuf ∧
        entriesOf .SrcMAC r.protobuf = entriesOf .SrcMAC bf.protobuf ∧
        entriesOf .DstMAC r.protobuf = entriesOf .DstMAC bf.protobuf) := by
  refine ⟨?_, ?_, ?_, ?_⟩
  · intro s bf data h h12 h13 hl
    have hl2 : (List.take 2 (List.drop 12 data)).length = 2 := by simp; omega
    have e0 : ((data.drop 12).take 2)[0].val = 0x81 := by
      have h0 : ((data.drop 12).take 2)[0] = data[12] := by simp
      rw [h0, h12]; rfl
    have e1 : ((data.drop 12).take 2)[1].val = 0x00 := by
      have h1 : ((data.drop 12).take 2)[1] = data[13] := by simp
      rw [h1, h13]; rfl
    have hl14 : 4 ≤ (data.drop 14).length := by simp; omega
    have d0 : (data.drop 14)[0] = data[14] := by simp
    have d1 : (data.drop 14)[1] = data[15] := by simp
    rw [parseEthernetHeader_step s bf data (by omega),
      parseDot1Q_tagged s _ _ _ (by omega) e0 e1 (by simp; omega)]
    simp only [hl, if_true, d0, d1]
    obtain ⟨r, hr, hg⟩ := parseMPLS_grows s
      (s.ProtobufAppendVarint { bf with protobuf := bf.protobuf ++ s.kept (macEntries data) }
        .SrcVlan (((data[14].val &&& 0xf) <<< 8) + data[15].val))
      ((data.drop 14).drop 2 |>.take 2) ((data.drop 14).drop 4) (by simp; omega)
    refine ⟨r, hr, ?_⟩
    have hk : ∀ e, l34Key e → e.1 ≠ .SrcVlan := by
      intro e he
      rcases he with h | h | h | h <;> simp [h]
    rw [entriesOf_grows .SrcVlan hg.2.2.2.2.2.2.2.2.2 hk, append_protobuf, vlan_or]
    simp only [entriesOf_append]
    rw [entriesOf_none .SrcVlan (s.kept (macEntries data))
      (fun e he => by
        have := mem_kept he
        simp [macEntries] at this
        rcases this with h | h <;> simp [h])]
    rw [entriesOf_kept_single, List.append_nil]
  · intro b0 b1
    have h0 : b0.val &&& 0xf = b0.val % 16 := Nat.and_pow_two_sub_one_eq_mod b0.val 4
    have h1 := b1.isLt
    refine ⟨vlan_or b0 b1, ?_, ?_⟩
    · rw [vlan_or]; exact vlan_lt b0 b1
    · rw [vlan_or, h0, Nat.shiftLeft_eq]
      omega
  · intro s bf data
    obtain ⟨r, hr, hg⟩ := parseEthernetHeader_grows s bf data
    refine ⟨r, hr, entriesOf_grows .DstVlan hg.2.2.2.2.2.2.2.2.2 ?_⟩
    intro e he
    rcases he with h | ⟨_, h⟩
    · rcases h with h | h | h | h <;> simp [h]
    · rcases h with h | h | ⟨h, _⟩ <;> simp [h]
  · intro s bf data hl
    obtain ⟨r, hr, hg⟩ := parseEthernetHeader_grows s bf data
    have hk : ∀ e, ethKey s e → l34Key e := by
      intro e he
      rcases he with h | ⟨h, _⟩
      · exact h
      · rw [hl] at h; cases h
    have hb := hg.2.2.2.2.2.2.2.2.2.bmono hk
    refine ⟨r, hr, entriesOf_grows _ hb ?_, entriesOf_grows _ hb ?_, entriesOf_grows _ hb ?_⟩ <;>
    · intro e he
      rcases he with h | h | h | h <;> simp [h]

/-- Witness for C6: a single tag with VID 100 yields `SrcVlan = 100`. -/
theorem parseEthernetHeader_vlan_witness :
    18 ≤ vlanFrame.length ∧ Schema.allOn.IsDisabled .L2 = false ∧
    ∃ r, parseEthernetHeader Schema.allOn FlowMessage.empty vlanFrame = .ok r ∧
      entriesOf .SrcVlan r.protobuf = [(.SrcVlan, 100)] := by
  refine ⟨by decide, rfl, ?_⟩
  obtain ⟨r, hr, he⟩ := parseEthernetHeader_vlan.1 Schema.allOn FlowMessage.empty vlanFrame
    (by decide) rfl rfl rfl
  exact ⟨r, hr, he.trans (by decide)⟩

/-- C7: for every Ethernet frame carrying an IPv4 header `ip` of at least 20
bytes (after the MACs, an optional 802.1Q tag, and ethertype `0x0800` or an
MPLS stack), with `r` the bytes that remain after skipping `IHL*4` bytes of
`ip` (none when `IHL*4` exceeds the length): `parseEthernetHeader` appends
`SrcPort = be16(r[0..2])` and `DstPort = be16(r[2..4])`, after `EType` and
`Proto`, exactly when `ip[9]` is 6 or 17 and `r` has at least 5 bytes; otherwise
it appends no port entry. -/
theorem parseEthernetHeader_ports (s : Schema) (bf : FlowMessage)
    (frame macs tag ip : List Byte) (hc : CarriesIPv4 frame macs tag ip)
    (hlen : 20 ≤ ip.length) :
    parseEthernetHeader s bf frame =
      .ok { bf with
        SrcAddr := v4mapped ((ip.drop 12).take 4)
        DstAddr := v4mapped ((ip.drop 16).take 4)
        protobuf := bf.protobuf ++ s.kept (l2Entries s macs tag ++
          [(.EType, 0x0800), (.Proto, ip[9].val)] ++
          (if (ip[9].val = 6 ∨ ip[9].val = 17) ∧ 5 ≤ (ipv4Rest ip[0] ip).length then
            [(.SrcPort, beVal ((ipv4Rest ip[0] ip).take 2)),
             (.DstPort, beVal (((ipv4Rest ip[0] ip).drop 2).take 2))]
           else [])) } ∧
    ipv4Rest ip[0] ip =
      (if (ip[0].val % 16) * 4 ≤ ip.length then ip.drop ((ip[0].val % 16) * 4) else []) := by
  refine ⟨?_, ipv4Rest_eq _ _⟩
  rw [← portEntries_eq]
  obtain ⟨hm, ht, hf⟩ := hc
  rcases hf with rfl | ⟨pre, last, hpre, hlast, ⟨d0, rest, rfl, h4⟩, rfl⟩
  · rw [parseEthernetHeader_l2 s bf macs tag ip 0x08 0x00 hm ht (by intro _; decide),
      parseMPLS_plain s _ 0x08 0x00 ip (by decide)]
    exact parseL3_ipv4_on s bf _ ip hlen
  · rw [parseEthernetHeader_mpls_frame s bf macs tag pre last d0 rest hm ht hpre hlast,
      if_pos h4]
    exact parseL3_ipv4_on s bf _ _ hlen

/-- Witness for C7: the tagged TCP frame `vlanFrame` gives ports 55000 and 443. -/
theorem parseEthernetHeader_ports_witness :
    CarriesIPv4 vlanFrame [1, 2, 3, 4, 5, 6, 7, 8, 9, 10, 11, 12] [0x81, 0x00, 0x00, 0x64]
      tcpPacket ∧
    parseEthernetHeader Schema.allOn FlowMessage.empty vlanFrame =
      .ok { FlowMessage.empty with
        SrcAddr := v4mapped [10, 0, 0, 1]
        DstAddr := v4mapped [10, 0, 0, 2]
        protobuf := [(.DstMAC, 0x010203040506), (.SrcMAC, 0x0708090a0b0c), (.SrcVlan, 100),
          (.EType, 0x0800), (.Proto, 6), (.SrcPort, 55000), (.DstPort, 443)] } := by
  have hc : CarriesIPv4 vlanFrame [1, 2, 3, 4, 5, 6, 7, 8, 9, 10, 11, 12]
      [0x81, 0x00, 0x00, 0x64] tcpPacket := ⟨rfl, Or.inr ⟨0x00, 0x64, rfl⟩, Or.inl rfl⟩
  have h := (parseEthernetHeader_ports Schema.allOn FlowMessage.empty vlanFrame
    [1, 2, 3, 4, 5, 6, 7, 8, 9, 10, 11, 12] [0x81, 0x00, 0x00, 0x64] tcpPacket hc
    (by decide)).1
  exact ⟨hc, h.trans (by rfl)⟩

/-- A transport header cut after exactly four bytes yields no port entry. -/
theorem parseEthernetHeader_truncated_ports :
    parseEthernetHeader Schema.allOn FlowMessage.empty truncatedFrame =
      .ok { FlowMessage.empty with
        SrcAddr := v4mapped [10, 0, 0, 1]
        DstAddr := v4mapped [10, 0, 0, 2]
        protobuf := [(.DstMAC, 0x010203040506), (.SrcMAC, 0x0708090a0b0c),
          (.EType, 0x0800), (.Proto, 6)] } := by
  rfl

/-- With group L2 disabled the tagged TCP frame yields the L3 and L4 entries
only. -/
theorem parseEthernetHeader_noL2_example :
    parseEthernetHeader Schema.noL2 FlowMessage.empty vlanFrame =
      .ok { FlowMessage.empty with
        SrcAddr := v4mapped [10, 0, 0, 1]
        DstAddr := v4mapped [10, 0, 0, 2]
        protobuf := [(.EType, 0x0800), (.Proto, 6), (.SrcPort, 55000), (.DstPort, 443)] } := by
  rfl

/-- The egress-discard sample: `OutIf = 0` and one `ForwardingStatus = 128`. -/
theorem decode_discard_example :
    Decoder.std.decode (.Packet ⟨[198, 51, 100, 1], [.FlowSample ⟨1024, 5, 0x40000007, []⟩]⟩) =
      .ok [{ FlowMessage.empty with
        SamplingRate := 1024
        ExporterAddress := v4mapped [198, 51, 100, 1]
        InIf := 5
        OutIf := 0
        protobuf := [(.Packets, 1), (.ForwardingStatus, 128)] }] := by
  rfl

/-! ## An expanded sample with one IPv4 record; `parseEthernetHeader` only appends -/

theorem kept_all (s : Schema) (h : ∀ k, s.columnOff k = false) (l : List Entry) :
    s.kept l = l := by
  unfold Schema.kept
  rw [List.filter_eq_self]
  intro e _
  simp [h]

/-- C11: for a packet with a 4-byte `AgentIP` a.b.c.d whose i-th sample is an
`ExpandedFlowSample` with `InputIfValue` and `OutputIfValue` different from
`interfaceLocal` and exactly one record, a `SampledIPv4` (its addresses being
the 4 bytes of an IPv4 address), with all columns enabled: the i-th flow
message has `ExporterAddress = ::ffff:a.b.c.d`, `InIf = InputIfValue`,
`OutIf = OutputIfValue`, `SamplingRate` copied, `SrcAddr` and `DstAddr` the
IPv4-mapped record addresses, and the buffer is exactly `Packets = 1`,
`ForwardingStatus = 0`, `Bytes = Length`, `Proto = Protocol`, `SrcPort`,
`DstPort`, `EType = 0x0800`, in this order. -/
theorem decode_expanded_ipv4 (nd : Decoder) (p : Packet) (i : Nat) (fs : ExpandedFlowSample)
    (base : SampledIPBase)
    (hi : p.Samples[i]? = some (.ExpandedFlowSample fs))
    (hrec : fs.Records = [.SampledIPv4 base])
    (hin : fs.InputIfValue ≠ nd.interfaceLocal) (hout : fs.OutputIfValue ≠ nd.interfaceLocal)
    (hagent : p.AgentIP.length = 4) (hsrc : base.SrcIP.length = 4)
    (hdst : base.DstIP.length = 4) (hcols : ∀ k, nd.Schema.columnOff k = false) :
    ∃ msgs, nd.decode (.Packet p) = .ok msgs ∧
      msgs[i]? = some
        { SamplingRate := fs.SamplingRate
          ExporterAddress := v4mapped p.AgentIP
          InIf := fs.InputIfValue
          OutIf := fs.OutputIfValue
          SrcAddr := v4mapped base.SrcIP
          DstAddr := v4mapped base.DstIP
          NextHop := Addr.zero
          SrcAS := 0
          DstAS := 0
          protobuf := [(.Packets, 1), (.ForwardingStatus, 0), (.Bytes, base.Length),
            (.Proto, base.Protocol), (.SrcPort, base.SrcPort), (.DstPort, base.DstPort),
            (.EType, 0x0800)] } := by
  obtain ⟨msgs, hd, hf⟩ := decode_packet nd p
  obtain ⟨m, hm, hs⟩ := forall2_get hf i _ hi
  refine ⟨msgs, hd, ?_⟩
  rw [hm]
  congr 1
  have h2 : decodeSample nd p (.ExpandedFlowSample fs) = .ok
      { SamplingRate := fs.SamplingRate
        ExporterAddress := v4mapped p.AgentIP
        InIf := fs.InputIfValue
        OutIf := fs.OutputIfValue
        SrcAddr := v4mapped base.SrcIP
        DstAddr := v4mapped base.DstIP
        NextHop := Addr.zero
        SrcAS := 0
        DstAS := 0
        protobuf := [(.Packets, 1), (.ForwardingStatus, 0), (.Bytes, base.Length),
          (.Proto, base.Protocol), (.SrcPort, base.SrcPort), (.DstPort, base.DstPort),
          (.EType, 0x0800)] } := by
    simp only [decodeSample, sampleInit, sampleSwitch, hrec, decodeRecords, decodeRecord,
      append_protobuf, FlowMessage.empty, pure, Except.pure, bind, Except.bind, hin, hout,
      if_false, kept_all nd.Schema hcols, decodeIP_len4 _ hagent, decodeIP_len4 _ hsrc,
      decodeIP_len4 _ hdst, ETypeIPv4]
    simp
  rw [h2] at hs
  cases hs
  rfl

/-- Witness for C11: agent 198.51.100.1, input 5, output 6, rate 1024, length
1500, protocol 6. -/
theorem decode_expanded_ipv4_witness :
    ∃ msgs, Decoder.std.decode (.Packet expandedPacket) = .ok msgs ∧
      msgs[0]? = some
        { SamplingRate := 1024
          ExporterAddress := v4mapped [198, 51, 100, 1]
          InIf := 5
          OutIf := 6
          SrcAddr := v4mapped [10, 0, 0, 1]
          DstAddr := v4mapped [10, 0, 0, 2]
          NextHop := Addr.zero
          SrcAS := 0
          DstAS := 0
          protobuf := [(.Packets, 1), (.ForwardingStatus, 0), (.Bytes, 1500), (.Proto, 6),
            (.SrcPort, 443), (.DstPort, 55000), (.EType, 0x0800)] } :=
  decode_expanded_ipv4 Decoder.std expandedPacket 0
    ⟨1024, 5, 6, [.SampledIPv4 ⟨1500, 6, [10, 0, 0, 1], [10, 0, 0, 2], 443, 55000⟩]⟩
    ⟨1500, 6, [10, 0, 0, 1], [10, 0, 0, 2], 443, 55000⟩
    rfl rfl (by decide) (by decide) rfl rfl rfl (fun k => by cases k <;> rfl)

/-- C12: `parseEthernetHeader` is append-only.  For every schema, flow message
and `HeaderData` it returns a record whose buffer has the buffer before the
call as a prefix, whichever return point is taken, and whose fields
`SamplingRate`, `InIf`, `OutIf`, `ExporterAddress`, `NextHop`, `SrcAS` and
`DstAS` are those before the call. -/
theorem parseEthernetHeader_append_only (s : Schema) (bf : FlowMessage) (data : List Byte) :
    ∃ r, parseEthernetHeader s bf data = .ok r ∧
      bf.protobuf <+: r.protobuf ∧
      r.SamplingRate = bf.SamplingRate ∧ r.InIf = bf.InIf ∧ r.OutIf = bf.OutIf ∧
      r.ExporterAddress = bf.ExporterAddress ∧ r.NextHop = bf.NextHop ∧
      r.SrcAS = bf.SrcAS ∧ r.DstAS = bf.DstAS := by
  obtain ⟨r, hr, h1, h2, h3, h4, h5, h6, h7, _, _, l, hl, _⟩ := parseEthernetHeader_grows s bf data
  exact ⟨r, hr, ⟨l, hl.symm⟩, h1, h3, h4, h2, h5, h6, h7⟩

/-! ## The poller: the pending-request map -/

/-- What the dedup loop does to its accumulator: it appends the new indexes
`n` to `filteredIfIndexes` and their keys to the map and to `keys`; the new
keys are pairwise different and none was in the map. -/
theorem beginLoop_spec (e : String) (l : List Nat) :
    ∀ (pending : List String) (filtered : List Nat) (keys : List String),
      ∃ n : List Nat,
        beginLoop e l (pending, filtered, keys) =
          (pending ++ n.map (pollKey e), filtered ++ n, keys ++ n.map (pollKey e)) ∧
        (n.map (pollKey e)).Nodup ∧ (∀ k ∈ n.map (pollKey e), k ∉ pending) ∧
        (∀ i ∈ n, i ∈ l) := by
  induction l with
  | nil =>
    intro pending filtered keys
    exact ⟨[], by simp [beginLoop], by simp, by simp, by simp⟩
  | cons i rest ih =>
    intro pending filtered keys
    by_cases h : pollKey e i ∈ pending
    · obtain ⟨n, h1, h2, h3, h4⟩ := ih pending filtered keys
      refine ⟨n, ?_, h2, h3, fun j hj => List.mem_cons_of_mem _ (h4 j hj)⟩
      rw [beginLoop]
      have h' : e ++ "@" ++ toString i ∈ pending := h
      simp only [h', if_true]
      exact h1
    · obtain ⟨n, h1, h2, h3, h4⟩ := ih (pending ++ [pollKey e i]) (filtered ++ [i])
        (keys ++ [pollKey e i])
      refine ⟨i :: n, ?_, ?_, ?_, ?_⟩
      · rw [beginLoop]
        have h' : ¬ e ++ "@" ++ toString i ∈ pending := h
        simp only [h', if_false]
        simpa [pollKey] using h1
      · rw [List.map_cons, List.nodup_cons]
        refine ⟨?_, h2⟩
        intro hk
        exact h3 _ hk (by simp)
      · intro k hk
        rw [List.map_cons] at hk
        rcases List.mem_cons.mp hk with hk | hk
        · rw [hk]; exact h
        · intro hp
          exact h3 k hk (List.mem_append_left _ hp)
      · intro j hj
        rcases List.mem_cons.mp hj with hj | hj
        · rw [hj]; exact List.mem_cons_self _ _
        · exact List.mem_cons_of_mem _ (h4 j hj)

theorem pollEnd_eq (keys : List String) :
    ∀ pending : List String,
      pollEnd pending keys = pending.filter (fun k => decide (k ∉ keys)) := by
  induction keys with
  | nil => intro pending; simp [pollEnd]
  | cons key rest ih =>
    intro pending
    have h := ih (pending.filter (fun k => decide (k ≠ key)))
    unfold pollEnd at h ⊢
    rw [List.foldl_cons, h, List.filter_filter]
    congr 1
    funext k
    simp only [List.mem_cons, not_or, Bool.decide_and, ne_eq]
    exact Bool.and_comm _ _

theorem mem_pollEnd (pending keys : List String) (k : String) :
    k ∈ pollEnd pending keys ↔ k ∈ pending ∧ k ∉ keys := by
  rw [pollEnd_eq]
  simp

/-- Deleting keys that were appended to the map and were not in it gives the
map back. -/
theorem pollEnd_append (pending keys : List String) (h : ∀ k ∈ keys, k ∉ pending) :
    pollEnd (pending ++ keys) keys = pending := by
  rw [pollEnd_eq, List.filter_append]
  have h1 : List.filter (fun k => decide (k ∉ keys)) pending = pending := by
    rw [List.filter_eq_self]
    intro k hk
    have : k ∉ keys := fun hk2 => h k hk2 hk
    simpa using this
  have h2 : List.filter (fun k => decide (k ∉ keys)) keys = [] := by
    rw [List.filter_eq_nil_iff]
    intro k hk
    simpa using hk
  rw [h1, h2, List.append_nil]

/-- `Poll` in terms of the result of its dedup loop. -/
theorem poll_unfold (p : realPoller) (env : Env) (exporter agent : Addr) (port : Nat)
    (ifIndexes : List Nat) (a : List String) (b : List Nat) (c : List String)
    (h : beginLoop (env.str exporter) ifIndexes (p.pendingRequests, [], []) = (a, b, c)) :
    p.Poll env exporter agent port ifIndexes =
      if b.length = 0 then ({ p with pendingRequests := a }, pure (none, []))
      else ({ p with pendingRequests := pollEnd a c },
        pollBody p.config env exporter agent port b) := by
  unfold realPoller.Poll
  simp only [h]

/-- C14: `Poll` removes exactly the keys it inserted.  For every poller,
environment and arguments (so on every exit path: nothing retained, GET
canceled, GET error, whole-PDU error, sysName failure, completion, and also a
panic), the first section appends to the map the keys of the retained indexes,
none of which was in the map, and the map after `Poll` is the map before it. -/
theorem poll_restores_pending (p : realPoller) (env : Env) (exporter agent : Addr) (port : Nat)
    (ifIndexes : List Nat) :
    (beginLoop (env.str exporter) ifIndexes (p.pendingRequests, [], [])).1 =
      p.pendingRequests ++
        (beginLoop (env.str exporter) ifIndexes (p.pendingRequests, [], [])).2.2 ∧
    (∀ k ∈ (beginLoop (env.str exporter) ifIndexes (p.pendingRequests, [], [])).2.2,
      k ∉ p.pendingRequests) ∧
    (p.Poll env exporter agent port ifIndexes).1.pendingRequests = p.pendingRequests ∧
    (p.Poll env exporter agent port ifIndexes).1.config = p.config := by
  obtain ⟨n, h1, _, h3, _⟩ := beginLoop_spec (env.str exporter) ifIndexes p.pendingRequests [] []
  refine ⟨by rw [h1]; simp, by rw [h1]; simpa using h3, ?_, ?_⟩
  · rw [poll_unfold p env exporter agent port ifIndexes _ _ _ h1]
    simp only [List.nil_append]
    by_cases hn : n.length = 0
    · have : n = [] := List.length_eq_zero.mp hn
      subst this
      simp
    · simp only [hn, if_false]
      exact pollEnd_append _ _ h3
  · rw [poll_unfold p env exporter agent port ifIndexes _ _ _ h1]
    split_ifs <;> rfl

theorem inv_start (st : PollerState) (h : st.Inv) (e : String) (l : List Nat) :
    (st.start e l).Inv := by
  obtain ⟨hw, hp, hu⟩ := h
  obtain ⟨n, h1, h2, h3, _⟩ := beginLoop_spec e l st.pendingRequests [] []
  unfold PollerState.start
  rw [h1]
  simp only [List.nil_append]
  refine ⟨?_, ?_, ?_⟩
  · intro c hc
    rcases List.mem_append.mp hc with hc | hc
    · exact hw c hc
    · simp only [List.mem_singleton] at hc
      subst hc
      exact ⟨rfl, h2⟩
  · rw [List.pairwise_append]
    refine ⟨hp, List.pairwise_singleton _ _, ?_⟩
    intro a ha b hb k hk
    simp only [List.mem_singleton] at hb
    subst hb
    intro hk2
    exact h3 k hk2 ((hu k).mpr ⟨a, ha, hk⟩)
  · intro k
    simp only [List.mem_append, List.mem_singleton]
    constructor
    · rintro (hk | hk)
      · obtain ⟨c, hc, hkc⟩ := (hu k).mp hk
        exact ⟨c, Or.inl hc, hkc⟩
      · exact ⟨_, Or.inr rfl, hk⟩
    · rintro ⟨c, hc | hc, hkc⟩
      · exact Or.inl ((hu k).mpr ⟨c, hc, hkc⟩)
      · subst hc
        exact Or.inr hkc

theorem inv_finish (st : PollerState) (h : st.Inv) (i : Nat) : (st.finish i).Inv := by
  obtain ⟨hw, hp, hu⟩ := h
  unfold PollerState.finish
  cases hc : st.calls[i]? with
  | none => exact ⟨hw, hp, hu⟩
  | some c =>
    simp only
    have hsub := List.eraseIdx_sublist st.calls i
    refine ⟨fun c2 hc2 => hw c2 (hsub.subset hc2), hp.sublist hsub, ?_⟩
    intro k
    rw [mem_pollEnd]
    have hi : i < st.calls.length := by
      rcases Nat.lt_or_ge i st.calls.length with h | h
      · exact h
      · rw [List.getElem?_eq_none h] at hc; cases hc
    have hci : st.calls[i] = c := by
      rw [List.getElem?_eq_getElem hi] at hc
      exact Option.some.inj hc
    have hdec : st.calls = st.calls.take i ++ c :: st.calls.drop (i + 1) := by
      rw [← hci]
      exact (List.take_append_drop i st.calls).symm.trans
        (by rw [List.drop_eq_getElem_cons hi])
    have her : st.calls.eraseIdx i = st.calls.take i ++ st.calls.drop (i + 1) :=
      List.eraseIdx_eq_take_drop_succ _ _
    rw [her]
    rw [hdec, List.pairwise_append] at hp
    obtain ⟨_, hp2, hp3⟩ := hp
    have hp4 := (List.pairwise_cons.mp hp2).1
    constructor
    · rintro ⟨hk, hnk⟩
      obtain ⟨c2, hc2, hk2⟩ := (hu k).mp hk
      rw [hdec] at hc2
      rcases List.mem_append.mp hc2 with hm | hm
      · exact ⟨c2, List.mem_append_left _ hm, hk2⟩
      · rcases List.mem_cons.mp hm with hm | hm
        · subst hm; exact absurd hk2 hnk
        · exact ⟨c2, List.mem_append_right _ hm, hk2⟩
    · rintro ⟨c2, hc2, hk2⟩
      rcases List.mem_append.mp hc2 with hm | hm
      · refine ⟨(hu k).mpr ⟨c2, (List.take_sublist _ _).subset hm, hk2⟩, ?_⟩
        exact hp3 c2 hm c (List.mem_cons_self _ _) k hk2
      · refine ⟨(hu k).mpr ⟨c2, (List.drop_sublist _ _).subset hm, hk2⟩, ?_⟩
        intro hkc
        exact hp4 c2 hm k hkc hk2

theorem inv_foldl (actions : List Action) :
    ∀ st : PollerState, st.Inv → (actions.foldl PollerState.apply st).Inv := by
  induction actions with
  | nil => intro st h; exact h
  | cons a rest ih =>
    intro st h
    rw [List.foldl_cons]
    apply ih
    cases a with
    | start e l => exact inv_start st h e l
    | finish i => exact inv_finish st h i

theorem inv_run (actions : List Action) : (PollerState.run actions).Inv :=
  inv_foldl actions _ ⟨by simp, List.Pairwise.nil, by simp⟩

theorem filter_length_le_one {α : Type} (P : α → Bool) (l : List α)
    (h : l.Pairwise (fun a b => ¬ (P a = true ∧ P b = true))) : (l.filter P).length ≤ 1 := by
  induction l with
  | nil => simp
  | cons a t ih =>
    obtain ⟨h1, h2⟩ := List.pairwise_cons.mp h
    by_cases hp : P a = true
    · have ht : t.filter P = [] := by
        rw [List.filter_eq_nil_iff]
        intro b hb hpb
        exact h1 b hb ⟨hp, hpb⟩
      rw [List.filter_cons_of_pos hp, ht]
      simp
    · rw [List.filter_cons_of_neg hp]
      exact ih h2

/-- C13: with the two mutex-protected sections of `Poll` as atomic steps, in
every state reached from the new poller by any sequence of steps: the key
lists held by two calls in flight share no key; a key is in the pending map
exactly when some call in flight holds it; for every exporter and `ifIndex` at
most one call in flight covers that interface; and the retained index list of
every call in flight has no index twice, its keys being those of its
indexes. -/
theorem poller_dedup (actions : List Action) :
    (PollerState.run actions).calls.Pairwise (fun a b => ∀ k, k ∈ a.keys → k ∉ b.keys) ∧
    (∀ k, k ∈ (PollerState.run actions).pendingRequests ↔
      ∃ c ∈ (PollerState.run actions).calls, k ∈ c.keys) ∧
    (∀ (e : String) (i : Nat),
      ((PollerState.run actions).calls.filter (fun c => c.covers e i)).length ≤ 1) ∧
    (∀ c ∈ (PollerState.run actions).calls,
      c.ifIndexes.Nodup ∧ c.keys = c.ifIndexes.map (pollKey c.exporterStr)) := by
  obtain ⟨hw, hp, hu⟩ := inv_run actions
  refine ⟨hp, hu, ?_, ?_⟩
  · intro e i
    apply filter_length_le_one
    refine hp.imp_of_mem ?_
    intro a b ha hb hab hcov
    obtain ⟨hca, hcb⟩ := hcov
    simp only [Call.covers, Bool.and_eq_true, decide_eq_true_eq] at hca hcb
    have hka : pollKey e i ∈ a.keys := by
      rw [(hw a ha).1, hca.1]
      exact List.mem_map_of_mem _ hca.2
    have hkb : pollKey e i ∈ b.keys := by
      rw [(hw b hb).1, hcb.1]
      exact List.mem_map_of_mem _ hcb.2
    exact hab _ hka hkb
  · intro c hc
    obtain ⟨h1, h2⟩ := hw c hc
    refine ⟨?_, h1⟩
    rw [h1] at h2
    exact List.Nodup.of_map _ h2

/-- The scenario of C13: `Poll(E, [1, 2])` in flight, then `Poll(E, [2, 3])`
retains `[3]` only; a repeated index is retained once. -/
theorem poller_dedup_example :
    PollerState.run [.start "192.0.2.1" [1, 2], .start "192.0.2.1" [2, 3, 3]] =
      ⟨["192.0.2.1@1", "192.0.2.1@2", "192.0.2.1@3"],
       [⟨"192.0.2.1", [1, 2], ["192.0.2.1@1", "192.0.2.1@2"]⟩,
        ⟨"192.0.2.1", [3], ["192.0.2.1@3"]⟩]⟩ ∧
    PollerState.run [.start "192.0.2.1" [1, 2], .start "192.0.2.1" [2, 3, 3], .finish 0] =
      ⟨["192.0.2.1@3"], [⟨"192.0.2.1", [3], ["192.0.2.1@3"]⟩]⟩ := by
  constructor <;> decide

/-! ## The poller: session, errors and cancellation -/

theorem poll_retained (p : realPoller) (env : Env) (exporter agent : Addr) (port : Nat)
    (ifIndexes : List Nat) (hne : retained p env exporter ifIndexes ≠ []) :
    (p.Poll env exporter agent port ifIndexes).2 =
      pollBody p.config env exporter agent port (retained p env exporter ifIndexes) := by
  have hn : ¬ (retained p env exporter ifIndexes).length = 0 := fun h =>
    hne (List.length_eq_zero.mp h)
  rw [poll_unfold p env exporter agent port ifIndexes _ _ _ rfl]
  unfold retained at hn ⊢
  simp only [hn, if_false]

theorem pollBody_canceled (config : pollerConfig) (env : Env) (exporter agent : Addr)
    (port : Nat) (l : List Nat)
    (h : env.Get (newSession config env exporter agent port) (buildRequests l) = .canceled) :
    pollBody config env exporter agent port l =
      .ok (none, connectEvents env (newSession config env exporter agent port)
        (env.str exporter)) := by
  unfold pollBody
  simp only [h]
  rfl

theorem pollBody_failed (config : pollerConfig) (env : Env) (exporter agent : Addr)
    (port : Nat) (l : List Nat) (err : String)
    (h : env.Get (newSession config env exporter agent port) (buildRequests l) = .failed err) :
    pollBody config env exporter agent port l =
      .ok (some (.get err), connectEvents env (newSession config env exporter agent port)
        (env.str exporter) ++ [.failure (env.str exporter) "get"]) := by
  unfold pollBody
  simp only [h]
  rfl

theorem pollBody_whole (config : pollerConfig) (env : Env) (exporter agent : Addr)
    (port : Nat) (l : List Nat) (result : SnmpPacket)
    (h : env.Get (newSession config env exporter agent port) (buildRequests l) = .ok result)
    (hw : result.wholeError) :
    pollBody config env exporter agent port l =
      .ok (some (.snmp result.Error), connectEvents env
        (newSession config env exporter agent port) (env.str exporter) ++
          [.failure (env.str exporter) "get"]) := by
  unfold pollBody
  have hw2 : result.Error ≠ 0 ∧ result.ErrorIndex = 0 := hw
  simp only [h]
  rw [if_pos hw2]
  rfl

/-- After a response without whole-request error: the sysName variable decides
between the error `unable to get sysName` and the interface loop. -/
theorem pollBody_vars (config : pollerConfig) (env : Env) (exporter agent : Addr)
    (port : Nat) (l : List Nat) (result : SnmpPacket)
    (h : env.Get (newSession config env exporter agent port) (buildRequests l) = .ok result)
    (hw : ¬ result.wholeError) :
    pollBody config env exporter agent port l =
      match (result.Variables[0]? : Option SnmpPDU) with
      | none => .error .outOfRange
      | some (SnmpPDU.OctetString sysNameVal) =>
        (pollLoop exporter (env.str exporter) sysNameVal result l (buildRequests l).length
          (buildRequests l).length 1
          ⟨"unknown", "", 0, connectEvents env (newSession config env exporter agent port)
            (env.str exporter) ++ []⟩).bind
          (fun st => .ok (none, st.events ++ [.seconds (env.str exporter)]))
      | some SnmpPDU.NoSuchInstance =>
        .ok (some .sysName, connectEvents env (newSession config env exporter agent port)
          (env.str exporter) ++ [.failure (env.str exporter) "sysname missing"])
      | some SnmpPDU.NoSuchObject =>
        .ok (some .sysName, connectEvents env (newSession config env exporter agent port)
          (env.str exporter) ++ [.failure (env.str exporter) "sysname missing"])
      | some _ =>
        .ok (some .sysName, connectEvents env (newSession config env exporter agent port)
          (env.str exporter) ++ [.failure (env.str exporter) "sysname unknown type"]) := by
  unfold pollBody
  have hw2 : ¬ (result.Error ≠ 0 ∧ result.ErrorIndex = 0) := hw
  simp only [h]
  rw [if_neg hw2]
  unfold processStr idx
  cases hv : result.Variables[0]? with
  | none => rfl
  | some v => cases v <;> rfl

theorem mem_connectEvents (env : Env) (g : GoSNMP) (e : String) :
    ∀ x ∈ connectEvents env g e, x = .failure e "connect" := by
  intro x hx
  unfold connectEvents at hx
  split at hx <;> simp at hx
  exact hx

/-- C18: when the exporter is found in the `SecurityParameters` map, the
session is SNMPv3 and its `MsgFlags` is a function of
(`AuthenticationProtocol == NoAuth`, `PrivacyProtocol == NoPriv`) only:
(true, true) and (true, false) give `NoAuthNoPriv`, (false, true) gives
`AuthNoPriv`, (false, false) gives `AuthPriv`; so `AuthPriv` is chosen only
with an authentication protocol.  An exporter absent from the map gets
SNMPv2c with the community of the `Communities` map, default `public`. -/
theorem newSession_msgFlags (config : pollerConfig) (env : Env) (exporter agent : Addr)
    (port : Nat) :
    (∀ sp, config.SecurityParameters.Lookup exporter = some sp →
      (newSession config env exporter agent port).Version = .Version3 ∧
      (newSession config env exporter agent port).MsgFlags =
        (match decide (sp.AuthenticationProtocol = NoAuth),
            decide (sp.PrivacyProtocol = NoPriv) with
         | true, true => .NoAuthNoPriv
         | false, true => .AuthNoPriv
         | false, false => .AuthPriv
         | true, false => .NoAuthNoPriv) ∧
      ((newSession config env exporter agent port).MsgFlags = .AuthPriv →
        sp.AuthenticationProtocol ≠ NoAuth) ∧
      (newSession config env exporter agent port).ContextName = sp.ContextName) ∧
    (config.SecurityParameters.Lookup exporter = none →
      (newSession config env exporter agent port).Version = .Version2c ∧
      (newSession config env exporter agent port).Community =
        (config.Communities.Lookup exporter).getD "public") := by
  constructor
  · intro sp hsp
    unfold newSession
    simp only [hsp]
    by_cases ha : sp.AuthenticationProtocol = NoAuth <;>
      by_cases hp : sp.PrivacyProtocol = NoPriv <;> simp [ha, hp]
  · intro hn
    simp [newSession, hn, SubnetMap.LookupOrDefault]

/-- Witness for C18: SHA authentication without privacy gives `AuthNoPriv`. -/
theorem newSession_msgFlags_witness :
    (newSession pollerConfig.v3 (Env.fixed none .canceled) exporterE exporterE 161).Version =
      .Version3 ∧
    (newSession pollerConfig.v3 (Env.fixed none .canceled) exporterE exporterE 161).MsgFlags =
      .AuthNoPriv :=
  let h := (newSession_msgFlags pollerConfig.v3 (Env.fixed none .canceled) exporterE exporterE
    161).1 ⟨"u", 3, "a", 1, "", "ctx"⟩ rfl
  ⟨h.1, h.2.1⟩

/-- C17, as stated, fails: when `Connect` fails and the GET is canceled after
two retries, `Poll` returns nil after having incremented
`failures{exporter, "connect"}`, and the `OnRetry` closure has incremented
`retries{exporter}` twice. -/
theorem poll_canceled_after_connect_failure :
    (realPoller.Poll ⟨pollerConfig.plain, []⟩ (Env.retrying 2 (some "refused") .canceled)
      exporterE exporterE 161 [3]).2 = .ok (none, [.failure "192.0.2.1" "connect"]) ∧
    realPoller.PollRetries ⟨pollerConfig.plain, []⟩ (Env.retrying 2 (some "refused") .canceled)
      exporterE exporterE 161 [3] = 2 :=
  ⟨rfl, rfl⟩

theorem pollRetries_retained (p : realPoller) (env : Env) (exporter agent : Addr) (port : Nat)
    (ifIndexes : List Nat) (hne : retained p env exporter ifIndexes ≠ []) :
    p.PollRetries env exporter agent port ifIndexes =
      env.Retried (newSession p.config env exporter agent port)
        (buildRequests (retained p env exporter ifIndexes)) := by
  have hn : ¬ (retained p env exporter ifIndexes).length = 0 := fun h =>
    hne (List.length_eq_zero.mp h)
  unfold retained at hn ⊢
  unfold realPoller.PollRetries
  simp only [hn, if_false]

/-- C17, amended: whenever the GET issued by `Poll` returns a context-canceled
error, `Poll` returns nil, invokes no `put`, and records no `successes`
increment, no `poller_seconds` observation and no `failures` increment other
than `failures{exporter, "connect"}`, which it has made, before the GET, exactly
when the preceding `Connect` failed; `retries{exporter}` has been incremented
once for each retry that the GET made before it returned. -/
theorem poll_canceled (p : realPoller) (env : Env) (exporter agent : Addr) (port : Nat)
    (ifIndexes : List Nat) (hne : retained p env exporter ifIndexes ≠ [])
    (hget : getOf p env exporter agent port ifIndexes = .canceled) :
    (p.Poll env exporter agent port ifIndexes).2 =
      .ok (none,
        match env.Connect (newSession p.config env exporter agent port) with
        | some _ => [.failure (env.str exporter) "connect"]
        | none => []) ∧
    p.PollRetries env exporter agent port ifIndexes =
      env.Retried (newSession p.config env exporter agent port)
        (buildRequests (retained p env exporter ifIndexes)) := by
  refine ⟨?_, pollRetries_retained p env exporter agent port ifIndexes hne⟩
  rw [poll_retained p env exporter agent port ifIndexes hne,
    pollBody_canceled p.config env exporter agent port _ hget]
  rfl

/-- Witness for C17: a GET canceled after one retry, `Connect` having
succeeded: nil, no event, and one increment of `retries`. -/
theorem poll_canceled_witness :
    (realPoller.Poll ⟨pollerConfig.plain, []⟩ (Env.retrying 1 none .canceled)
      exporterE exporterE 161 [3]).2 = .ok (none, []) ∧
    realPoller.PollRetries ⟨pollerConfig.plain, []⟩ (Env.retrying 1 none .canceled)
      exporterE exporterE 161 [3] = 1 :=
  poll_canceled ⟨pollerConfig.plain, []⟩ (Env.retrying 1 none .canceled) exporterE exporterE 161
    [3] (by decide) rfl

/-- C16: for every `Poll` call that retains at least one `ifIndex`, `Poll`
returns a non-nil error exactly when (a) the GET returns an error that is not
context-canceled, or (b) it succeeds with `Error != NoError` and
`ErrorIndex == 0`, or (c) it succeeds without such an error and the variable
at position 0 is not an `OctetString`; in case (c) the error is
`unable to get sysName`; and on every error return the events are failure
increments only: no `put`, no success and no timing observation. -/
theorem poll_error_iff (p : realPoller) (env : Env) (exporter agent : Addr) (port : Nat)
    (ifIndexes : List Nat) (hne : retained p env exporter ifIndexes ≠ []) :
    ((∃ e ev, (p.Poll env exporter agent port ifIndexes).2 = .ok (some e, ev)) ↔
      ((∃ err, getOf p env exporter agent port ifIndexes = .failed err) ∨
       (∃ result, getOf p env exporter agent port ifIndexes = .ok result ∧
          result.wholeError) ∨
       (∃ result v, getOf p env exporter agent port ifIndexes = .ok result ∧
          ¬ result.wholeError ∧ result.Variables[0]? = some v ∧
          ∀ s, v ≠ .OctetString s))) ∧
    (∀ result v, getOf p env exporter agent port ifIndexes = .ok result →
      ¬ result.wholeError → result.Variables[0]? = some v → (∀ s, v ≠ .OctetString s) →
      ∃ ev, (p.Poll env exporter agent port ifIndexes).2 = .ok (some .sysName, ev)) ∧
    (∀ e ev, (p.Poll env exporter agent port ifIndexes).2 = .ok (some e, ev) →
      ∀ x ∈ ev, ∃ reason, x = .failure (env.str exporter) reason) := by
  rw [poll_retained p env exporter agent port ifIndexes hne]
  have hc := mem_connectEvents env (newSession p.config env exporter agent port)
    (env.str exporter)
  have hev : ∀ (r : String) (x : Event),
      x ∈ connectEvents env (newSession p.config env exporter agent port) (env.str exporter) ++
        [.failure (env.str exporter) r] → ∃ reason, x = .failure (env.str exporter) reason := by
    intro r x hx
    rcases List.mem_append.mp hx with h | h
    · exact ⟨_, hc x h⟩
    · exact ⟨r, by simpa using h⟩
  cases hg : getOf p env exporter agent port ifIndexes with
  | canceled =>
    rw [pollBody_canceled p.config env exporter agent port _ hg]
    refine ⟨⟨?_, ?_⟩, ?_, ?_⟩
    · rintro ⟨e, ev, h⟩; cases h
    · rintro (⟨err, h⟩ | ⟨r, h, _⟩ | ⟨r, v, h, _⟩) <;> cases h
    · intro r v h; cases h
    · intro e ev h; cases h
  | failed err =>
    rw [pollBody_failed p.config env exporter agent port _ err hg]
    refine ⟨⟨fun _ => Or.inl ⟨err, rfl⟩, fun _ => ⟨_, _, rfl⟩⟩, ?_, ?_⟩
    · intro r v h; cases h
    · intro e ev h x hx
      cases h
      exact hev _ x hx
  | ok result =>
    by_cases hw : result.wholeError
    · rw [pollBody_whole p.config env exporter agent port _ result hg hw]
      refine ⟨⟨fun _ => Or.inr (Or.inl ⟨result, rfl, hw⟩), fun _ => ⟨_, _, rfl⟩⟩, ?_, ?_⟩
      · intro r v h hnw
        cases h
        exact absurd hw hnw
      · intro e ev h x hx
        cases h
        exact hev _ x hx
    · rw [pollBody_vars p.config env exporter agent port _ result hg hw]
      cases hv : result.Variables[0]? with
      | none =>
        refine ⟨⟨?_, ?_⟩, ?_, ?_⟩
        · rintro ⟨e, ev, h⟩; cases h
        · rintro (⟨err, h⟩ | ⟨r, h, hw2⟩ | ⟨r, v, h, _, h0, _⟩)
          · cases h
          · cases h; exact absurd hw2 hw
          · cases h; rw [hv] at h0; cases h0
        · intro r v h _ h0
          cases h; rw [hv] at h0; cases h0
        · intro e ev h; cases h
      | some v =>
        cases v with
        | OctetString s =>
          simp only
          refine ⟨⟨?_, ?_⟩, ?_, ?_⟩
          · rintro ⟨e, ev, h⟩
            cases hl : pollLoop exporter (env.str exporter) s result
              (retained p env exporter ifIndexes)
              (buildRequests (retained p env exporter ifIndexes)).length
              (buildRequests (retained p env exporter ifIndexes)).length 1
              ⟨"unknown", "", 0, connectEvents env
                (newSession p.config env exporter agent port) (env.str exporter) ++ []⟩ with
            | error f => rw [hl] at h; cases h
            | ok st => rw [hl] at h; cases h
          · rintro (⟨err, h⟩ | ⟨r, h, hw2⟩ | ⟨r, v, h, _, h0, hs⟩)
            · cases h
            · cases h; exact absurd hw2 hw
            · cases h
              rw [hv] at h0
              cases h0
              exact absurd rfl (hs s)
          · intro r v h _ h0 hs
            cases h
            rw [hv] at h0
            cases h0
            exact absurd rfl (hs s)
          · intro e ev h
            cases hl : pollLoop exporter (env.str exporter) s result
              (retained p env exporter ifIndexes)
              (buildRequests (retained p env exporter ifIndexes)).length
              (buildRequests (retained p env exporter ifIndexes)).length 1
              ⟨"unknown", "", 0, connectEvents env
                (newSession p.config env exporter agent port) (env.str exporter) ++ []⟩ with
            | error f => rw [hl] at h; cases h
            | ok st => rw [hl] at h; cases h
        | Gauge32 n =>
          simp only
          refine ⟨⟨fun _ => Or.inr (Or.inr ⟨result, _, rfl, hw, hv, by intro s; simp⟩),
            fun _ => ⟨_, _, rfl⟩⟩, fun _ _ _ _ _ _ => ⟨_, rfl⟩, ?_⟩
          intro e ev h x hx
          cases h
          exact hev _ x hx
        | NoSuchInstance =>
          simp only
          refine ⟨⟨fun _ => Or.inr (Or.inr ⟨result, _, rfl, hw, hv, by intro s; simp⟩),
            fun _ => ⟨_, _, rfl⟩⟩, fun _ _ _ _ _ _ => ⟨_, rfl⟩, ?_⟩
          intro e ev h x hx
          cases h
          exact hev _ x hx
        | NoSuchObject =>
          simp only
          refine ⟨⟨fun _ => Or.inr (Or.inr ⟨result, _, rfl, hw, hv, by intro s; simp⟩),
            fun _ => ⟨_, _, rfl⟩⟩, fun _ _ _ _ _ _ => ⟨_, rfl⟩, ?_⟩
          intro e ev h x hx
          cases h
          exact hev _ x hx
        | Other =>
          simp only
          refine ⟨⟨fun _ => Or.inr (Or.inr ⟨result, _, rfl, hw, hv, by intro s; simp⟩),
            fun _ => ⟨_, _, rfl⟩⟩, fun _ _ _ _ _ _ => ⟨_, rfl⟩, ?_⟩
          intro e ev h x hx
          cases h
          exact hev _ x hx

/-- Witness for C16: a GET that fails with a timeout makes `Poll` return an
error. -/
theorem poll_error_iff_witness :
    retained ⟨pollerConfig.plain, []⟩ (Env.fixed none (.failed "timeout")) exporterE [3] ≠ [] ∧
    ∃ e ev, (realPoller.Poll ⟨pollerConfig.plain, []⟩ (Env.fixed none (.failed "timeout"))
      exporterE exporterE 161 [3]).2 = .ok (some e, ev) :=
  ⟨by decide,
    (poll_error_iff ⟨pollerConfig.plain, []⟩ (Env.fixed none (.failed "timeout")) exporterE
      exporterE 161 [3] (by decide)).1.mpr (Or.inl ⟨"timeout", rfl⟩)⟩

/-! ## The poller: the interface loop -/

theorem buildRequests_foldl_length (l : List Nat) :
    ∀ acc : List String,
      (l.foldl
        (fun requests ifIndex =>
          requests ++
            ["1.3.6.1.2.1.2.2.1.2." ++ toString ifIndex,
             "1.3.6.1.2.1.31.1.1.1.18." ++ toString ifIndex,
             "1.3.6.1.2.1.31.1.1.1.15." ++ toString ifIndex]) acc).length =
        acc.length + 3 * l.length := by
  induction l with
  | nil => intro acc; simp
  | cons i rest ih =>
    intro acc
    rw [List.foldl_cons, ih]
    simp
    omega

theorem buildRequests_length (l : List Nat) : (buildRequests l).length = 1 + 3 * l.length := by
  unfold buildRequests
  rw [buildRequests_foldl_length]
  rfl

/-- What one call of `processStr` does on a variable that exists. -/
theorem processStr_spec (result : SnmpPacket) (e : String) (i : Nat) (what target : String)
    (m : Bool) (v : SnmpPDU) (hv : result.Variables[i]? = some v) :
    ∃ r val ev, processStr result e i what target m = .ok (r, val, ev) ∧
      (r = true → ev = []) ∧ (r = false → ∃ reason, ev = [.failure e reason]) ∧
      (∀ s, v = .OctetString s → r = true ∧ val = s) ∧
      (m = true → r = true → ∃ s, v = .OctetString s) := by
  unfold processStr idx
  rw [hv]
  cases v <;> cases m <;>
    exact ⟨_, _, _, rfl, by simp, by simp, by simp, by simp⟩

/-- What one call of `processUint` does on a variable that exists. -/
theorem processUint_spec (result : SnmpPacket) (e : String) (i : Nat) (what : String)
    (target : Nat) (m : Bool) (v : SnmpPDU) (hv : result.Variables[i]? = some v) :
    ∃ r val ev, processUint result e i what target m = .ok (r, val, ev) ∧
      (r = true → ev = []) ∧ (r = false → ∃ reason, ev = [.failure e reason]) ∧
      (∀ s, v = .Gauge32 s → r = true ∧ val = s) ∧
      (m = true → r = true → ∃ s, v = .Gauge32 s) := by
  unfold processUint idx
  rw [hv]
  cases v <;> cases m <;>
    exact ⟨_, _, _, rfl, by simp, by simp, by simp, by simp⟩

/-- The variables of the `k`-th retained index are accepted exactly when they are
an OctetString, an OctetString and a Gauge32. -/
theorem accepted_iff (result : SnmpPacket) (k : Nat) (v1 v2 v3 : SnmpPDU)
    (h1 : result.Variables[1 + 3 * k]? = some v1)
    (h2 : result.Variables[2 + 3 * k]? = some v2)
    (h3 : result.Variables[3 + 3 * k]? = some v3) (iface : Interface) :
    result.accepted k = some iface ↔
      v1 = .OctetString iface.Name ∧ v2 = .OctetString iface.Description ∧
        v3 = .Gauge32 iface.Speed := by
  unfold SnmpPacket.accepted
  rw [h1, h2, h3]
  cases iface
  cases v1 <;> cases v2 <;> cases v3 <;> simp

/-- One iteration of the interface loop, at the `k`-th retained index. -/
theorem pollLoop_step (exporter : Addr) (e sysName : String) (result : SnmpPacket)
    (ifIndexes : List Nat) (nreq fuel k i : Nat) (st : LoopState) (v1 v2 v3 : SnmpPDU)
    (hk : 1 + 3 * k < nreq - 2) (hi : ifIndexes[k]? = some i)
    (h1 : result.Variables[1 + 3 * k]? = some v1)
    (h2 : result.Variables[2 + 3 * k]? = some v2)
    (h3 : result.Variables[3 + 3 * k]? = some v3) :
    ∃ block st2,
      pollLoop exporter e sysName result ifIndexes nreq (fuel + 1) (1 + 3 * k) st =
        pollLoop exporter e sysName result ifIndexes nreq fuel (1 + 3 * (k + 1)) st2 ∧
      st2.events = st.events ++ block ∧ BlockOK exporter e sysName result k i block := by
  have hdiv : (1 + 3 * k - 1) / 3 = k := by omega
  have e2 : 1 + 3 * k + 1 = 2 + 3 * k := by omega
  have e3 : 1 + 3 * k + 2 = 3 + 3 * k := by omega
  have e4 : 1 + 3 * k + 3 = 1 + 3 * (k + 1) := by omega
  obtain ⟨r1, d, ev1, hp1, a1, b1, c1, d1⟩ :=
    processStr_spec result e (1 + 3 * k) "ifdescr" st.ifDescrVal (decide (i > 0)) v1 h1
  obtain ⟨r2, a, ev2, hp2, a2, b2, c2, d2⟩ :=
    processStr_spec result e (2 + 3 * k) "ifalias" st.ifAliasVal (decide (i > 0)) v2 h2
  obtain ⟨r3, s, ev3, hp3, a3, b3, c3, d3⟩ :=
    processUint_spec result e (3 + 3 * k) "ifspeed" st.ifSpeedVal (decide (i > 0)) v3 h3
  have hun : pollLoop exporter e sysName result ifIndexes nreq (fuel + 1) (1 + 3 * k) st =
      if (!(r1 && r2 && r3)) = true then
        pollLoop exporter e sysName result ifIndexes nreq fuel (1 + 3 * (k + 1))
          ⟨d, a, s, st.events ++ ev1 ++ ev2 ++ ev3⟩
      else
        pollLoop exporter e sysName result ifIndexes nreq fuel (1 + 3 * (k + 1))
          ⟨d, a, s, st.events ++ ev1 ++ ev2 ++ ev3 ++
            [.put exporter sysName i ⟨d, a, s⟩, .success e]⟩ := by
    rw [pollLoop, if_pos hk, hdiv, e2, e3, e4]
    unfold idx
    rw [hi]
    simp only [bind, Except.bind, hp1, hp2, hp3]
  rw [hun]
  have hfail : OnlyFailures e (ev1 ++ ev2 ++ ev3) := by
    intro x hx
    have hone : ∀ (r : Bool) (ev : List Event), (r = true → ev = []) →
        (r = false → ∃ reason, ev = [.failure e reason]) → x ∈ ev →
        ∃ reason, x = .failure e reason := by
      intro r ev ha hb hx
      cases r with
      | true => rw [ha rfl] at hx; cases hx
      | false =>
        obtain ⟨reason, hr⟩ := hb rfl
        rw [hr] at hx
        exact ⟨reason, by simpa using hx⟩
    rcases List.mem_append.mp hx with h | h
    · rcases List.mem_append.mp h with h | h
      · exact hone r1 ev1 a1 b1 h
      · exact hone r2 ev2 a2 b2 h
    · exact hone r3 ev3 a3 b3 h
  by_cases hok : (r1 && r2 && r3) = true
  · have hr1 : r1 = true := by revert hok; cases r1 <;> simp
    have hr2 : r2 = true := by revert hok; cases r2 <;> simp
    have hr3 : r3 = true := by revert hok; cases r3 <;> simp
    refine ⟨[.put exporter sysName i ⟨d, a, s⟩, .success e],
      ⟨d, a, s, st.events ++ [.put exporter sysName i ⟨d, a, s⟩, .success e]⟩, ?_, rfl,
      Or.inl ⟨_, rfl⟩, ?_⟩
    · simp [hr1, hr2, hr3, a1 hr1, a2 hr2, a3 hr3]
    · intro hpos
      have hm : decide (i > 0) = true := by simpa using hpos
      obtain ⟨s1, hs1⟩ := d1 hm hr1
      obtain ⟨s2, hs2⟩ := d2 hm hr2
      obtain ⟨s3, hs3⟩ := d3 hm hr3
      have hacc : result.accepted k = some ⟨d, a, s⟩ := by
        rw [(accepted_iff result k v1 v2 v3 h1 h2 h3 ⟨d, a, s⟩)]
        exact ⟨by rw [hs1, (c1 s1 hs1).2], by rw [hs2, (c2 s2 hs2).2],
          by rw [hs3, (c3 s3 hs3).2]⟩
      refine ⟨?_, ?_⟩
      · intro iface hif
        rw [hacc] at hif
        cases hif
        rfl
      · intro hn
        rw [hacc] at hn
        cases hn
  · have hne : ev1 ++ ev2 ++ ev3 ≠ [] := by
      intro hnil
      simp only [List.append_eq_nil] at hnil
      apply hok
      have q1 : r1 = true := by
        cases h : r1 with
        | true => rfl
        | false =>
          obtain ⟨reason, hr⟩ := b1 h
          rw [hr] at hnil
          exact absurd hnil.1.1 (by simp)
      have q2 : r2 = true := by
        cases h : r2 with
        | true => rfl
        | false =>
          obtain ⟨reason, hr⟩ := b2 h
          rw [hr] at hnil
          exact absurd hnil.1.2 (by simp)
      have q3 : r3 = true := by
        cases h : r3 with
        | true => rfl
        | false =>
          obtain ⟨reason, hr⟩ := b3 h
          rw [hr] at hnil
          exact absurd hnil.2 (by simp)
      simp [q1, q2, q3]
    refine ⟨ev1 ++ ev2 ++ ev3, ⟨d, a, s, st.events ++ ev1 ++ ev2 ++ ev3⟩, ?_, ?_,
      Or.inr ⟨hne, hfail⟩, ?_⟩
    · have hno : (!(r1 && r2 && r3)) = true := by
        revert hok; cases r1 <;> cases r2 <;> cases r3 <;> simp
      rw [if_pos hno]
    · simp
    · intro _
      refine ⟨?_, fun _ => ⟨hne, hfail⟩⟩
      intro iface hif
      rw [(accepted_iff result k v1 v2 v3 h1 h2 h3 iface)] at hif
      exact absurd (by simp [(c1 _ hif.1).1, (c2 _ hif.2.1).1, (c3 _ hif.2.2).1]) hok

/-- The interface loop from the `k`-th retained index on, with `m` indexes left:
it ends, and its events are one block per index. -/
theorem pollLoop_blocks (exporter : Addr) (e sysName : String) (result : SnmpPacket)
    (ifIndexes : List Nat) (nreq : Nat) (hreq : nreq = 1 + 3 * ifIndexes.length)
    (hlen : result.Variables.length = 1 + 3 * ifIndexes.length) :
    ∀ (m k fuel : Nat) (st : LoopState), k + m = ifIndexes.length → m < fuel →
      ∃ (blocks : List (List Event)) (st2 : LoopState), blocks.length = m ∧
        pollLoop exporter e sysName result ifIndexes nreq fuel (1 + 3 * k) st = .ok st2 ∧
        st2.events = st.events ++ blocks.flatten ∧
        ∀ j i, ifIndexes[k + j]? = some i →
          ∃ block, blocks[j]? = some block ∧ BlockOK exporter e sysName result (k + j) i block := by
  intro m
  induction m with
  | zero =>
    intro k fuel st hk hf
    obtain ⟨f, rfl⟩ : ∃ f, fuel = f + 1 := ⟨fuel - 1, by omega⟩
    refine ⟨[], st, rfl, ?_, by simp, ?_⟩
    · have hno : ¬ (1 + 3 * k < nreq - 2) := by omega
      rw [pollLoop, if_neg hno]
      rfl
    · intro j i hi
      have hlt : k + j < ifIndexes.length := by
        by_contra hc
        rw [List.getElem?_eq_none (by omega)] at hi
        cases hi
      omega
  | succ m ih =>
    intro k fuel st hk hf
    obtain ⟨f, rfl⟩ : ∃ f, fuel = f + 1 := ⟨fuel - 1, by omega⟩
    have hkn : k < ifIndexes.length := by omega
    have b1 : 1 + 3 * k < result.Variables.length := by omega
    have b2 : 2 + 3 * k < result.Variables.length := by omega
    have b3 : 3 + 3 * k < result.Variables.length := by omega
    obtain ⟨block, st1, hstep, hev, hblock⟩ :=
      pollLoop_step exporter e sysName result ifIndexes nreq f k ifIndexes[k] st
        result.Variables[1 + 3 * k] result.Variables[2 + 3 * k] result.Variables[3 + 3 * k]
        (by omega) (List.getElem?_eq_getElem hkn) (List.getElem?_eq_getElem b1)
        (List.getElem?_eq_getElem b2) (List.getElem?_eq_getElem b3)
    obtain ⟨blocks, st2, hl, hrun, hev2, hall⟩ := ih (k + 1) f st1 (by omega) (by omega)
    refine ⟨block :: blocks, st2, by simp [hl], by rw [hstep, hrun], ?_, ?_⟩
    · rw [hev2, hev]
      simp
    · intro j i hi
      cases j with
      | zero =>
        rw [Nat.add_zero, List.getElem?_eq_getElem hkn] at hi
        cases hi
        exact ⟨block, by simp, hblock⟩
      | succ j =>
        have hi2 : ifIndexes[k + 1 + j]? = some i := by
          rw [← hi]
          congr 1
          omega
        obtain ⟨b, hb, hbok⟩ := hall j i hi2
        refine ⟨b, by simpa using hb, ?_⟩
        have hidx : k + (j + 1) = k + 1 + j := by omega
        rw [hidx]
        exact hbok

theorem retained_nodup (p : realPoller) (env : Env) (exporter : Addr) (ifIndexes : List Nat) :
    (retained p env exporter ifIndexes).Nodup := by
  obtain ⟨n, h1, h2, _, _⟩ := beginLoop_spec (env.str exporter) ifIndexes p.pendingRequests [] []
  unfold retained
  rw [h1]
  simpa using List.Nodup.of_map _ h2

/-- C15: given a GET that succeeds with no whole-request error, a response of
exactly 1+3n variables for the n retained indexes and an OctetString sysName,
`Poll` returns nil without indexing out of range, and its events are the
`Connect` failure, if any, then one block per retained index, in order, then
the timing observation.  The block of the `k`-th index `i` is read from the
variables 1+3k, 2+3k, 3+3k: it is either `put(exporter, sysName, i, iface)`
followed by one increment of `successes`, or failures only; for `i > 0` it is
the `put` of the interface the three variables carry when their types are
OctetString, OctetString, Gauge32, and failures only otherwise.  The retained
indexes are distinct, so each is visited once, and a failed interface leaves
the blocks of the other indexes as they are.  The requests are sysName.0
followed by three OIDs per index. -/
theorem poll_interfaces (p : realPoller) (env : Env) (exporter agent : Addr) (port : Nat)
    (ifIndexes : List Nat) (result : SnmpPacket) (sysName : String)
    (hne : retained p env exporter ifIndexes ≠ [])
    (hget : getOf p env exporter agent port ifIndexes = .ok result)
    (hw : ¬ result.wholeError)
    (hlen : result.Variables.length = 1 + 3 * (retained p env exporter ifIndexes).length)
    (hsys : result.Variables[0]? = some (.OctetString sysName)) :
    (retained p env exporter ifIndexes).Nodup ∧
    (buildRequests (retained p env exporter ifIndexes)).length =
      1 + 3 * (retained p env exporter ifIndexes).length ∧
    ∃ blocks : List (List Event),
      blocks.length = (retained p env exporter ifIndexes).length ∧
      (p.Poll env exporter agent port ifIndexes).2 =
        .ok (none,
          connectEvents env (newSession p.config env exporter agent port) (env.str exporter) ++
            blocks.flatten ++ [.seconds (env.str exporter)]) ∧
      ∀ k i, (retained p env exporter ifIndexes)[k]? = some i →
        ∃ block, blocks[k]? = some block ∧
          BlockOK exporter (env.str exporter) sysName result k i block := by
  refine ⟨retained_nodup p env exporter ifIndexes, buildRequests_length _, ?_⟩
  obtain ⟨blocks, st2, hl, hrun, hev, hall⟩ :=
    pollLoop_blocks exporter (env.str exporter) sysName result
      (retained p env exporter ifIndexes)
      (buildRequests (retained p env exporter ifIndexes)).length
      (buildRequests_length _) hlen (retained p env exporter ifIndexes).length 0
      (buildRequests (retained p env exporter ifIndexes)).length
      ⟨"unknown", "", 0,
        connectEvents env (newSession p.config env exporter agent port) (env.str exporter) ++ []⟩
      (by omega) (by rw [buildRequests_length]; omega)
  refine ⟨blocks, hl, ?_, ?_⟩
  · rw [poll_retained p env exporter agent port ifIndexes hne,
      pollBody_vars p.config env exporter agent port _ result hget hw, hsys]
    simp only
    rw [Nat.mul_zero, Nat.add_zero] at hrun
    rw [hrun]
    simp only [Except.bind, hev, List.append_nil]
  · intro k i hi
    have h := hall k i (by rw [Nat.zero_add]; exact hi)
    rw [Nat.zero_add] at h
    exact h

/-- Witness for C15: the indexes [3, 4] with `ifDescr.4` missing give one `put`
for 3, one success, the failure `ifdescr missing`, the timing observation, and
a nil result. -/
theorem poll_interfaces_witness :
    ((retained ⟨pollerConfig.plain, []⟩ (Env.fixed none (.ok response34)) exporterE
        [3, 4]).Nodup ∧
      (buildRequests (retained ⟨pollerConfig.plain, []⟩ (Env.fixed none (.ok response34))
        exporterE [3, 4])).length =
        1 + 3 * (retained ⟨pollerConfig.plain, []⟩ (Env.fixed none (.ok response34)) exporterE
          [3, 4]).length ∧
      ∃ blocks : List (List Event),
        blocks.length = (retained ⟨pollerConfig.plain, []⟩ (Env.fixed none (.ok response34))
          exporterE [3, 4]).length ∧
        (realPoller.Poll ⟨pollerConfig.plain, []⟩ (Env.fixed none (.ok response34)) exporterE
          exporterE 161 [3, 4]).2 =
          .ok (none,
            connectEvents (Env.fixed none (.ok response34))
              (newSession pollerConfig.plain (Env.fixed none (.ok response34)) exporterE
                exporterE 161) ((Env.fixed none (.ok response34)).str exporterE) ++
              blocks.flatten ++ [.seconds ((Env.fixed none (.ok response34)).str exporterE)]) ∧
        ∀ k i, (retained ⟨pollerConfig.plain, []⟩ (Env.fixed none (.ok response34)) exporterE
            [3, 4])[k]? = some i →
          ∃ block, blocks[k]? = some block ∧
            BlockOK exporterE ((Env.fixed none (.ok response34)).str exporterE) "rt1"
              response34 k i block) ∧
    (realPoller.Poll ⟨pollerConfig.plain, []⟩ (Env.fixed none (.ok response34)) exporterE
      exporterE 161 [3, 4]).2 =
      .ok (none, [.put exporterE "rt1" 3 ⟨"eth0", "uplink", 10000⟩, .success "192.0.2.1",
        .failure "192.0.2.1" "ifdescr missing", .seconds "192.0.2.1"]) :=
  ⟨poll_interfaces ⟨pollerConfig.plain, []⟩ (Env.fixed none (.ok response34)) exporterE
    exporterE 161 [3, 4] response34 "rt1" (by decide) rfl (by decide) rfl rfl, rfl⟩

/-- C20 fails on the code at the batch [3, 0]: the variables `ifDescrVal`,
`ifAliasVal` and `ifSpeedVal` are declared once, before the loop, so the
interface 0, whose `ifDescr` is NoSuchInstance, is `put` with the name `eth0`
of the interface 3 that precedes it, not with `unknown`. -/
theorem poll_stale_descr :
    (realPoller.Poll ⟨pollerConfig.plain, []⟩ (Env.fixed none (.ok response30)) exporterE
      exporterE 161 [3, 0]).2 =
      .ok (none, [.put exporterE "rt1" 3 ⟨"eth0", "uplink", 10000⟩, .success "192.0.2.1",
        .put exporterE "rt1" 0 ⟨"eth0", "x", 5⟩, .success "192.0.2.1",
        .seconds "192.0.2.1"]) := by
  rfl

/-! ## Schema configuration: enabling and disabling columns -/

/-- Looking a key up after an update of the descriptors that keeps their keys. -/
theorem find_map_key (f : Column → Column) (hf : ∀ c, (f c).Key = c.Key) (key : ColumnKey) :
    ∀ l : List Column,
      (l.map f).find? (fun col => decide (col.Key = key)) =
        (l.find? (fun col => decide (col.Key = key))).map f := by
  intro l
  induction l with
  | nil => rfl
  | cons c rest ih =>
    by_cases hc : c.Key = key
    · simp [List.find?, hf, hc]
    · simp only [List.map_cons, List.find?, hf, hc, decide_False]
      exact ih

/-- C19: for every configuration whose `Enabled` and `Disabled` lists are
disjoint and hold known keys only, `New` succeeds, and in the resulting schema
`LookupColumnByKey` finds every listed key, with `Disabled == false` for each
key of `Enabled`, also one disabled by default, and `Disabled == true` for each
key of `Disabled`. -/
theorem new_enable_disable (defaults : List Column) (config : Configuration)
    (hdisj : ∀ k ∈ config.Enabled, k ∉ config.Disabled)
    (hknown : ∀ k ∈ config.Enabled ++ config.Disabled, ∃ c ∈ defaults, c.Key = k) :
    ∃ s, schema.New defaults config = .ok s ∧
      (∀ k ∈ config.Enabled,
        ∃ c, s.LookupColumnByKey k = some c ∧ c.Key = k ∧ c.Disabled = false) ∧
      (∀ k ∈ config.Disabled,
        ∃ c, s.LookupColumnByKey k = some c ∧ c.Key = k ∧ c.Disabled = true) := by
  have h1 : config.Enabled.find? (fun k => decide (k ∈ config.Disabled)) = none := by
    rw [List.find?_eq_none]
    intro k hk
    simpa using hdisj k hk
  have h2 : (config.Enabled ++ config.Disabled).find?
      (fun k => !(defaults.any (fun c => decide (c.Key = k)))) = none := by
    rw [List.find?_eq_none]
    intro k hk
    obtain ⟨c, hc, hkey⟩ := hknown k hk
    simp only [Bool.not_eq_true, Bool.not_eq_false_eq_eq_true, Bool.not_not, List.any_eq_true,
      decide_eq_true_eq, Bool.not_eq_true']
    simp
    exact ⟨c, hc, hkey⟩
  have hfound : ∀ k, (∃ c ∈ defaults, c.Key = k) →
      ∃ c, defaults.find? (fun col => decide (col.Key = k)) = some c ∧ c.Key = k := by
    intro k ⟨c, hc, hkey⟩
    cases hfind : defaults.find? (fun col => decide (col.Key = k)) with
    | none =>
      rw [List.find?_eq_none] at hfind
      exact absurd (by simpa using hkey) (hfind c hc)
    | some c0 =>
      exact ⟨c0, rfl, by simpa using List.find?_some hfind⟩
  refine ⟨_, by unfold schema.New; rw [h1]; simp only; rw [h2], ?_, ?_⟩
  · intro k hk
    obtain ⟨c, hc, hkey⟩ := hfound k (hknown k (List.mem_append_left _ hk))
    unfold Component.LookupColumnByKey
    simp only
    rw [find_map_key _ (by intro c; split_ifs <;> rfl) k, hc]
    refine ⟨_, rfl, ?_, ?_⟩
    · simp only [hkey, hk, if_true]
    · simp only [hkey, hk, if_true]
  · intro k hk
    obtain ⟨c, hc, hkey⟩ := hfound k (hknown k (List.mem_append_right _ hk))
    have hne : k ∉ config.Enabled := fun h => hdisj k h hk
    unfold Component.LookupColumnByKey
    simp only
    rw [find_map_key _ (by intro c; split_ifs <;> rfl) k, hc]
    refine ⟨_, rfl, ?_, ?_⟩
    · simp only [hkey, hk, hne, if_true, if_false]
    · simp only [hkey, hk, hne, if_true, if_false]

/-- Witness for C19: the configuration of `TestEnableDisableColumns`, on
defaults in which `DstVlan` and `SrcVlan` are disabled. -/
theorem new_enable_disable_witness :
    ∃ s, schema.New exampleDefaults exampleConfiguration = .ok s ∧
      (∀ k ∈ exampleConfiguration.Enabled,
        ∃ c, s.LookupColumnByKey k = some c ∧ c.Key = k ∧ c.Disabled = false) ∧
      (∀ k ∈ exampleConfiguration.Disabled,
        ∃ c, s.LookupColumnByKey k = some c ∧ c.Key = k ∧ c.Disabled = true) :=
  new_enable_disable exampleDefaults exampleConfiguration (by decide) (by decide)

/-- The test `TestEnableDisableColumns` on the modelled schema: `DstVlan` is
found and enabled, `DstCountry` is found and disabled. -/
theorem new_enable_disable_test :
    ∃ s, schema.New exampleDefaults exampleConfiguration = .ok s ∧
      s.LookupColumnByKey .DstVlan = some ⟨.DstVlan, some .L2, false⟩ ∧
      s.LookupColumnByKey .DstCountry = some ⟨.DstCountry, none, true⟩ :=
  ⟨_, rfl, rfl, rfl⟩

end Akvorado
